import Mathlib

/-!
# NachOS MP3 multilevel-feedback scheduler: shallow embedding

Embedding of `code/threads/thread.h`, `code/threads/scheduler.{h,cc}` and
`code/threads/alarm.cc`.

* A `Thread *` is a natural number (an address); the thread objects live in an
  arena `Kernel.threads : Nat → Thread`, so that a list of pointers and the
  fields of the objects pointed to are separate, exactly as in the C++ code.
* C++ `int` is `Int` (no arithmetic of the scheduler comes near the 32-bit
  range for priorities in 0..149), `double` is `ℚ` (only `<`, `==` and the
  halving average are used).
* A failed `ASSERT` is the result `none`.
* `DEBUG(dbgQLevel, ...)` lines append a `DebugEvent` to `Kernel.trace`.
-/

namespace Nachos

/-! ## thread.h -/

/-- Thread state, `enum ThreadStatus` of thread.h. -/
inductive ThreadStatus where
  | JUST_CREATED
  | RUNNING
  | READY
  | BLOCKED
  | ZOMBIE
  deriving DecidableEq

/-- Interrupt level of the interrupt gate (`IntOff` / `IntOn`). -/
inductive IntStatus where
  | IntOff
  | IntOn
  deriving DecidableEq

/-- The scheduling fields of `class Thread` (thread.h lines 133-143). -/
structure Thread where
  ID : Int
  status : ThreadStatus
  priority : Int
  queueLevel : Int
  startRunningTick : Int
  startWaitingTick : Int
  T : Int
  W : Int
  burstTime : ℚ
  deriving DecidableEq

namespace Thread

/-- Setter `setStatus` of thread.h line 102. -/
def setStatus (th : Thread) (st : ThreadStatus) : Thread := { th with status := st }

/-- Method `ResetRunningTicks` of thread.h line 118: `T = 0`. -/
def ResetRunningTicks (th : Thread) : Thread := { th with T := 0 }

/-- Method `ResetWaitingTicks` of thread.h line 119: `W = 0`. -/
def ResetWaitingTicks (th : Thread) : Thread := { th with W := 0 }

/-- Method `UpdateQueueLevel` of thread.h line 122. -/
def UpdateQueueLevel (th : Thread) (newLevel : Int) : Thread := { th with queueLevel := newLevel }

/-- Method `UpdatePriority` of thread.h line 124: `priority = min(priority + 10, 149)`. -/
def UpdatePriority (th : Thread) : Thread := { th with priority := min (th.priority + 10) 149 }

/-- Modelled from the spec: `Thread::UpdateRunningTicks` is declared in thread.h line 116 and
defined in thread.cc; spec 4.1: add (now − `startRunningTick`) to `T`. -/
def UpdateRunningTicks (th : Thread) (now : Int) : Thread :=
  { th with T := th.T + (now - th.startRunningTick) }

/-- Modelled from the spec: `Thread::UpdateWaitingTicks` is declared in thread.h line 117 and
defined in thread.cc; spec 4.1: add (now − `startWaitingTick`) to `W`. -/
def UpdateWaitingTicks (th : Thread) (now : Int) : Thread :=
  { th with W := th.W + (now - th.startWaitingTick) }

/-- Modelled from the spec: `Thread::ResetStartRunningTick` is declared in thread.h line 120 and
defined in thread.cc; spec 4.1: set the marker to the current tick. -/
def ResetStartRunningTick (th : Thread) (now : Int) : Thread :=
  { th with startRunningTick := now }

/-- Modelled from the spec: `Thread::ResetStartWaitingTick` is declared in thread.h line 121 and
defined in thread.cc; spec 4.1: set the marker to the current tick. -/
def ResetStartWaitingTick (th : Thread) (now : Int) : Thread :=
  { th with startWaitingTick := now }

/-- Modelled from the spec: `Thread::UpdateRemainBurst` is declared in thread.h line 123 and
defined in thread.cc; spec 3 and 4.1 (and the comment of thread.h line 143): exponential average
`burstTime ← 0.5·T + 0.5·burstTime`. -/
def UpdateRemainBurst (th : Thread) : Thread :=
  { th with burstTime := (1 / 2 : ℚ) * (th.T : ℚ) + (1 / 2 : ℚ) * th.burstTime }

end Thread

/-! ## The list library (lib/list.h), used by the scheduler -/

/-- Modelled from the spec: `List<T>::Append` of lib/list.h; spec 3 and 4.2.2: the ready list L3
is a FIFO sequence and insertion into it appends at the end. -/
def ListAppend (item : Nat) (l : List Nat) : List Nat := l ++ [item]

/-- Modelled from the spec: `List<T>::RemoveFront` of lib/list.h; spec 4.2.1: the element ordered
first is taken off the list and returned (nothing is returned for an empty list). -/
def ListRemoveFront (l : List Nat) : Option Nat × List Nat := (l.head?, l.tail)

/-- Modelled from the spec: `List<T>::Front` of lib/list.h; the element ordered first. -/
def ListFront (l : List Nat) : Option Nat := l.head?

/-- Modelled from the spec: `List<T>::IsEmpty` of lib/list.h. -/
def ListIsEmpty (l : List Nat) : Bool := l.isEmpty

/-- Modelled from the spec: `List<T>::NumInList` of lib/list.h; the number of elements. -/
def ListNumInList (l : List Nat) : Nat := l.length

/-- Modelled from the spec: `List<T>::IsInList` of lib/list.h; membership test. -/
def ListIsInList (item : Nat) (l : List Nat) : Bool := decide (item ∈ l)

/-- Modelled from the spec: `List<T>::Remove` of lib/list.h; spec 4.2.1: the thread is taken out
of the waiting list (one linked-list cell is unlinked). -/
def ListRemove (item : Nat) (l : List Nat) : List Nat := l.erase item

/-- Modelled from the spec: `SortedList<T>::Insert` of lib/list.h; spec 4.2.2 and 9: linear-scan
ordered insertion, the new element goes in front of the first element that compares strictly
greater, hence after existing equal elements. `compare x y` is negative when `x` sorts before
`y`. -/
def SortedListInsert (compare : Nat → Nat → Int) (item : Nat) : List Nat → List Nat
  | [] => [item]
  | x :: xs => if compare item x < 0 then item :: x :: xs else x :: SortedListInsert compare item xs

/-! ## Kernel state -/

/-- Lines of the `dbgQLevel` debug trace. -/
inductive DebugEvent where
  /-- `[A] Tick [tick]: Thread [id] is inserted into queue L[level]` -/
  | inserted (tick : Int) (id : Int) (level : Int)
  /-- `[B] Tick [tick]: Thread [id] is removed from queue L[level]` -/
  | removed (tick : Int) (id : Int) (level : Int)
  /-- `[E] Tick [tick]: Thread [next] is now selected for execution, thread [old] is replaced,
  and it has executed [ran] ticks` -/
  | selected (tick : Int) (next : Int) (old : Int) (ran : Int)
  deriving DecidableEq

/-- The scheduler object (scheduler.h lines 56-64) together with the globals it reads:
the thread arena, `kernel->currentThread`, `kernel->stats->totalTicks`, the interrupt level and
the yield-on-return flag of `kernel->interrupt`, and the debug trace. -/
structure Kernel where
  threads : Nat → Thread
  level1List : List Nat
  level2List : List Nat
  level3List : List Nat
  WaitingList : List Nat
  tmp : List Nat
  toBeDestroyed : Option Nat
  currentThread : Nat
  totalTicks : Int
  intLevel : IntStatus
  yieldOnReturn : Bool
  trace : List DebugEvent

/-- Assignment through a `Thread *`: the object at address `t` is replaced by `f` of it. -/
def Kernel.modifyThread (k : Kernel) (t : Nat) (f : Thread → Thread) : Kernel :=
  { k with threads := Function.update k.threads t (f (k.threads t)) }

/-- One `DEBUG(dbgQLevel, ...)` line. -/
def Kernel.debug (k : Kernel) (e : DebugEvent) : Kernel :=
  { k with trace := k.trace ++ [e] }

/-- Modelled from the spec: `Interrupt::YieldOnReturn` of machine/interrupt.h; spec 4.3 step 5
and 9: sets the boolean yield-on-return flag of the interrupt gate. -/
def YieldOnReturn (k : Kernel) : Kernel := { k with yieldOnReturn := true }

/-! ## scheduler.cc -/

/-- The constructor `Scheduler::Scheduler` (scheduler.cc lines 32-43): all five lists empty and
nothing to destroy; the remaining globals are given. -/
def Scheduler (threads : Nat → Thread) (currentThread : Nat) (totalTicks : Int)
    (intLevel : IntStatus) : Kernel :=
  { threads := threads, level1List := [], level2List := [], level3List := [], WaitingList := [],
    tmp := [], toBeDestroyed := none, currentThread := currentThread, totalTicks := totalTicks,
    intLevel := intLevel, yieldOnReturn := false, trace := [] }

/-- Comparator `Scheduler::Level1Comp` (scheduler.cc lines 71-76). -/
def Level1Comp (x y : Thread) : Int :=
  if x.burstTime < y.burstTime then -1
  else if x.burstTime = y.burstTime then 0
  else 1

/-- Comparator `Scheduler::Level2Comp` (scheduler.cc lines 89-94). -/
def Level2Comp (x y : Thread) : Int :=
  if x.priority > y.priority then -1
  else if x.priority = y.priority then 0
  else 1

/-- Method `Scheduler::InsertToReadyList` (scheduler.cc lines 104-121). -/
def InsertToReadyList (k : Kernel) (thread : Nat) : Kernel :=
  let priority := (k.threads thread).priority
  let k1 :=
    if priority ≤ 49 then
      let k0 := k.modifyThread thread (fun th => th.UpdateQueueLevel 3)
      { k0 with level3List := ListAppend thread k0.level3List }
    else if priority ≤ 99 then
      let k0 := k.modifyThread thread (fun th => th.UpdateQueueLevel 2)
      let compare := fun a b => Level2Comp (k0.threads a) (k0.threads b)
      { k0 with level2List := SortedListInsert compare thread k0.level2List }
    else
      let k0 := k.modifyThread thread (fun th => th.UpdateQueueLevel 1)
      let compare := fun a b => Level1Comp (k0.threads a) (k0.threads b)
      { k0 with level1List := SortedListInsert compare thread k0.level1List }
  k1.debug (DebugEvent.inserted k1.totalTicks (k1.threads thread).ID (k1.threads thread).queueLevel)

/-- Method `Scheduler::ReadyToRun` (scheduler.cc lines 134-149); `none` is the failed
`ASSERT(kernel->interrupt->getLevel() == IntOff)`. -/
def ReadyToRun (k : Kernel) (thread : Nat) : Option Kernel :=
  if k.intLevel ≠ IntStatus.IntOff then none
  else
    let k1 := k.modifyThread thread (fun th => th.setStatus ThreadStatus.READY)
    let k2 :=
      if (!ListIsEmpty k1.WaitingList && ListIsInList thread k1.WaitingList) = true then
        { k1 with WaitingList := ListRemove thread k1.WaitingList }
      else k1
    some (InsertToReadyList k2 thread)

/-- Method `Scheduler::FindNextToRun` (scheduler.cc lines 163-199); `none` is the failed
`ASSERT`, otherwise the returned pointer (`none` for `NULL`) and the new state. -/
def FindNextToRun (k : Kernel) : Option (Option Nat × Kernel) :=
  if k.intLevel ≠ IntStatus.IntOff then none
  else
    let r : Option Nat × Kernel :=
      if ListIsEmpty k.level1List = true then
        if ListIsEmpty k.level2List = true then
          if ListIsEmpty k.level3List = true then (none, k)
          else
            ((ListRemoveFront k.level3List).1,
              { k with level3List := (ListRemoveFront k.level3List).2 })
        else
          ((ListRemoveFront k.level2List).1,
            { k with level2List := (ListRemoveFront k.level2List).2 })
      else
        ((ListRemoveFront k.level1List).1,
          { k with level1List := (ListRemoveFront k.level1List).2 })
    match r with
    | (some nextThread, k1) =>
      some (some nextThread,
        k1.debug (DebugEvent.removed k1.totalTicks (k1.threads nextThread).ID
          (k1.threads nextThread).queueLevel))
    | (none, k1) => some (none, k1)

/-- Body of each of the four loops of `Scheduler::UpdateAllWaitTicks`:
`UpdateWaitingTicks(); ResetStartWaitingTick();` on the pointed-to thread. -/
def waitTick (k : Kernel) (t : Nat) : Kernel :=
  k.modifyThread t
    (fun th => (th.UpdateWaitingTicks k.totalTicks).ResetStartWaitingTick k.totalTicks)

/-- Method `Scheduler::UpdateAllWaitTicks` (scheduler.cc lines 323-352): a `ListIterator` pass
over L1, L2, L3 and the waiting list in turn. -/
def UpdateAllWaitTicks (k : Kernel) : Kernel :=
  let k1 := k.level1List.foldl waitTick k
  let k2 := k1.level2List.foldl waitTick k1
  let k3 := k2.level3List.foldl waitTick k2
  k3.WaitingList.foldl waitTick k3

/-- Body shared by the three draining loops of `Scheduler::Aging` after `RemoveFront`: the `[B]`
debug line, the promotion when `W >= 1500`, and `tmp->Append(cur)`. -/
def AgingVisit (k : Kernel) (cur : Nat) : Kernel :=
  let k1 := k.debug (DebugEvent.removed k.totalTicks (k.threads cur).ID (k.threads cur).queueLevel)
  let k2 := if (k1.threads cur).W ≥ 1500 then k1.modifyThread cur Thread.UpdatePriority else k1
  { k2 with tmp := ListAppend cur k2.tmp }

/-- First loop of `Scheduler::Aging` (scheduler.cc lines 366-373), `n = end - i`. -/
def AgingLoop3 : Nat → Kernel → Kernel
  | 0, k => k
  | n + 1, k =>
    match ListRemoveFront k.level3List with
    | (some cur, rest) => AgingLoop3 n (AgingVisit { k with level3List := rest } cur)
    | (none, _) => k

/-- Second loop of `Scheduler::Aging` (scheduler.cc lines 375-382). -/
def AgingLoop2 : Nat → Kernel → Kernel
  | 0, k => k
  | n + 1, k =>
    match ListRemoveFront k.level2List with
    | (some cur, rest) => AgingLoop2 n (AgingVisit { k with level2List := rest } cur)
    | (none, _) => k

/-- Third loop of `Scheduler::Aging` (scheduler.cc lines 384-391). -/
def AgingLoop1 : Nat → Kernel → Kernel
  | 0, k => k
  | n + 1, k =>
    match ListRemoveFront k.level1List with
    | (some cur, rest) => AgingLoop1 n (AgingVisit { k with level1List := rest } cur)
    | (none, _) => k

/-- Last loop of `Scheduler::Aging` (scheduler.cc lines 393-396): reinsertion from `tmp`. -/
def AgingLoopTmp : Nat → Kernel → Kernel
  | 0, k => k
  | n + 1, k =>
    match ListRemoveFront k.tmp with
    | (some cur, rest) => AgingLoopTmp n (InsertToReadyList { k with tmp := rest } cur)
    | (none, _) => k

/-- Method `Scheduler::Aging` (scheduler.cc lines 360-398). -/
def Aging (k : Kernel) : Kernel :=
  let k1 := AgingLoop3 (ListNumInList k.level3List) k
  let k2 := AgingLoop2 (ListNumInList k1.level2List) k1
  let k3 := AgingLoop1 (ListNumInList k2.level1List) k2
  AgingLoopTmp (ListNumInList k3.tmp) k3

/-- Method `Scheduler::WaitAppend` (scheduler.cc lines 405-408). -/
def WaitAppend (k : Kernel) (x : Nat) : Kernel :=
  { k with WaitingList := ListAppend x k.WaitingList }

/-- Method `Scheduler::Run` (scheduler.cc lines 218-256) up to the call of `SWITCH`: the result
is the state at the point of the context switch; `none` is a failed `ASSERT` (interrupt level at
line 235, `toBeDestroyed == NULL` at line 238). The address-space hooks and `CheckOverflow`
belong to the machine layer and touch no field of the model. -/
def Run (k : Kernel) (nextThread : Nat) (finishing : Bool) : Option Kernel :=
  let oldThread := k.currentThread
  let k1 :=
    if nextThread ≠ oldThread then
      let k0 := k.modifyThread oldThread (fun th => th.UpdateRunningTicks k.totalTicks)
      k0.debug (DebugEvent.selected k0.totalTicks (k0.threads nextThread).ID
        (k0.threads oldThread).ID (k0.threads oldThread).T)
    else k
  let k2 :=
    if (k1.threads oldThread).status = ThreadStatus.BLOCKED then
      k1.modifyThread oldThread Thread.ResetRunningTicks
    else k1
  if k2.intLevel ≠ IntStatus.IntOff then none
  else if finishing = true ∧ k2.toBeDestroyed ≠ none then none
  else
    let k3 := if finishing = true then { k2 with toBeDestroyed := some oldThread } else k2
    let k4 := k3.modifyThread oldThread Thread.ResetWaitingTicks
    let k5 := k4.modifyThread nextThread (fun th => th.ResetStartRunningTick k4.totalTicks)
    let k6 := { k5 with currentThread := nextThread }
    some (k6.modifyThread nextThread (fun th => th.setStatus ThreadStatus.RUNNING))

/-! ### The same three methods with the machine state at a failed `ASSERT` kept

`ASSERT` aborts the machine; what the method has written before the abort stays written.
`Except.error s` is the abort with the machine in state `s`, `Except.ok` the normal return. -/

/-- Method `Scheduler::ReadyToRun` (scheduler.cc lines 134-149) with the state at the abort
kept: the `ASSERT` of line 137 is the first statement, ahead of `setStatus(READY)`. -/
def ReadyToRunExcept (k : Kernel) (thread : Nat) : Except Kernel Kernel :=
  if k.intLevel ≠ IntStatus.IntOff then Except.error k
  else
    let k1 := k.modifyThread thread (fun th => th.setStatus ThreadStatus.READY)
    let k2 :=
      if (!ListIsEmpty k1.WaitingList && ListIsInList thread k1.WaitingList) = true then
        { k1 with WaitingList := ListRemove thread k1.WaitingList }
      else k1
    Except.ok (InsertToReadyList k2 thread)

/-- Method `Scheduler::FindNextToRun` (scheduler.cc lines 163-199) with the state at the abort
kept: the `ASSERT` of line 166 is the first statement, ahead of every `RemoveFront`. -/
def FindNextToRunExcept (k : Kernel) : Except Kernel (Option Nat × Kernel) :=
  if k.intLevel ≠ IntStatus.IntOff then Except.error k
  else
    let r : Option Nat × Kernel :=
      if ListIsEmpty k.level1List = true then
        if ListIsEmpty k.level2List = true then
          if ListIsEmpty k.level3List = true then (none, k)
          else
            ((ListRemoveFront k.level3List).1,
              { k with level3List := (ListRemoveFront k.level3List).2 })
        else
          ((ListRemoveFront k.level2List).1,
            { k with level2List := (ListRemoveFront k.level2List).2 })
      else
        ((ListRemoveFront k.level1List).1,
          { k with level1List := (ListRemoveFront k.level1List).2 })
    match r with
    | (some nextThread, k1) =>
      Except.ok (some nextThread,
        k1.debug (DebugEvent.removed k1.totalTicks (k1.threads nextThread).ID
          (k1.threads nextThread).queueLevel))
    | (none, k1) => Except.ok (none, k1)

/-- Method `Scheduler::Run` (scheduler.cc lines 218-256) up to the call of `SWITCH`, with the
state at the abort kept: the `ASSERT` of line 235 and the one of line 238 come after the
running-tick accounting of lines 224-232, so an abort leaves that accounting written. -/
def RunExcept (k : Kernel) (nextThread : Nat) (finishing : Bool) : Except Kernel Kernel :=
  let oldThread := k.currentThread
  let k1 :=
    if nextThread ≠ oldThread then
      let k0 := k.modifyThread oldThread (fun th => th.UpdateRunningTicks k.totalTicks)
      k0.debug (DebugEvent.selected k0.totalTicks (k0.threads nextThread).ID
        (k0.threads oldThread).ID (k0.threads oldThread).T)
    else k
  let k2 :=
    if (k1.threads oldThread).status = ThreadStatus.BLOCKED then
      k1.modifyThread oldThread Thread.ResetRunningTicks
    else k1
  if k2.intLevel ≠ IntStatus.IntOff then Except.error k2
  else if finishing = true ∧ k2.toBeDestroyed ≠ none then Except.error k2
  else
    let k3 := if finishing = true then { k2 with toBeDestroyed := some oldThread } else k2
    let k4 := k3.modifyThread oldThread Thread.ResetWaitingTicks
    let k5 := k4.modifyThread nextThread (fun th => th.ResetStartRunningTick k4.totalTicks)
    let k6 := { k5 with currentThread := nextThread }
    Except.ok (k6.modifyThread nextThread (fun th => th.setStatus ThreadStatus.RUNNING))

/-- Inline `Scheduler::Level1Empty` (scheduler.h line 40). -/
def Level1Empty (k : Kernel) : Bool := ListIsEmpty k.level1List

/-- Inline `Scheduler::Level2Empty` (scheduler.h line 41). -/
def Level2Empty (k : Kernel) : Bool := ListIsEmpty k.level2List

/-- Inline `Scheduler::Level3Empty` (scheduler.h line 42). -/
def Level3Empty (k : Kernel) : Bool := ListIsEmpty k.level3List

/-- Inline `Scheduler::GetLevel1Front` (scheduler.h line 43). -/
def GetLevel1Front (k : Kernel) : Option Nat := ListFront k.level1List

/-! ## alarm.cc -/

/-- Accounting step of `Alarm::CallBack` (alarm.cc lines 66-75) for the current thread. -/
def CallBackAccount (k : Kernel) : Kernel :=
  if (k.threads k.currentThread).status = ThreadStatus.BLOCKED then
    k.modifyThread k.currentThread
      (fun th => (th.UpdateWaitingTicks k.totalTicks).ResetStartWaitingTick k.totalTicks)
  else
    k.modifyThread k.currentThread
      (fun th => (th.UpdateRunningTicks k.totalTicks).ResetStartRunningTick k.totalTicks)

/-- State in which `Alarm::CallBack` takes its preemption decision: after the accounting step,
`UpdateAllWaitTicks()` and `Aging()` (alarm.cc lines 66-81). -/
def CallBackAged (k : Kernel) : Kernel := Aging (UpdateAllWaitTicks (CallBackAccount k))

/-- Preemption decision of `Alarm::CallBack` (alarm.cc lines 84-107), `currentThread` being the
pointer read at line 61. -/
def CallBackDecide (k : Kernel) (currentThread : Nat) : Kernel :=
  let currentLevel := (k.threads currentThread).queueLevel
  if currentLevel = 3 then
    if (k.threads currentThread).T ≥ 100 then YieldOnReturn k
    else if (!Level2Empty k) = true then YieldOnReturn k
    else k
  else if currentLevel = 2 then
    if (!Level1Empty k) = true then YieldOnReturn k
    else k
  else
    if (!Level1Empty k &&
        (match GetLevel1Front k with
          | some front => decide (Level1Comp (k.threads front) (k.threads currentThread) = -1)
          | none => false)) = true then YieldOnReturn k
    else k

/-- Handler `Alarm::CallBack` (alarm.cc lines 54-109). -/
def CallBack (k : Kernel) : Kernel := CallBackDecide (CallBackAged k) k.currentThread

/-! ## Vocabulary of the specification -/

/-- Band induced by a priority (spec 3): band 1 is 100..149, band 2 is 50..99, band 3 is 0..49;
the value is 0 outside the priority range 0..149. -/
def band (priority : Int) : Int :=
  if 100 ≤ priority ∧ priority ≤ 149 then 1
  else if 50 ≤ priority ∧ priority ≤ 99 then 2
  else if 0 ≤ priority ∧ priority ≤ 49 then 3
  else 0

/-- Queue level that the branches of `InsertToReadyList` assign to a priority. -/
def levelOfPriority (priority : Int) : Int :=
  if priority ≤ 49 then 3 else if priority ≤ 99 then 2 else 1

/-- Heap effect of the draining loops of `Aging` on the threads of `l`, visited in order: a
visited thread with `W >= 1500` gets `UpdatePriority`. -/
def agedThreads (h : Nat → Thread) (l : List Nat) : Nat → Thread :=
  l.foldl (fun h cur => if (h cur).W ≥ 1500 then Function.update h cur (h cur).UpdatePriority
    else h) h

/-- The `[B]` lines written by the draining loops of `Aging` for the threads of `l`, visited in
order from the heap `h`. -/
def agingTrace (now : Int) (h : Nat → Thread) : List Nat → List DebugEvent
  | [] => []
  | cur :: l =>
    DebugEvent.removed now (h cur).ID (h cur).queueLevel :: agingTrace now (agedThreads h [cur]) l

/-- State of `Aging` between its third and its last loop, with `tmp` already taken over by the
last loop: the three ready lists are drained and every drained thread has been visited. -/
def AgingDrained (k : Kernel) : Kernel :=
  { k with
    threads := agedThreads k.threads (k.level3List ++ k.level2List ++ k.level1List),
    level1List := [], level2List := [], level3List := [], tmp := [],
    trace := k.trace ++
      agingTrace k.totalTicks k.threads (k.level3List ++ k.level2List ++ k.level1List) }

/-- The scheduler operations of which call sequences are formed. -/
inductive SchedOp where
  | readyToRun (t : Nat)
  | findNextToRun
  | waitAppend (t : Nat)
  | updateAllWaitTicks
  | aging

/-- One scheduler call; `none` when an `ASSERT` of the operation fails. -/
def SchedOp.apply (k : Kernel) : SchedOp → Option Kernel
  | SchedOp.readyToRun t => ReadyToRun k t
  | SchedOp.findNextToRun => (FindNextToRun k).map Prod.snd
  | SchedOp.waitAppend t => some (WaitAppend k t)
  | SchedOp.updateAllWaitTicks => some (UpdateAllWaitTicks k)
  | SchedOp.aging => some (Aging k)

/-- A sequence of scheduler calls, each on the state left by the previous one. -/
def runOps : Kernel → List SchedOp → Option Kernel
  | k, [] => some k
  | k, op :: ops => (op.apply k).bind (fun k' => runOps k' ops)

/-- Band invariant in the terms of the code: a thread in ready list L_K has `queueLevel = K` and
a priority that `InsertToReadyList` routes to L_K. -/
def BandInv (k : Kernel) : Prop :=
  (∀ t ∈ k.level1List,
    (k.threads t).queueLevel = 1 ∧ levelOfPriority (k.threads t).priority = 1) ∧
  (∀ t ∈ k.level2List,
    (k.threads t).queueLevel = 2 ∧ levelOfPriority (k.threads t).priority = 2) ∧
  (∀ t ∈ k.level3List,
    (k.threads t).queueLevel = 3 ∧ levelOfPriority (k.threads t).priority = 3)

/-- Every thread object has its priority in the range 0..149 of the data model. -/
def PriorityRange (h : Nat → Thread) : Prop :=
  ∀ t, 0 ≤ (h t).priority ∧ (h t).priority ≤ 149

/-- Fields that the sweep of `UpdateAllWaitTicks` leaves alone. -/
def SameButWait (k k' : Kernel) : Prop :=
  k'.level1List = k.level1List ∧ k'.level2List = k.level2List ∧
  k'.level3List = k.level3List ∧ k'.WaitingList = k.WaitingList ∧ k'.tmp = k.tmp ∧
  k'.toBeDestroyed = k.toBeDestroyed ∧ k'.currentThread = k.currentThread ∧
  k'.totalTicks = k.totalTicks ∧ k'.intLevel = k.intLevel ∧
  k'.yieldOnReturn = k.yieldOnReturn ∧ k'.trace = k.trace ∧
  ∀ t, (k'.threads t).priority = (k.threads t).priority ∧
    (k'.threads t).queueLevel = (k.threads t).queueLevel ∧
    (k'.threads t).status = (k.threads t).status ∧
    (k'.threads t).T = (k.threads t).T ∧
    (k'.threads t).burstTime = (k.threads t).burstTime ∧
    (k'.threads t).ID = (k.threads t).ID ∧
    (k'.threads t).startRunningTick = (k.threads t).startRunningTick

/-- Order of a stably sorted list: `a` stands before `b` when its key is smaller, or the keys
are equal and `a` was inserted first (`idx` numbers the insertions). -/
def stableBefore {κ : Type} [LinearOrder κ] (key : Nat → κ) (idx : Nat → Nat) (a b : Nat) : Prop :=
  key a < key b ∨ (key a = key b ∧ idx a < idx b)

/-- `ReadyToRun` on each thread of a list, in order. -/
def readyAll : Kernel → List Nat → Option Kernel
  | k, [] => some k
  | k, t :: ts => (ReadyToRun k t).bind (fun k' => readyAll k' ts)

/-- The results of `n` successive `FindNextToRun` calls, and the final state. -/
def drain : Nat → Kernel → Option (List (Option Nat) × Kernel)
  | 0, k => some ([], k)
  | n + 1, k =>
    (FindNextToRun k).bind (fun r => (drain n r.2).map (fun q => (r.1 :: q.1, q.2)))

/-- Dispatch order of spec 4.2.4 between two threads made ready in the order of the list `ts`:
lower band number first; inside band 1 smaller `burstTime` first, inside band 2 higher priority
first, and otherwise (ties of band 1 and 2, all of band 3) the thread made ready first. -/
def dispatchBefore (threads : Nat → Thread) (ts : List Nat) (a b : Nat) : Prop :=
  band (threads a).priority < band (threads b).priority ∨
  (band (threads a).priority = band (threads b).priority ∧
    ((band (threads a).priority = 1 ∧
        ((threads a).burstTime < (threads b).burstTime ∨
          ((threads a).burstTime = (threads b).burstTime ∧ ts.indexOf a < ts.indexOf b))) ∨
      (band (threads a).priority = 2 ∧
        ((threads b).priority < (threads a).priority ∨
          ((threads a).priority = (threads b).priority ∧ ts.indexOf a < ts.indexOf b))) ∨
      (band (threads a).priority = 3 ∧ ts.indexOf a < ts.indexOf b)))

/-- State of the scheduler after the threads of `pre`, an initial segment of `ts`, have been made
ready from the empty scheduler over `threads`: the ready lists hold exactly `pre`, respect the
band invariant and are stably ordered by their keys. -/
def RoundTripInv (threads : Nat → Thread) (ts pre : List Nat) (k : Kernel) : Prop :=
  k.intLevel = IntStatus.IntOff ∧
  (∀ t, (k.threads t).priority = (threads t).priority ∧
    (k.threads t).burstTime = (threads t).burstTime) ∧
  (k.level1List ++ k.level2List ++ k.level3List).Perm pre ∧
  BandInv k ∧
  k.level1List.Pairwise (stableBefore (fun t => (threads t).burstTime) (fun a => ts.indexOf a)) ∧
  k.level2List.Pairwise (stableBefore (fun t => -(threads t).priority) (fun a => ts.indexOf a)) ∧
  k.level3List.Pairwise (fun a b => ts.indexOf a < ts.indexOf b)

/-- Sortedness of the two ordered ready lists by the current keys of their threads: L1 in
non-decreasing order of `burstTime`, L2 in non-increasing order of `priority`. -/
def SortedInv (k : Kernel) : Prop :=
  k.level1List.Pairwise (fun a b => (k.threads a).burstTime ≤ (k.threads b).burstTime) ∧
  k.level2List.Pairwise (fun a b => (k.threads b).priority ≤ (k.threads a).priority)

/-- `n` consecutive calls of `Aging`. -/
def AgingTimes : Nat → Kernel → Kernel
  | 0, k => k
  | n + 1, k => AgingTimes n (Aging k)

/-- A thread that runs `T` ticks and then blocks: `T` holds the ticks of the run when
`UpdateRemainBurst` is called at the transition RUNNING → BLOCKED. -/
def runThenBlock (th : Thread) (T : Int) : Thread :=
  Thread.UpdateRemainBurst { th with T := T }

/-- The `[B]` lines of one `Aging` call: one per queued thread, those of L3 first, then L2,
then L1, each with the queue level the thread has before the call. -/
def agingRemoved (k : Kernel) : List DebugEvent :=
  (k.level3List ++ k.level2List ++ k.level1List).map (fun t =>
    DebugEvent.removed k.totalTicks (k.threads t).ID (k.threads t).queueLevel)

/-- The `[A]` lines of one `Aging` call: one per queued thread, in the order of the `[B]` lines,
each with the queue level the thread has after the call. -/
def agingInserted (k : Kernel) : List DebugEvent :=
  (k.level3List ++ k.level2List ++ k.level1List).map (fun t =>
    DebugEvent.inserted k.totalTicks (k.threads t).ID ((Aging k).threads t).queueLevel)

/-- Test whether `InsertToReadyList` routes thread `t`, with its priority read from the heap
`h`, to the ready list of level `K`. -/
def levelIs (h : Nat → Thread) (K : Int) (t : Nat) : Bool :=
  decide (levelOfPriority (h t).priority = K)

/-! ## Concrete states used to exercise the theorems -/

/-- A thread object with the given id, priority, waiting ticks and burst estimate, freshly
created. -/
def demoThread (id priority W : Int) (burstTime : ℚ) : Thread :=
  { ID := id, status := ThreadStatus.JUST_CREATED, priority := priority, queueLevel := 0,
    startRunningTick := 0, startWaitingTick := 0, T := 0, W := W, burstTime := burstTime }

/-- An arena with six threads at addresses 1..6 (every other address holds an idle thread of
priority 0). -/
def demoThreads : Nat → Thread
  | 1 => demoThread 1 120 0 5
  | 2 => demoThread 2 110 0 3
  | 3 => demoThread 3 60 0 0
  | 4 => demoThread 4 70 1500 0
  | 5 => demoThread 5 40 1600 0
  | 6 => demoThread 6 20 0 0
  | _ => demoThread 0 0 0 0

/-- The empty scheduler over `demoThreads`, interrupts disabled, thread 0 current. -/
def demoEmpty : Kernel := Scheduler demoThreads 0 0 IntStatus.IntOff

/-- A scheduler state over `demoThreads` with L1 = [2, 1], L2 = [4, 3], L3 = [5, 6] and thread 7
in the waiting list. -/
def demoKernel : Kernel :=
  { demoEmpty with
    threads := fun t =>
      { demoThreads t with
        status := if t = 7 then ThreadStatus.BLOCKED else ThreadStatus.READY,
        queueLevel := if t = 1 ∨ t = 2 then 1 else if t = 3 ∨ t = 4 then 2 else 3 },
    level1List := [2, 1], level2List := [4, 3], level3List := [5, 6], WaitingList := [7] }

/-- A call sequence on `demoEmpty`: six threads are made ready, one is parked in the waiting
list, the wait ticks are swept, aging runs and one thread is dispatched. -/
def demoOps : List SchedOp :=
  [SchedOp.readyToRun 5, SchedOp.readyToRun 1, SchedOp.readyToRun 3, SchedOp.readyToRun 6,
    SchedOp.readyToRun 2, SchedOp.readyToRun 4, SchedOp.waitAppend 7,
    SchedOp.updateAllWaitTicks, SchedOp.aging, SchedOp.findNextToRun]

/-- The state reached from `demoEmpty` by `demoOps`. -/
def demoReached : Kernel := (runOps demoEmpty demoOps).getD demoEmpty

/-- Arena of the band-dominance scenario (spec 8, scenario 2): thread 6 (priority 10, band 3) is
running since tick 0, thread 1 (priority 120, band 1) is freshly created. -/
def dominanceThreads : Nat → Thread := fun t =>
  if t = 6 then { demoThread 6 10 0 0 with status := ThreadStatus.RUNNING, queueLevel := 3 }
  else if t = 1 then demoThread 1 120 0 0
  else demoThread 0 0 0 0

/-- State of the band-dominance scenario at tick 20: thread 6 is current and thread 1 has just
been made ready. -/
def demoDominance : Kernel :=
  (ReadyToRun (Scheduler dominanceThreads 6 20 IntStatus.IntOff) 1).getD
    (Scheduler dominanceThreads 6 20 IntStatus.IntOff)

/-- A state in which thread 1 (band 1, `burstTime` 5) is running and thread 2 (band 1,
`burstTime` 3) waits in L1. -/
def demoSrtf : Kernel :=
  { demoKernel with
    threads := fun t =>
      if t = 1 then { demoKernel.threads 1 with status := ThreadStatus.RUNNING }
      else demoKernel.threads t,
    currentThread := 1, level1List := [2], level2List := [], level3List := [],
    totalTicks := 10 }

/-- A state at tick 100 in which thread 6 (band 3) is running since tick 0 and thread 8 (band 3)
waits in L3. -/
def demoQuantum : Kernel :=
  { demoKernel with
    threads := fun t =>
      if t = 6 then { demoKernel.threads 6 with status := ThreadStatus.RUNNING }
      else demoKernel.threads t,
    currentThread := 6, level1List := [], level2List := [], level3List := [8],
    totalTicks := 100 }

/-- A state in which thread 3 (band 2) is running, thread 2 waits in L1 and thread 4 in L2. -/
def demoBand2 : Kernel :=
  { demoKernel with
    threads := fun t =>
      if t = 3 then { demoKernel.threads 3 with status := ThreadStatus.RUNNING, T := 250 }
      else demoKernel.threads t,
    currentThread := 3, level1List := [2], level2List := [4], level3List := [5, 6],
    totalTicks := 10 }

/-- A state at tick 50 in which thread 6 (band 3) is running and thread 5 (band 3, `W = 1600`
accumulated while queued) is alone in L3. -/
def dispatchBase : Kernel :=
  { demoKernel with
    threads := fun t =>
      if t = 6 then { demoKernel.threads 6 with status := ThreadStatus.RUNNING }
      else demoKernel.threads t,
    currentThread := 6, level1List := [], level2List := [], level3List := [5],
    WaitingList := [], totalTicks := 50 }

/-- The state in which `Thread::Yield` of thread 6 calls `Run`: `FindNextToRun` has returned
thread 5 and thread 6 has been put back with `ReadyToRun`. -/
def demoDispatch : Kernel :=
  ((FindNextToRun dispatchBase).bind (fun r => ReadyToRun r.2 6)).getD dispatchBase

/-- The state `demoKernel` at tick 30 with interrupts enabled. -/
def demoEnabled : Kernel :=
  { demoKernel with intLevel := IntStatus.IntOn, totalTicks := 30 }

/-- The call sequence `demoOps` up to and including its `Aging` call, which raises thread 4 of
L2 from priority 70 to 80 and moves thread 5 from L3 into L2. -/
def demoAgingOps : List SchedOp := demoOps.take 9

/-- The state reached from `demoEmpty` by `demoAgingOps`, immediately after the `Aging` call. -/
def demoAged : Kernel := (runOps demoEmpty demoAgingOps).getD demoEmpty

/-- The state `demoKernel` in which the BLOCKED thread 7 of the waiting list has priority 30
and has accumulated `W = 1700` waiting ticks. -/
def demoCarry : Kernel :=
  { demoKernel with
    threads := fun u =>
      if u = 7 then { demoKernel.threads 7 with priority := 30, W := 1700 }
      else demoKernel.threads u }

/-- The state `demoKernel` with the waiting ticks of every thread cleared: nothing has aged. -/
def demoCalm : Kernel :=
  { demoKernel with threads := fun u => { demoKernel.threads u with W := 0 } }

/-- The state `demoKernel` (L1 = [2, 1], L2 = [4, 3], L3 = [5, 6]) in which thread 3 has
priority 50 and thread 4 has priority 95, `W = 1500` and burst estimate 3: aging lifts thread 5
from 40 to 50, the priority of thread 3, and thread 4 from 95 to 105 with the burst estimate of
thread 2. -/
def demoTie : Kernel :=
  { demoKernel with
    threads := fun u =>
      if u = 3 then { demoKernel.threads 3 with priority := 50 }
      else if u = 4 then { demoKernel.threads 4 with priority := 95, burstTime := 3 }
      else demoKernel.threads u }

/-! ## Elementary facts about the operations -/

section Basics

variable (k : Kernel) (t : Nat)

theorem mem_SortedListInsert (c : Nat → Nat → Int) (x a : Nat) (l : List Nat) :
    a ∈ SortedListInsert c x l ↔ a = x ∨ a ∈ l := by
  induction l with
  | nil => simp [SortedListInsert]
  | cons y ys ih =>
    unfold SortedListInsert
    split
    · simp
    · simp only [List.mem_cons, ih]
      tauto

theorem levelOfPriority_eq_band (p : Int) (h0 : 0 ≤ p) (h1 : p ≤ 149) :
    levelOfPriority p = band p := by
  unfold levelOfPriority band
  split_ifs <;> omega

theorem InsertToReadyList_threads :
    (InsertToReadyList k t).threads =
      Function.update k.threads t
        ((k.threads t).UpdateQueueLevel (levelOfPriority (k.threads t).priority)) := by
  unfold InsertToReadyList levelOfPriority
  simp only [Kernel.modifyThread, Kernel.debug]
  split_ifs <;> rfl

theorem InsertToReadyList_frame :
    (InsertToReadyList k t).WaitingList = k.WaitingList ∧
    (InsertToReadyList k t).tmp = k.tmp ∧
    (InsertToReadyList k t).toBeDestroyed = k.toBeDestroyed ∧
    (InsertToReadyList k t).currentThread = k.currentThread ∧
    (InsertToReadyList k t).totalTicks = k.totalTicks ∧
    (InsertToReadyList k t).intLevel = k.intLevel ∧
    (InsertToReadyList k t).yieldOnReturn = k.yieldOnReturn := by
  unfold InsertToReadyList
  simp only [Kernel.modifyThread, Kernel.debug]
  split_ifs <;> simp

theorem InsertToReadyList_mem1 (a : Nat) :
    a ∈ (InsertToReadyList k t).level1List ↔
      a ∈ k.level1List ∨ (a = t ∧ levelOfPriority (k.threads t).priority = 1) := by
  unfold InsertToReadyList levelOfPriority
  simp only [Kernel.modifyThread, Kernel.debug]
  split_ifs <;> simp [mem_SortedListInsert]
  tauto

theorem InsertToReadyList_mem2 (a : Nat) :
    a ∈ (InsertToReadyList k t).level2List ↔
      a ∈ k.level2List ∨ (a = t ∧ levelOfPriority (k.threads t).priority = 2) := by
  unfold InsertToReadyList levelOfPriority
  simp only [Kernel.modifyThread, Kernel.debug]
  split_ifs <;> simp [mem_SortedListInsert]
  tauto

theorem InsertToReadyList_mem3 (a : Nat) :
    a ∈ (InsertToReadyList k t).level3List ↔
      a ∈ k.level3List ∨ (a = t ∧ levelOfPriority (k.threads t).priority = 3) := by
  unfold InsertToReadyList levelOfPriority
  simp only [Kernel.modifyThread, Kernel.debug]
  split_ifs <;> simp [ListAppend]

theorem FindNextToRun_front1 (hoff : k.intLevel = IntStatus.IntOff) (l : List Nat)
    (h1 : k.level1List = t :: l) :
    FindNextToRun k = some (some t, Kernel.debug { k with level1List := l }
      (DebugEvent.removed k.totalTicks (k.threads t).ID (k.threads t).queueLevel)) := by
  simp [FindNextToRun, hoff, h1, ListIsEmpty, ListRemoveFront]

theorem FindNextToRun_front2 (hoff : k.intLevel = IntStatus.IntOff) (l : List Nat)
    (h1 : k.level1List = []) (h2 : k.level2List = t :: l) :
    FindNextToRun k = some (some t, Kernel.debug { k with level2List := l }
      (DebugEvent.removed k.totalTicks (k.threads t).ID (k.threads t).queueLevel)) := by
  simp [FindNextToRun, hoff, h1, h2, ListIsEmpty, ListRemoveFront]

theorem FindNextToRun_front3 (hoff : k.intLevel = IntStatus.IntOff) (l : List Nat)
    (h1 : k.level1List = []) (h2 : k.level2List = []) (h3 : k.level3List = t :: l) :
    FindNextToRun k = some (some t, Kernel.debug { k with level3List := l }
      (DebugEvent.removed k.totalTicks (k.threads t).ID (k.threads t).queueLevel)) := by
  simp [FindNextToRun, hoff, h1, h2, h3, ListIsEmpty, ListRemoveFront]

theorem FindNextToRun_empty (hoff : k.intLevel = IntStatus.IntOff)
    (h1 : k.level1List = []) (h2 : k.level2List = []) (h3 : k.level3List = []) :
    FindNextToRun k = some (none, k) := by
  simp [FindNextToRun, hoff, h1, h2, h3, ListIsEmpty]

/-- The four outcomes of `FindNextToRun` with interrupts disabled, with the lists and the heap
of the resulting state. -/
theorem FindNextToRun_shape (hoff : k.intLevel = IntStatus.IntOff) :
    (∀ t r, k.level1List = t :: r →
      ∃ k', FindNextToRun k = some (some t, k') ∧ k'.level1List = r ∧
        k'.level2List = k.level2List ∧ k'.level3List = k.level3List ∧
        k'.WaitingList = k.WaitingList ∧ k'.threads = k.threads) ∧
    (∀ t r, k.level1List = [] → k.level2List = t :: r →
      ∃ k', FindNextToRun k = some (some t, k') ∧ k'.level2List = r ∧
        k'.level1List = k.level1List ∧ k'.level3List = k.level3List ∧
        k'.WaitingList = k.WaitingList ∧ k'.threads = k.threads) ∧
    (∀ t r, k.level1List = [] → k.level2List = [] → k.level3List = t :: r →
      ∃ k', FindNextToRun k = some (some t, k') ∧ k'.level3List = r ∧
        k'.level1List = k.level1List ∧ k'.level2List = k.level2List ∧
        k'.WaitingList = k.WaitingList ∧ k'.threads = k.threads) ∧
    (k.level1List = [] → k.level2List = [] → k.level3List = [] →
      FindNextToRun k = some (none, k)) :=
  ⟨fun t r h1 => ⟨_, FindNextToRun_front1 k t hoff r h1, rfl, rfl, rfl, rfl, rfl⟩,
    fun t r h1 h2 => ⟨_, FindNextToRun_front2 k t hoff r h1 h2, rfl, rfl, rfl, rfl, rfl⟩,
    fun t r h1 h2 h3 => ⟨_, FindNextToRun_front3 k t hoff r h1 h2 h3, rfl, rfl, rfl, rfl, rfl⟩,
    FindNextToRun_empty k hoff⟩

end Basics

/-! ## C1: FindNextToRun -/

/-- C1: with interrupts disabled, `FindNextToRun` returns the front of L1 if L1 is non-empty,
otherwise the front of L2 if L2 is non-empty, otherwise the front of L3 if L3 is non-empty,
otherwise none; the returned thread is taken off the list it came from, and the other two ready
lists, the waiting list and every thread object are unchanged. -/
theorem FindNextToRun_contract (k : Kernel) (hoff : k.intLevel = IntStatus.IntOff) :
    (∀ t r, k.level1List = t :: r →
      ∃ k', FindNextToRun k = some (some t, k') ∧ k'.level1List = r ∧
        k'.level2List = k.level2List ∧ k'.level3List = k.level3List ∧
        k'.WaitingList = k.WaitingList ∧ k'.threads = k.threads) ∧
    (∀ t r, k.level1List = [] → k.level2List = t :: r →
      ∃ k', FindNextToRun k = some (some t, k') ∧ k'.level2List = r ∧
        k'.level1List = k.level1List ∧ k'.level3List = k.level3List ∧
        k'.WaitingList = k.WaitingList ∧ k'.threads = k.threads) ∧
    (∀ t r, k.level1List = [] → k.level2List = [] → k.level3List = t :: r →
      ∃ k', FindNextToRun k = some (some t, k') ∧ k'.level3List = r ∧
        k'.level1List = k.level1List ∧ k'.level2List = k.level2List ∧
        k'.WaitingList = k.WaitingList ∧ k'.threads = k.threads) ∧
    (k.level1List = [] → k.level2List = [] → k.level3List = [] →
      FindNextToRun k = some (none, k)) := by
  refine ⟨?_, ?_, ?_, ?_⟩
  · intro t r h1
    simp [FindNextToRun, hoff, h1, ListIsEmpty, ListRemoveFront, Kernel.debug]
  · intro t r h1 h2
    simp [FindNextToRun, hoff, h1, h2, ListIsEmpty, ListRemoveFront, Kernel.debug]
  · intro t r h1 h2 h3
    simp [FindNextToRun, hoff, h1, h2, h3, ListIsEmpty, ListRemoveFront, Kernel.debug]
  · intro h1 h2 h3
    simp [FindNextToRun, hoff, h1, h2, h3, ListIsEmpty]

/-- Witness for C1: in `demoKernel` (L1 = [2, 1]) the call returns thread 2. -/
theorem FindNextToRun_contract_witness :
    demoKernel.intLevel = IntStatus.IntOff ∧
      (FindNextToRun demoKernel).map Prod.fst = some (some 2) := by
  refine ⟨rfl, ?_⟩
  obtain ⟨k', hk, _⟩ := (FindNextToRun_contract demoKernel rfl).1 2 [1] rfl
  rw [hk]
  rfl

/-! ## C2: ReadyToRun -/

theorem ReadyToRun_eq (k : Kernel) (t : Nat) (hoff : k.intLevel = IntStatus.IntOff) :
    ReadyToRun k t = some (InsertToReadyList
      { k with
        threads := Function.update k.threads t ((k.threads t).setStatus ThreadStatus.READY),
        WaitingList := if t ∈ k.WaitingList then k.WaitingList.erase t else k.WaitingList } t) := by
  unfold ReadyToRun
  simp only [hoff, ne_eq, not_true_eq_false, if_false, Kernel.modifyThread, ListIsInList,
    ListIsEmpty, ListRemove]
  congr 2
  by_cases hm : t ∈ k.WaitingList
  · have hne : k.WaitingList.isEmpty = false := by
      cases hl : k.WaitingList with
      | nil => rw [hl] at hm; simp at hm
      | cons a l => rfl
    simp [hm, hne]
  · simp [hm]

/-- C2: for a thread `t` that is in no ready list and occurs at most once in the waiting list,
with interrupts disabled, `ReadyToRun t` returns, and afterwards `t.status` is READY, `t` is not
in the waiting list, `t` is in exactly the ready list of the band of its priority (100..149: L1,
50..99: L2, 0..49: L3) and `t.queueLevel` is that band number. -/
theorem ReadyToRun_postcondition (k : Kernel) (t : Nat)
    (hoff : k.intLevel = IntStatus.IntOff)
    (h1 : t ∉ k.level1List) (h2 : t ∉ k.level2List) (h3 : t ∉ k.level3List)
    (hw : k.WaitingList.count t ≤ 1) :
    ∃ k', ReadyToRun k t = some k' ∧
      (k'.threads t).status = ThreadStatus.READY ∧
      t ∉ k'.WaitingList ∧
      (k'.threads t).priority = (k.threads t).priority ∧
      (100 ≤ (k.threads t).priority ∧ (k.threads t).priority ≤ 149 →
        t ∈ k'.level1List ∧ t ∉ k'.level2List ∧ t ∉ k'.level3List ∧
          (k'.threads t).queueLevel = 1) ∧
      (50 ≤ (k.threads t).priority ∧ (k.threads t).priority ≤ 99 →
        t ∉ k'.level1List ∧ t ∈ k'.level2List ∧ t ∉ k'.level3List ∧
          (k'.threads t).queueLevel = 2) ∧
      (0 ≤ (k.threads t).priority ∧ (k.threads t).priority ≤ 49 →
        t ∉ k'.level1List ∧ t ∉ k'.level2List ∧ t ∈ k'.level3List ∧
          (k'.threads t).queueLevel = 3) := by
  refine ⟨_, ReadyToRun_eq k t hoff, ?_, ?_, ?_, ?_, ?_, ?_⟩
  · simp [InsertToReadyList_threads, Thread.UpdateQueueLevel, Thread.setStatus]
  · rw [(InsertToReadyList_frame _ t).1]
    by_cases hm : t ∈ k.WaitingList
    · simp only [hm, if_true]
      intro hmem
      have hpos : 0 < (k.WaitingList.erase t).count t := List.count_pos_iff.mpr hmem
      rw [List.count_erase_self] at hpos
      omega
    · simp [hm]
  · simp [InsertToReadyList_threads, Thread.UpdateQueueLevel, Thread.setStatus]
  · intro hp
    simp only [InsertToReadyList_mem1, InsertToReadyList_mem2, InsertToReadyList_mem3,
      InsertToReadyList_threads]
    simp [Thread.UpdateQueueLevel, Thread.setStatus, levelOfPriority, h1, h2, h3]
    omega
  · intro hp
    simp only [InsertToReadyList_mem1, InsertToReadyList_mem2, InsertToReadyList_mem3,
      InsertToReadyList_threads]
    simp [Thread.UpdateQueueLevel, Thread.setStatus, levelOfPriority, h1, h2, h3]
    omega
  · intro hp
    simp only [InsertToReadyList_mem1, InsertToReadyList_mem2, InsertToReadyList_mem3,
      InsertToReadyList_threads]
    simp [Thread.UpdateQueueLevel, Thread.setStatus, levelOfPriority, h1, h2, h3]
    omega

/-- Witness for C2: thread 7 (priority 0, in the waiting list of `demoKernel`) is made ready. -/
theorem ReadyToRun_postcondition_witness :
    demoKernel.intLevel = IntStatus.IntOff ∧ 7 ∉ demoKernel.level1List ∧
      7 ∉ demoKernel.level2List ∧ 7 ∉ demoKernel.level3List ∧
      demoKernel.WaitingList.count 7 ≤ 1 ∧
      ∃ k', ReadyToRun demoKernel 7 = some k' ∧
        (k'.threads 7).status = ThreadStatus.READY ∧ 7 ∉ k'.WaitingList ∧
        7 ∈ k'.level3List ∧ 7 ∉ k'.level1List ∧ 7 ∉ k'.level2List ∧
        (k'.threads 7).queueLevel = 3 := by
  refine ⟨rfl, by decide, by decide, by decide, by decide, ?_⟩
  obtain ⟨k', hk, hs, hwl, _, _, _, h3⟩ :=
    ReadyToRun_postcondition demoKernel 7 rfl (by decide) (by decide) (by decide) (by decide)
  obtain ⟨a, b, c, d⟩ := h3 (by decide)
  exact ⟨k', hk, hs, hwl, c, a, b, d⟩

/-! ## Closed form of Aging -/

theorem AgingVisit_eq (k : Kernel) (cur : Nat) :
    AgingVisit k cur =
      { k with
        threads := agedThreads k.threads [cur],
        tmp := k.tmp ++ [cur],
        trace := k.trace ++
          [DebugEvent.removed k.totalTicks (k.threads cur).ID (k.threads cur).queueLevel] } := by
  unfold AgingVisit agedThreads
  simp only [Kernel.debug, Kernel.modifyThread, ListAppend, List.foldl_cons, List.foldl_nil]
  split_ifs <;> rfl

theorem agedThreads_append (h : Nat → Thread) (l l' : List Nat) :
    agedThreads h (l ++ l') = agedThreads (agedThreads h l) l' := by
  simp [agedThreads, List.foldl_append]

theorem agedThreads_cons (h : Nat → Thread) (a : Nat) (l : List Nat) :
    agedThreads h (a :: l) = agedThreads (agedThreads h [a]) l := by
  simp [agedThreads]

theorem agingTrace_append (now : Int) (h : Nat → Thread) (l l' : List Nat) :
    agingTrace now h (l ++ l') = agingTrace now h l ++ agingTrace now (agedThreads h l) l' := by
  induction l generalizing h with
  | nil => simp [agingTrace, agedThreads]
  | cons a l ih =>
    rw [List.cons_append, agingTrace, agingTrace, ih, agedThreads_cons h a l]
    rfl

theorem foldl_AgingVisit_eq (l : List Nat) (k : Kernel) :
    l.foldl AgingVisit k =
      { k with
        threads := agedThreads k.threads l,
        tmp := k.tmp ++ l,
        trace := k.trace ++ agingTrace k.totalTicks k.threads l } := by
  induction l generalizing k with
  | nil => simp [agedThreads, agingTrace]
  | cons a l ih =>
    simp only [List.foldl_cons, ih, AgingVisit_eq, agingTrace, agedThreads_cons k.threads a l]
    simp

theorem AgingLoop3_eq (l : List Nat) (k : Kernel) (h : k.level3List = l) :
    AgingLoop3 (ListNumInList l) k = l.foldl AgingVisit { k with level3List := [] } := by
  induction l generalizing k with
  | nil => cases k; simp only at h; subst h; rfl
  | cons a l ih =>
    simp only [ListNumInList, List.length_cons, AgingLoop3, h, ListRemoveFront, List.head?_cons,
      List.tail_cons, List.foldl_cons]
    have := ih (AgingVisit { k with level3List := l } a) (by simp [AgingVisit_eq])
    simp only [ListNumInList] at this
    rw [this]
    simp [AgingVisit_eq]

theorem AgingLoop2_eq (l : List Nat) (k : Kernel) (h : k.level2List = l) :
    AgingLoop2 (ListNumInList l) k = l.foldl AgingVisit { k with level2List := [] } := by
  induction l generalizing k with
  | nil => cases k; simp only at h; subst h; rfl
  | cons a l ih =>
    simp only [ListNumInList, List.length_cons, AgingLoop2, h, ListRemoveFront, List.head?_cons,
      List.tail_cons, List.foldl_cons]
    have := ih (AgingVisit { k with level2List := l } a) (by simp [AgingVisit_eq])
    simp only [ListNumInList] at this
    rw [this]
    simp [AgingVisit_eq]

theorem AgingLoop1_eq (l : List Nat) (k : Kernel) (h : k.level1List = l) :
    AgingLoop1 (ListNumInList l) k = l.foldl AgingVisit { k with level1List := [] } := by
  induction l generalizing k with
  | nil => cases k; simp only at h; subst h; rfl
  | cons a l ih =>
    simp only [ListNumInList, List.length_cons, AgingLoop1, h, ListRemoveFront, List.head?_cons,
      List.tail_cons, List.foldl_cons]
    have := ih (AgingVisit { k with level1List := l } a) (by simp [AgingVisit_eq])
    simp only [ListNumInList] at this
    rw [this]
    simp [AgingVisit_eq]

theorem InsertToReadyList_with_tmp (k : Kernel) (x : List Nat) (cur : Nat) :
    InsertToReadyList { k with tmp := x } cur = { InsertToReadyList k cur with tmp := x } := by
  unfold InsertToReadyList
  simp only [Kernel.modifyThread, Kernel.debug]
  split_ifs <;> rfl

theorem AgingLoopTmp_eq (l : List Nat) (k : Kernel) (h : k.tmp = l) :
    AgingLoopTmp (ListNumInList l) k = l.foldl InsertToReadyList { k with tmp := [] } := by
  induction l generalizing k with
  | nil => cases k; simp only at h; subst h; rfl
  | cons a l ih =>
    simp only [ListNumInList, List.length_cons, AgingLoopTmp, h, ListRemoveFront, List.head?_cons,
      List.tail_cons, List.foldl_cons]
    have := ih (InsertToReadyList { k with tmp := l } a) (by simp [InsertToReadyList_with_tmp])
    simp only [ListNumInList] at this
    rw [this]
    simp [InsertToReadyList_with_tmp]

theorem AgingLoop3_len (n : Nat) (k : Kernel) (h : n = k.level3List.length) :
    AgingLoop3 n k = k.level3List.foldl AgingVisit { k with level3List := [] } := by
  subst h
  exact AgingLoop3_eq _ k rfl

theorem AgingLoop2_len (n : Nat) (k : Kernel) (h : n = k.level2List.length) :
    AgingLoop2 n k = k.level2List.foldl AgingVisit { k with level2List := [] } := by
  subst h
  exact AgingLoop2_eq _ k rfl

theorem AgingLoop1_len (n : Nat) (k : Kernel) (h : n = k.level1List.length) :
    AgingLoop1 n k = k.level1List.foldl AgingVisit { k with level1List := [] } := by
  subst h
  exact AgingLoop1_eq _ k rfl

theorem AgingLoopTmp_len (n : Nat) (k : Kernel) (h : n = k.tmp.length) :
    AgingLoopTmp n k = k.tmp.foldl InsertToReadyList { k with tmp := [] } := by
  subst h
  exact AgingLoopTmp_eq _ k rfl

/-- Closed form of `Scheduler::Aging`: drain and visit L3, L2, L1 in this order, then reinsert
the old contents of `tmp` followed by the drained threads. -/
theorem Aging_eq (k : Kernel) :
    Aging k =
      (k.tmp ++ (k.level3List ++ k.level2List ++ k.level1List)).foldl InsertToReadyList
        (AgingDrained k) := by
  unfold Aging
  simp only [ListNumInList]
  simp only [AgingLoop3_len, AgingLoop2_len, AgingLoop1_len, AgingLoopTmp_len,
    foldl_AgingVisit_eq]
  simp only [AgingDrained, agedThreads_append, agingTrace_append, List.append_assoc,
    List.nil_append]

/-! ## The band invariant along call sequences (C3, C4, C5) -/

theorem BandInv_congr (k k' : Kernel) (h1 : k'.level1List = k.level1List)
    (h2 : k'.level2List = k.level2List) (h3 : k'.level3List = k.level3List)
    (hq : ∀ t, (k'.threads t).queueLevel = (k.threads t).queueLevel)
    (hp : ∀ t, (k'.threads t).priority = (k.threads t).priority) (h : BandInv k) :
    BandInv k' := by
  unfold BandInv at *
  simp only [h1, h2, h3, hq, hp]
  exact h

theorem BandInv_InsertToReadyList (k : Kernel) (u : Nat) (h : BandInv k) :
    BandInv (InsertToReadyList k u) := by
  obtain ⟨i1, i2, i3⟩ := h
  have key : ∀ (t : Nat) (K : Int),
      (t = u → levelOfPriority (k.threads u).priority = K) →
      (t ≠ u → (k.threads t).queueLevel = K ∧ levelOfPriority (k.threads t).priority = K) →
      ((InsertToReadyList k u).threads t).queueLevel = K ∧
        levelOfPriority ((InsertToReadyList k u).threads t).priority = K := by
    intro t K hu hne
    rw [InsertToReadyList_threads]
    by_cases htu : t = u
    · subst htu
      simp [Thread.UpdateQueueLevel, hu rfl]
    · simpa [Function.update_noteq htu] using hne htu
  refine ⟨?_, ?_, ?_⟩
  · intro t ht
    rw [InsertToReadyList_mem1] at ht
    apply key
    · intro htu
      rcases ht with ht | ht
      · exact htu ▸ (i1 t ht).2
      · exact ht.2
    · intro htu
      rcases ht with ht | ht
      · exact i1 t ht
      · exact absurd ht.1 htu
  · intro t ht
    rw [InsertToReadyList_mem2] at ht
    apply key
    · intro htu
      rcases ht with ht | ht
      · exact htu ▸ (i2 t ht).2
      · exact ht.2
    · intro htu
      rcases ht with ht | ht
      · exact i2 t ht
      · exact absurd ht.1 htu
  · intro t ht
    rw [InsertToReadyList_mem3] at ht
    apply key
    · intro htu
      rcases ht with ht | ht
      · exact htu ▸ (i3 t ht).2
      · exact ht.2
    · intro htu
      rcases ht with ht | ht
      · exact i3 t ht
      · exact absurd ht.1 htu

theorem BandInv_foldl_InsertToReadyList (l : List Nat) (k : Kernel) (h : BandInv k) :
    BandInv (l.foldl InsertToReadyList k) := by
  induction l generalizing k with
  | nil => exact h
  | cons a l ih => exact ih _ (BandInv_InsertToReadyList k a h)

theorem BandInv_Aging (k : Kernel) : BandInv (Aging k) := by
  rw [Aging_eq]
  apply BandInv_foldl_InsertToReadyList
  simp [BandInv, AgingDrained]

theorem BandInv_ReadyToRun (k k' : Kernel) (t : Nat) (h : BandInv k)
    (hr : ReadyToRun k t = some k') : BandInv k' := by
  by_cases hoff : k.intLevel = IntStatus.IntOff
  · rw [ReadyToRun_eq k t hoff] at hr
    cases hr
    apply BandInv_InsertToReadyList
    refine BandInv_congr k _ rfl rfl rfl ?_ ?_ h
    · intro u
      by_cases hu : u = t
      · subst hu; simp [Thread.setStatus]
      · simp [Function.update_noteq hu]
    · intro u
      by_cases hu : u = t
      · subst hu; simp [Thread.setStatus]
      · simp [Function.update_noteq hu]
  · simp [ReadyToRun, hoff] at hr

theorem FindNextToRun_cases (k : Kernel) (r : Option Nat) (k' : Kernel)
    (hf : FindNextToRun k = some (r, k')) :
    k.intLevel = IntStatus.IntOff ∧ k'.threads = k.threads ∧
    k'.WaitingList = k.WaitingList ∧ k'.tmp = k.tmp ∧
    ((∃ t l, k.level1List = t :: l ∧ r = some t ∧ k'.level1List = l ∧
        k'.level2List = k.level2List ∧ k'.level3List = k.level3List) ∨
      (∃ t l, k.level1List = [] ∧ k.level2List = t :: l ∧ r = some t ∧ k'.level1List = [] ∧
        k'.level2List = l ∧ k'.level3List = k.level3List) ∨
      (∃ t l, k.level1List = [] ∧ k.level2List = [] ∧ k.level3List = t :: l ∧ r = some t ∧
        k'.level1List = [] ∧ k'.level2List = [] ∧ k'.level3List = l) ∨
      (k.level1List = [] ∧ k.level2List = [] ∧ k.level3List = [] ∧ r = none ∧ k' = k)) := by
  have hoff : k.intLevel = IntStatus.IntOff := by
    by_contra hne
    simp [FindNextToRun, hne] at hf
  obtain ⟨c1, c2, c3, c4⟩ := FindNextToRun_shape k hoff
  refine ⟨hoff, ?_⟩
  cases h1 : k.level1List with
  | cons t l =>
    obtain ⟨k2, e, a1, a2, a3, a4, a5⟩ := c1 t l h1
    rw [e] at hf
    cases hf
    exact ⟨a5, a4, by simp [FindNextToRun, hoff, h1, ListIsEmpty, ListRemoveFront,
      Kernel.debug] at e; rw [← e], Or.inl ⟨t, l, rfl, rfl, a1, a2, a3⟩⟩
  | nil =>
    cases h2 : k.level2List with
    | cons t l =>
      obtain ⟨k2, e, a1, a2, a3, a4, a5⟩ := c2 t l h1 h2
      rw [e] at hf
      cases hf
      exact ⟨a5, a4, by simp [FindNextToRun, hoff, h1, h2, ListIsEmpty, ListRemoveFront,
        Kernel.debug] at e; rw [← e], Or.inr (Or.inl ⟨t, l, rfl, rfl, rfl, a2.trans h1, a1, a3⟩)⟩
    | nil =>
      cases h3 : k.level3List with
      | cons t l =>
        obtain ⟨k2, e, a1, a2, a3, a4, a5⟩ := c3 t l h1 h2 h3
        rw [e] at hf
        cases hf
        exact ⟨a5, a4, by simp [FindNextToRun, hoff, h1, h2, h3, ListIsEmpty, ListRemoveFront,
          Kernel.debug] at e; rw [← e], Or.inr (Or.inr (Or.inl
            ⟨t, l, rfl, rfl, rfl, rfl, a2.trans h1, a3.trans h2, a1⟩))⟩
      | nil =>
        have e := c4 h1 h2 h3
        rw [e] at hf
        cases hf
        exact ⟨rfl, rfl, rfl, Or.inr (Or.inr (Or.inr ⟨rfl, rfl, rfl, rfl, rfl⟩))⟩

theorem SameButWait_refl (k : Kernel) : SameButWait k k := by
  simp [SameButWait]

theorem SameButWait_trans (k k' k'' : Kernel) (h : SameButWait k k') (h' : SameButWait k' k'') :
    SameButWait k k'' := by
  obtain ⟨a1, a2, a3, a4, a5, a6, a7, a8, a9, a10, a11, a12⟩ := h
  obtain ⟨b1, b2, b3, b4, b5, b6, b7, b8, b9, b10, b11, b12⟩ := h'
  refine ⟨b1.trans a1, b2.trans a2, b3.trans a3, b4.trans a4, b5.trans a5, b6.trans a6,
    b7.trans a7, b8.trans a8, b9.trans a9, b10.trans a10, b11.trans a11, ?_⟩
  intro t
  obtain ⟨c1, c2, c3, c4, c5, c6, c7⟩ := a12 t
  obtain ⟨d1, d2, d3, d4, d5, d6, d7⟩ := b12 t
  exact ⟨d1.trans c1, d2.trans c2, d3.trans c3, d4.trans c4, d5.trans c5, d6.trans c6,
    d7.trans c7⟩

theorem SameButWait_waitTick (k : Kernel) (u : Nat) : SameButWait k (waitTick k u) := by
  refine ⟨rfl, rfl, rfl, rfl, rfl, rfl, rfl, rfl, rfl, rfl, rfl, ?_⟩
  intro t
  by_cases h : t = u
  · subst h
    simp [waitTick, Kernel.modifyThread, Thread.UpdateWaitingTicks, Thread.ResetStartWaitingTick]
  · simp [waitTick, Kernel.modifyThread, Function.update_noteq h]

theorem SameButWait_foldl (l : List Nat) (k : Kernel) : SameButWait k (l.foldl waitTick k) := by
  induction l generalizing k with
  | nil => exact SameButWait_refl k
  | cons a l ih => exact SameButWait_trans _ _ _ (SameButWait_waitTick k a) (ih _)

theorem SameButWait_UpdateAllWaitTicks (k : Kernel) : SameButWait k (UpdateAllWaitTicks k) := by
  unfold UpdateAllWaitTicks
  exact SameButWait_trans _ _ _ (SameButWait_trans _ _ _ (SameButWait_trans _ _ _
    (SameButWait_foldl _ k) (SameButWait_foldl _ _)) (SameButWait_foldl _ _))
    (SameButWait_foldl _ _)

theorem InsertToReadyList_priority (k : Kernel) (u t : Nat) :
    ((InsertToReadyList k u).threads t).priority = (k.threads t).priority := by
  rw [InsertToReadyList_threads]
  by_cases h : t = u
  · subst h; simp [Thread.UpdateQueueLevel]
  · simp [Function.update_noteq h]

theorem foldl_InsertToReadyList_priority (l : List Nat) (k : Kernel) (t : Nat) :
    ((l.foldl InsertToReadyList k).threads t).priority = (k.threads t).priority := by
  induction l generalizing k with
  | nil => rfl
  | cons a l ih => rw [List.foldl_cons, ih, InsertToReadyList_priority]

theorem PriorityRange_agedThreads (l : List Nat) (h : Nat → Thread) (hr : PriorityRange h) :
    PriorityRange (agedThreads h l) := by
  induction l generalizing h with
  | nil => exact hr
  | cons a l ih =>
    rw [agedThreads_cons]
    apply ih
    intro t
    simp only [agedThreads, List.foldl_cons, List.foldl_nil]
    split_ifs
    · by_cases hta : t = a
      · subst hta
        have := hr t
        simp only [Function.update_same, Thread.UpdatePriority]
        omega
      · simpa [Function.update_noteq hta] using hr t
    · exact hr t

theorem PriorityRange_Aging (k : Kernel) (hr : PriorityRange k.threads) :
    PriorityRange (Aging k).threads := by
  intro t
  rw [Aging_eq, foldl_InsertToReadyList_priority]
  exact PriorityRange_agedThreads _ _ hr t

theorem ReadyToRun_priority (k k' : Kernel) (u : Nat) (hr : ReadyToRun k u = some k') (t : Nat) :
    (k'.threads t).priority = (k.threads t).priority := by
  by_cases hoff : k.intLevel = IntStatus.IntOff
  · rw [ReadyToRun_eq k u hoff] at hr
    cases hr
    rw [InsertToReadyList_priority]
    by_cases h : t = u
    · subst h; simp [Thread.setStatus]
    · simp [Function.update_noteq h]
  · simp [ReadyToRun, hoff] at hr

theorem BandInv_FindNextToRun (k k' : Kernel) (r : Option Nat) (h : BandInv k)
    (hf : FindNextToRun k = some (r, k')) : BandInv k' := by
  obtain ⟨-, ht, -, -, hc⟩ := FindNextToRun_cases k r k' hf
  obtain ⟨i1, i2, i3⟩ := h
  unfold BandInv
  rw [ht]
  rcases hc with ⟨t, l, e1, -, f1, f2, f3⟩ | ⟨t, l, e1, e2, -, f1, f2, f3⟩ |
    ⟨t, l, e1, e2, e3, -, f1, f2, f3⟩ | ⟨-, -, -, -, rfl⟩
  · rw [f1, f2, f3]
    exact ⟨fun u hu => i1 u (by rw [e1]; exact List.mem_cons_of_mem _ hu), i2, i3⟩
  · rw [f1, f2, f3]
    exact ⟨by simp, fun u hu => i2 u (by rw [e2]; exact List.mem_cons_of_mem _ hu), i3⟩
  · rw [f1, f2, f3]
    exact ⟨by simp, by simp, fun u hu => i3 u (by rw [e3]; exact List.mem_cons_of_mem _ hu)⟩
  · exact ⟨i1, i2, i3⟩

theorem BandInv_apply (k k' : Kernel) (op : SchedOp) (h : BandInv k)
    (hr : op.apply k = some k') : BandInv k' := by
  cases op with
  | readyToRun t => exact BandInv_ReadyToRun k k' t h hr
  | findNextToRun =>
    simp only [SchedOp.apply, Option.map_eq_some'] at hr
    obtain ⟨⟨r, k2⟩, hf, rfl⟩ := hr
    exact BandInv_FindNextToRun k k2 r h hf
  | waitAppend t =>
    simp only [SchedOp.apply, Option.some.injEq] at hr
    subst hr
    exact h
  | updateAllWaitTicks =>
    simp only [SchedOp.apply, Option.some.injEq] at hr
    subst hr
    obtain ⟨a1, a2, a3, -, -, -, -, -, -, -, -, a12⟩ := SameButWait_UpdateAllWaitTicks k
    exact BandInv_congr k _ a1 a2 a3 (fun t => (a12 t).2.1) (fun t => (a12 t).1) h
  | aging =>
    simp only [SchedOp.apply, Option.some.injEq] at hr
    subst hr
    exact BandInv_Aging k

theorem PriorityRange_apply (k k' : Kernel) (op : SchedOp) (h : PriorityRange k.threads)
    (hr : op.apply k = some k') : PriorityRange k'.threads := by
  cases op with
  | readyToRun t =>
    intro u
    rw [ReadyToRun_priority k k' t hr u]
    exact h u
  | findNextToRun =>
    simp only [SchedOp.apply, Option.map_eq_some'] at hr
    obtain ⟨⟨r, k2⟩, hf, rfl⟩ := hr
    rw [(FindNextToRun_cases k r k2 hf).2.1]
    exact h
  | waitAppend t =>
    simp only [SchedOp.apply, Option.some.injEq] at hr
    subst hr
    exact h
  | updateAllWaitTicks =>
    simp only [SchedOp.apply, Option.some.injEq] at hr
    subst hr
    obtain ⟨-, -, -, -, -, -, -, -, -, -, -, a12⟩ := SameButWait_UpdateAllWaitTicks k
    intro u
    rw [(a12 u).1]
    exact h u
  | aging =>
    simp only [SchedOp.apply, Option.some.injEq] at hr
    subst hr
    exact PriorityRange_Aging k h

theorem runOps_invariants (ops : List SchedOp) (k k' : Kernel) (hb : BandInv k)
    (hrun : runOps k ops = some k') :
    BandInv k' ∧ (PriorityRange k.threads → PriorityRange k'.threads) := by
  induction ops generalizing k with
  | nil =>
    simp only [runOps, Option.some.injEq] at hrun
    subst hrun
    exact ⟨hb, id⟩
  | cons op ops ih =>
    simp only [runOps, Option.bind_eq_some] at hrun
    obtain ⟨k1, h1, h2⟩ := hrun
    obtain ⟨a, b⟩ := ih k1 (BandInv_apply k k1 op hb h1) h2
    exact ⟨a, fun hp => b (PriorityRange_apply k k1 op hp h1)⟩

theorem BandInv_Scheduler (threads : Nat → Thread) (cur : Nat) (now : Int) (lvl : IntStatus) :
    BandInv (Scheduler threads cur now lvl) := by
  simp [BandInv, Scheduler]

theorem PriorityRange_demoThreads : PriorityRange demoThreads := by
  intro t
  unfold demoThreads
  split <;> simp [demoThread]

theorem band_of_level (p K : Int) (h0 : 0 ≤ p) (h1 : p ≤ 149) (h : levelOfPriority p = K) :
    band p = K ∧ (K = 1 → 100 ≤ p ∧ p ≤ 149) ∧ (K = 2 → 50 ≤ p ∧ p ≤ 99) ∧
      (K = 3 → 0 ≤ p ∧ p ≤ 49) := by
  subst h
  unfold band levelOfPriority
  split_ifs <;> simp <;> omega

/-- C3: band invariant. In every state reached from the empty scheduler (over threads whose
priorities lie in 0..149) by any sequence of ReadyToRun, FindNextToRun, WaitAppend,
UpdateAllWaitTicks and Aging calls, every thread in ready list L_K has `queueLevel = K` and a
priority in band K (band 1 = 100..149, band 2 = 50..99, band 3 = 0..49). -/
theorem band_invariant_reachable (threads : Nat → Thread) (cur : Nat) (now : Int)
    (lvl : IntStatus) (hrange : PriorityRange threads) (ops : List SchedOp) (k : Kernel)
    (hrun : runOps (Scheduler threads cur now lvl) ops = some k) :
    (∀ t ∈ k.level1List, (k.threads t).queueLevel = 1 ∧
      100 ≤ (k.threads t).priority ∧ (k.threads t).priority ≤ 149) ∧
    (∀ t ∈ k.level2List, (k.threads t).queueLevel = 2 ∧
      50 ≤ (k.threads t).priority ∧ (k.threads t).priority ≤ 99) ∧
    (∀ t ∈ k.level3List, (k.threads t).queueLevel = 3 ∧
      0 ≤ (k.threads t).priority ∧ (k.threads t).priority ≤ 49) := by
  obtain ⟨⟨i1, i2, i3⟩, hp⟩ :=
    runOps_invariants ops _ k (BandInv_Scheduler threads cur now lvl) hrun
  have hr := hp hrange
  refine ⟨fun t ht => ⟨(i1 t ht).1, ?_⟩, fun t ht => ⟨(i2 t ht).1, ?_⟩,
    fun t ht => ⟨(i3 t ht).1, ?_⟩⟩
  · exact (band_of_level _ 1 (hr t).1 (hr t).2 (i1 t ht).2).2.1 rfl
  · exact (band_of_level _ 2 (hr t).1 (hr t).2 (i2 t ht).2).2.2.1 rfl
  · exact (band_of_level _ 3 (hr t).1 (hr t).2 (i3 t ht).2).2.2.2 rfl

/-- Witness for C3: the state reached from `demoEmpty` by `demoOps`. -/
theorem band_invariant_reachable_witness :
    PriorityRange demoThreads ∧
    runOps (Scheduler demoThreads 0 0 IntStatus.IntOff) demoOps = some demoReached ∧
    (∀ t ∈ demoReached.level1List, (demoReached.threads t).queueLevel = 1 ∧
      100 ≤ (demoReached.threads t).priority ∧ (demoReached.threads t).priority ≤ 149) ∧
    (∀ t ∈ demoReached.level2List, (demoReached.threads t).queueLevel = 2 ∧
      50 ≤ (demoReached.threads t).priority ∧ (demoReached.threads t).priority ≤ 99) ∧
    (∀ t ∈ demoReached.level3List, (demoReached.threads t).queueLevel = 3 ∧
      0 ≤ (demoReached.threads t).priority ∧ (demoReached.threads t).priority ≤ 49) :=
  ⟨PriorityRange_demoThreads, rfl,
    band_invariant_reachable demoThreads 0 0 IntStatus.IntOff PriorityRange_demoThreads demoOps
      demoReached rfl⟩

/-- C4: single-list invariant. In every state reached from the empty scheduler by a sequence of
scheduler calls (ReadyToRun, FindNextToRun, Aging, and also WaitAppend and UpdateAllWaitTicks),
no thread is a member of two different ready lists. -/
theorem single_list_reachable (threads : Nat → Thread) (cur : Nat) (now : Int)
    (lvl : IntStatus) (ops : List SchedOp) (k : Kernel)
    (hrun : runOps (Scheduler threads cur now lvl) ops = some k) (t : Nat) :
    ¬ (t ∈ k.level1List ∧ t ∈ k.level2List) ∧ ¬ (t ∈ k.level1List ∧ t ∈ k.level3List) ∧
      ¬ (t ∈ k.level2List ∧ t ∈ k.level3List) := by
  obtain ⟨⟨i1, i2, i3⟩, -⟩ :=
    runOps_invariants ops _ k (BandInv_Scheduler threads cur now lvl) hrun
  refine ⟨?_, ?_, ?_⟩
  · rintro ⟨h1, h2⟩
    have a := (i1 t h1).1
    have b := (i2 t h2).1
    omega
  · rintro ⟨h1, h3⟩
    have a := (i1 t h1).1
    have b := (i3 t h3).1
    omega
  · rintro ⟨h2, h3⟩
    have a := (i2 t h2).1
    have b := (i3 t h3).1
    omega

/-- Witness for C4: thread 5 in the state reached from `demoEmpty` by `demoOps`. -/
theorem single_list_reachable_witness :
    runOps (Scheduler demoThreads 0 0 IntStatus.IntOff) demoOps = some demoReached ∧
    ¬ (5 ∈ demoReached.level1List ∧ 5 ∈ demoReached.level2List) ∧
    ¬ (5 ∈ demoReached.level1List ∧ 5 ∈ demoReached.level3List) ∧
    ¬ (5 ∈ demoReached.level2List ∧ 5 ∈ demoReached.level3List) :=
  ⟨rfl, single_list_reachable demoThreads 0 0 IntStatus.IntOff demoOps demoReached rfl 5⟩

/-- C5: in every reachable state (threads with priorities in 0..149, interrupts disabled) in
which some ready list is non-empty, `FindNextToRun` returns a thread `t`, and the band of the
priority of `t` is at most the band of every thread left in a ready list. -/
theorem FindNextToRun_band_dominance (threads : Nat → Thread) (cur : Nat) (now : Int)
    (lvl : IntStatus) (hrange : PriorityRange threads) (ops : List SchedOp) (k : Kernel)
    (hrun : runOps (Scheduler threads cur now lvl) ops = some k)
    (hoff : k.intLevel = IntStatus.IntOff)
    (hne : k.level1List ≠ [] ∨ k.level2List ≠ [] ∨ k.level3List ≠ []) :
    ∃ t k', FindNextToRun k = some (some t, k') ∧
      ∀ u, u ∈ k'.level1List ∨ u ∈ k'.level2List ∨ u ∈ k'.level3List →
        band (k'.threads t).priority ≤ band (k'.threads u).priority := by
  obtain ⟨⟨i1, i2, i3⟩, hp⟩ :=
    runOps_invariants ops _ k (BandInv_Scheduler threads cur now lvl) hrun
  have hr := hp hrange
  have b1 : ∀ u ∈ k.level1List, band (k.threads u).priority = 1 := fun u hu =>
    (band_of_level _ 1 (hr u).1 (hr u).2 (i1 u hu).2).1
  have b2 : ∀ u ∈ k.level2List, band (k.threads u).priority = 2 := fun u hu =>
    (band_of_level _ 2 (hr u).1 (hr u).2 (i2 u hu).2).1
  have b3 : ∀ u ∈ k.level3List, band (k.threads u).priority = 3 := fun u hu =>
    (band_of_level _ 3 (hr u).1 (hr u).2 (i3 u hu).2).1
  obtain ⟨c1, c2, c3, -⟩ := FindNextToRun_shape k hoff
  cases h1 : k.level1List with
  | cons t l =>
    obtain ⟨k', e, a1, a2, a3, -, a5⟩ := c1 t l h1
    refine ⟨t, k', e, ?_⟩
    intro u hu
    rw [a5, b1 t (by rw [h1]; exact List.mem_cons_self _ _)]
    rw [a1, a2, a3] at hu
    rcases hu with hu | hu | hu
    · rw [b1 u (by rw [h1]; exact List.mem_cons_of_mem _ hu)]
    · rw [b2 u hu]; decide
    · rw [b3 u hu]; decide
  | nil =>
    cases h2 : k.level2List with
    | cons t l =>
      obtain ⟨k', e, a1, a2, a3, -, a5⟩ := c2 t l h1 h2
      refine ⟨t, k', e, ?_⟩
      intro u hu
      rw [a5, b2 t (by rw [h2]; exact List.mem_cons_self _ _)]
      rw [a1, a2, a3, h1] at hu
      rcases hu with hu | hu | hu
      · simp at hu
      · rw [b2 u (by rw [h2]; exact List.mem_cons_of_mem _ hu)]
      · rw [b3 u hu]; decide
    | nil =>
      cases h3 : k.level3List with
      | cons t l =>
        obtain ⟨k', e, a1, a2, a3, -, a5⟩ := c3 t l h1 h2 h3
        refine ⟨t, k', e, ?_⟩
        intro u hu
        rw [a5, b3 t (by rw [h3]; exact List.mem_cons_self _ _)]
        rw [a1, a2, a3, h1, h2] at hu
        rcases hu with hu | hu | hu
        · simp at hu
        · simp at hu
        · rw [b3 u (by rw [h3]; exact List.mem_cons_of_mem _ hu)]
      | nil => simp [h1, h2, h3] at hne

/-- Witness for C5: in the state reached by `demoOps` (L1 = [1], L2 = [4, 3, 5], L3 = [6])
a thread is returned. -/
theorem FindNextToRun_band_dominance_witness :
    PriorityRange demoThreads ∧
    runOps (Scheduler demoThreads 0 0 IntStatus.IntOff) demoOps = some demoReached ∧
    demoReached.intLevel = IntStatus.IntOff ∧
    (demoReached.level1List ≠ [] ∨ demoReached.level2List ≠ [] ∨
      demoReached.level3List ≠ []) ∧
    ∃ t k', FindNextToRun demoReached = some (some t, k') ∧
      ∀ u, u ∈ k'.level1List ∨ u ∈ k'.level2List ∨ u ∈ k'.level3List →
        band (k'.threads t).priority ≤ band (k'.threads u).priority :=
  ⟨PriorityRange_demoThreads, rfl, rfl, Or.inl (by decide),
    FindNextToRun_band_dominance demoThreads 0 0 IntStatus.IntOff PriorityRange_demoThreads
      demoOps demoReached rfl rfl (Or.inl (by decide))⟩

/-! ## C6: round trip -/

theorem SortedListInsert_perm (c : Nat → Nat → Int) (x : Nat) (l : List Nat) :
    (SortedListInsert c x l).Perm (x :: l) := by
  induction l with
  | nil => exact List.Perm.refl _
  | cons y ys ih =>
    unfold SortedListInsert
    split
    · exact List.Perm.refl _
    · exact (List.Perm.cons y ih).trans (List.Perm.swap x y ys)

theorem SortedListInsert_pairwise {κ : Type} [LinearOrder κ] (key : Nat → κ) (idx : Nat → Nat)
    (c : Nat → Nat → Int) (hc : ∀ a b, c a b < 0 ↔ key a < key b) (x : Nat) (l : List Nat)
    (hl : l.Pairwise (stableBefore key idx)) (hx : ∀ y ∈ l, idx y < idx x) :
    (SortedListInsert c x l).Pairwise (stableBefore key idx) := by
  induction l with
  | nil => simp [SortedListInsert]
  | cons y ys ih =>
    rw [List.pairwise_cons] at hl
    obtain ⟨hy, hys⟩ := hl
    unfold SortedListInsert
    split
    · rename_i hlt
      rw [hc] at hlt
      refine List.Pairwise.cons ?_ (List.Pairwise.cons hy hys)
      intro z hz
      rcases List.mem_cons.mp hz with rfl | hz
      · exact Or.inl hlt
      · rcases hy z hz with h | ⟨h, -⟩
        · exact Or.inl (lt_trans hlt h)
        · exact Or.inl (h ▸ hlt)
    · rename_i hlt
      rw [hc, not_lt] at hlt
      refine List.Pairwise.cons ?_ (ih hys (fun z hz => hx z (List.mem_cons_of_mem _ hz)))
      intro z hz
      rw [mem_SortedListInsert] at hz
      rcases hz with rfl | hz
      · rcases lt_or_eq_of_le hlt with h | h
        · exact Or.inl h
        · exact Or.inr ⟨h, hx y (List.mem_cons_self _ _)⟩
      · exact hy z hz

theorem Level1Comp_neg (x y : Thread) : Level1Comp x y < 0 ↔ x.burstTime < y.burstTime := by
  unfold Level1Comp
  split_ifs <;> simp [*]

theorem Level2Comp_neg (x y : Thread) : Level2Comp x y < 0 ↔ y.priority < x.priority := by
  unfold Level2Comp
  split_ifs <;> simp [*]

/-- The three branches of `InsertToReadyList` on the ready lists. -/
theorem InsertToReadyList_lists (k : Kernel) (t : Nat) :
    (levelOfPriority (k.threads t).priority = 3 ∧
      (InsertToReadyList k t).level3List = k.level3List ++ [t] ∧
      (InsertToReadyList k t).level2List = k.level2List ∧
      (InsertToReadyList k t).level1List = k.level1List) ∨
    (levelOfPriority (k.threads t).priority = 2 ∧
      (InsertToReadyList k t).level3List = k.level3List ∧
      (InsertToReadyList k t).level1List = k.level1List ∧
      ∃ c : Nat → Nat → Int,
        (∀ a b, c a b < 0 ↔ (k.threads b).priority < (k.threads a).priority) ∧
        (InsertToReadyList k t).level2List = SortedListInsert c t k.level2List) ∨
    (levelOfPriority (k.threads t).priority = 1 ∧
      (InsertToReadyList k t).level3List = k.level3List ∧
      (InsertToReadyList k t).level2List = k.level2List ∧
      ∃ c : Nat → Nat → Int,
        (∀ a b, c a b < 0 ↔ (k.threads a).burstTime < (k.threads b).burstTime) ∧
        (InsertToReadyList k t).level1List = SortedListInsert c t k.level1List) := by
  have hupd : ∀ (q : Int) (a : Nat),
      (Function.update k.threads t ((k.threads t).UpdateQueueLevel q) a).priority =
        (k.threads a).priority ∧
      (Function.update k.threads t ((k.threads t).UpdateQueueLevel q) a).burstTime =
        (k.threads a).burstTime := by
    intro q a
    by_cases h : a = t
    · subst h; simp [Thread.UpdateQueueLevel]
    · simp [Function.update_noteq h]
  unfold InsertToReadyList levelOfPriority
  simp only [Kernel.modifyThread, Kernel.debug]
  split_ifs with h1 h2
  · exact Or.inl ⟨rfl, rfl, rfl, rfl⟩
  · refine Or.inr (Or.inl ⟨rfl, rfl, rfl, _, ?_, rfl⟩)
    intro a b
    rw [Level2Comp_neg, (hupd 2 a).1, (hupd 2 b).1]
  · refine Or.inr (Or.inr ⟨rfl, rfl, rfl, _, ?_, rfl⟩)
    intro a b
    rw [Level1Comp_neg, (hupd 1 a).2, (hupd 1 b).2]

/-- Heap effect of `ReadyToRun`: only `status` and `queueLevel` of the thread change. -/
theorem ReadyToRun_threads (k k' : Kernel) (t : Nat) (hr : ReadyToRun k t = some k') :
    k.intLevel = IntStatus.IntOff ∧ k'.intLevel = IntStatus.IntOff ∧
    k'.threads = Function.update k.threads t
      { k.threads t with
        status := ThreadStatus.READY,
        queueLevel := levelOfPriority (k.threads t).priority } := by
  by_cases hoff : k.intLevel = IntStatus.IntOff
  · rw [ReadyToRun_eq k t hoff] at hr
    cases hr
    refine ⟨hoff, ?_, ?_⟩
    · rw [(InsertToReadyList_frame _ t).2.2.2.2.2.1]
      exact hoff
    · rw [InsertToReadyList_threads]
      simp [Thread.UpdateQueueLevel, Thread.setStatus]
  · simp [ReadyToRun, hoff] at hr

theorem RoundTripInv_step (threads : Nat → Thread) (ts pre : List Nat) (k : Kernel) (x : Nat)
    (hinv : RoundTripInv threads ts pre k) (hx : ∀ y ∈ pre, ts.indexOf y < ts.indexOf x) :
    ∃ k', ReadyToRun k x = some k' ∧ RoundTripInv threads ts (pre ++ [x]) k' := by
  obtain ⟨hoff, hf, hperm, hband, p1, p2, p3⟩ := hinv
  have hr := ReadyToRun_eq k x hoff
  refine ⟨_, hr, ?_⟩
  obtain ⟨-, hoff', hth⟩ := ReadyToRun_threads k _ x hr
  have hmem : ∀ y, y ∈ k.level1List ∨ y ∈ k.level2List ∨ y ∈ k.level3List → y ∈ pre := by
    intro y hy
    apply hperm.subset
    simp only [List.mem_append]
    tauto
  have hf2 : ∀ a, (Function.update k.threads x
      ((k.threads x).setStatus ThreadStatus.READY) a).priority = (threads a).priority ∧
      (Function.update k.threads x
      ((k.threads x).setStatus ThreadStatus.READY) a).burstTime = (threads a).burstTime := by
    intro a
    by_cases h : a = x
    · subst h; simpa [Thread.setStatus] using hf a
    · simpa [Function.update_noteq h] using hf a
  refine ⟨hoff', ?_, ?_, BandInv_ReadyToRun k _ x hband hr, ?_⟩
  · intro t
    rw [hth]
    by_cases h : t = x
    · subst h; simpa using hf t
    · simpa [Function.update_noteq h] using hf t
  · rcases InsertToReadyList_lists
      { k with
        threads := Function.update k.threads x ((k.threads x).setStatus ThreadStatus.READY),
        WaitingList := if x ∈ k.WaitingList then k.WaitingList.erase x else k.WaitingList } x
      with ⟨-, e3, e2, e1⟩ | ⟨-, e3, e1, c, -, e2⟩ | ⟨-, e3, e2, c, -, e1⟩
    · rw [e1, e2, e3, ← List.append_assoc]
      exact hperm.append_right [x]
    · rw [e1, e2, e3]
      refine List.Perm.trans ?_ (List.perm_append_singleton x pre).symm
      refine List.Perm.trans (List.Perm.append_right _
        (List.Perm.append_left _ (SortedListInsert_perm c x _))) ?_
      simp only [List.append_assoc, List.cons_append]
      refine List.Perm.trans List.perm_middle (List.Perm.cons x ?_)
      simpa [List.append_assoc] using hperm
    · rw [e1, e2, e3]
      refine List.Perm.trans ?_ (List.perm_append_singleton x pre).symm
      refine List.Perm.trans (List.Perm.append_right _
        (List.Perm.append_right _ (SortedListInsert_perm c x _))) ?_
      simp only [List.append_assoc, List.cons_append]
      exact List.Perm.cons x (by simpa [List.append_assoc] using hperm)
  · rcases InsertToReadyList_lists
      { k with
        threads := Function.update k.threads x ((k.threads x).setStatus ThreadStatus.READY),
        WaitingList := if x ∈ k.WaitingList then k.WaitingList.erase x else k.WaitingList } x
      with ⟨-, e3, e2, e1⟩ | ⟨-, e3, e1, c, hc, e2⟩ | ⟨-, e3, e2, c, hc, e1⟩
    · rw [e1, e2, e3]
      refine ⟨p1, p2, ?_⟩
      rw [List.pairwise_append]
      refine ⟨p3, List.pairwise_singleton _ _, ?_⟩
      intro a ha b hb
      rw [List.mem_singleton] at hb
      subst hb
      exact hx a (hmem a (Or.inr (Or.inr ha)))
    · rw [e1, e2, e3]
      refine ⟨p1, ?_, p3⟩
      apply SortedListInsert_pairwise _ _ c _ x _ p2
      · intro y hy
        exact hx y (hmem y (Or.inr (Or.inl hy)))
      · intro a b
        rw [hc]
        simp only [(hf2 a).1, (hf2 b).1, neg_lt_neg_iff]
    · rw [e1, e2, e3]
      refine ⟨?_, p2, p3⟩
      apply SortedListInsert_pairwise _ _ c _ x _ p1
      · intro y hy
        exact hx y (hmem y (Or.inl hy))
      · intro a b
        rw [hc]
        simp only [(hf2 a).2, (hf2 b).2]

theorem readyAll_inv (threads : Nat → Thread) (ts : List Nat) (hnd : ts.Nodup)
    (rest pre : List Nat) (k : Kernel) (hts : ts = pre ++ rest)
    (hinv : RoundTripInv threads ts pre k) :
    ∃ k1, readyAll k rest = some k1 ∧ RoundTripInv threads ts ts k1 := by
  induction rest generalizing pre k with
  | nil =>
    rw [List.append_nil] at hts
    subst hts
    exact ⟨k, rfl, hinv⟩
  | cons x rest ih =>
    have hxpre : x ∉ pre := by
      intro hxp
      rw [hts] at hnd
      exact (List.nodup_append.mp hnd).2.2 hxp (List.mem_cons_self _ _)
    have hx : ∀ y ∈ pre, ts.indexOf y < ts.indexOf x := by
      intro y hy
      rw [hts, List.indexOf_append_of_mem hy, List.indexOf_append_of_not_mem hxpre,
        List.indexOf_cons_self]
      exact List.indexOf_lt_length.mpr hy
    obtain ⟨k', hk', hinv'⟩ := RoundTripInv_step threads ts pre k x hinv hx
    obtain ⟨k1, hk1, h1⟩ := ih (pre ++ [x]) k' (by simp [hts]) hinv'
    exact ⟨k1, by simp [readyAll, hk', hk1], h1⟩

theorem FindNextToRun_intLevel (k k' : Kernel) (r : Option Nat)
    (hf : FindNextToRun k = some (r, k')) : k'.intLevel = k.intLevel := by
  have hoff : k.intLevel = IntStatus.IntOff := (FindNextToRun_cases k r k' hf).1
  cases h1 : k.level1List <;> cases h2 : k.level2List <;> cases h3 : k.level3List <;>
    simp [FindNextToRun, hoff, h1, h2, h3, ListIsEmpty, ListRemoveFront, Kernel.debug] at hf <;>
    (obtain ⟨-, rfl⟩ := hf; first | rfl | exact hoff.symm)

theorem drain_all (n : Nat) (k : Kernel) (hoff : k.intLevel = IntStatus.IntOff)
    (hn : n = (k.level1List ++ k.level2List ++ k.level3List).length) :
    ∃ k2, drain n k =
        some ((k.level1List ++ k.level2List ++ k.level3List).map some, k2) ∧
      k2.level1List = [] ∧ k2.level2List = [] ∧ k2.level3List = [] ∧
      k2.intLevel = IntStatus.IntOff ∧ k2.threads = k.threads := by
  induction n generalizing k with
  | zero =>
    have h0 := List.length_eq_zero.mp hn.symm
    simp only [List.append_eq_nil] at h0
    obtain ⟨⟨h1, h2⟩, h3⟩ := h0
    exact ⟨k, by simp [drain, h1, h2, h3], h1, h2, h3, hoff, rfl⟩
  | succ n ih =>
    obtain ⟨c1, c2, c3, -⟩ := FindNextToRun_shape k hoff
    cases h1 : k.level1List with
    | cons t l =>
      obtain ⟨k', e, a1, a2, a3, -, a5⟩ := c1 t l h1
      have hoff' : k'.intLevel = IntStatus.IntOff :=
        (FindNextToRun_intLevel k k' _ e).trans hoff
      obtain ⟨k2, d, b1, b2, b3, b4, b5⟩ := ih k' hoff' (by
        rw [h1] at hn
        simp only [a1, a2, a3, List.length_append, List.length_cons] at hn ⊢
        omega)
      exact ⟨k2, by simp [drain, e, d, a1, a2, a3], b1, b2, b3, b4, b5.trans a5⟩
    | nil =>
      cases h2 : k.level2List with
      | cons t l =>
        obtain ⟨k', e, a1, a2, a3, -, a5⟩ := c2 t l h1 h2
        have hoff' : k'.intLevel = IntStatus.IntOff :=
          (FindNextToRun_intLevel k k' _ e).trans hoff
        obtain ⟨k2, d, b1, b2, b3, b4, b5⟩ := ih k' hoff' (by
          rw [h1, h2] at hn
          simp only [a1, a2, a3, h1, List.length_append, List.length_cons] at hn ⊢
          omega)
        exact ⟨k2, by simp [drain, e, d, a1, a2, a3, h1], b1, b2, b3, b4, b5.trans a5⟩
      | nil =>
        cases h3 : k.level3List with
        | cons t l =>
          obtain ⟨k', e, a1, a2, a3, -, a5⟩ := c3 t l h1 h2 h3
          have hoff' : k'.intLevel = IntStatus.IntOff :=
            (FindNextToRun_intLevel k k' _ e).trans hoff
          obtain ⟨k2, d, b1, b2, b3, b4, b5⟩ := ih k' hoff' (by
            rw [h1, h2, h3] at hn
            simp only [a1, a2, a3, h1, h2, List.length_append, List.length_cons] at hn ⊢
            omega)
          exact ⟨k2, by simp [drain, e, d, a1, a2, a3, h1, h2], b1, b2, b3, b4, b5.trans a5⟩
        | nil => simp [h1, h2, h3] at hn

/-- C6: round trip. From the empty scheduler with interrupts disabled, making `k` pairwise
distinct threads (priorities in 0..149) ready in the order of `ts` and then calling
`FindNextToRun` `k` times returns each thread exactly once (`out` is a permutation of `ts`), a
further call returns none, and the threads come out in dispatch order: band 1 by ascending
`burstTime`, then band 2 by descending priority, then band 3 in insertion order, ties inside
band 1 and band 2 in insertion order. -/
theorem round_trip (threads : Nat → Thread) (cur : Nat) (now : Int) (ts : List Nat)
    (hnd : ts.Nodup)
    (hrange : ∀ t ∈ ts, 0 ≤ (threads t).priority ∧ (threads t).priority ≤ 149) :
    ∃ (k1 : Kernel) (out : List Nat) (k2 : Kernel),
      readyAll (Scheduler threads cur now IntStatus.IntOff) ts = some k1 ∧
      drain ts.length k1 = some (out.map some, k2) ∧
      FindNextToRun k2 = some (none, k2) ∧
      out.Perm ts ∧ out.Pairwise (dispatchBefore threads ts) := by
  obtain ⟨k1, hr, hoff, hf, hperm, ⟨i1, i2, i3⟩, p1, p2, p3⟩ :=
    readyAll_inv threads ts hnd ts [] (Scheduler threads cur now IntStatus.IntOff) (by simp)
      (by simp [RoundTripInv, Scheduler, BandInv])
  obtain ⟨k2, hd, e1, e2, e3, hoff2, -⟩ := drain_all ts.length k1 hoff (by rw [hperm.length_eq])
  have hsub : ∀ a, a ∈ k1.level1List ∨ a ∈ k1.level2List ∨ a ∈ k1.level3List → a ∈ ts := by
    intro a ha
    apply hperm.subset
    simp only [List.mem_append]
    tauto
  have hb1 : ∀ a ∈ k1.level1List, band (threads a).priority = 1 := by
    intro a ha
    have hr := hrange a (hsub a (Or.inl ha))
    have := (i1 a ha).2
    rw [(hf a).1] at this
    exact (band_of_level _ 1 hr.1 hr.2 this).1
  have hb2 : ∀ a ∈ k1.level2List, band (threads a).priority = 2 := by
    intro a ha
    have hr := hrange a (hsub a (Or.inr (Or.inl ha)))
    have := (i2 a ha).2
    rw [(hf a).1] at this
    exact (band_of_level _ 2 hr.1 hr.2 this).1
  have hb3 : ∀ a ∈ k1.level3List, band (threads a).priority = 3 := by
    intro a ha
    have hr := hrange a (hsub a (Or.inr (Or.inr ha)))
    have := (i3 a ha).2
    rw [(hf a).1] at this
    exact (band_of_level _ 3 hr.1 hr.2 this).1
  refine ⟨k1, k1.level1List ++ k1.level2List ++ k1.level3List, k2, hr, hd,
    (FindNextToRun_shape k2 hoff2).2.2.2 e1 e2 e3, hperm, ?_⟩
  rw [List.pairwise_append, List.pairwise_append]
  refine ⟨⟨?_, ?_, ?_⟩, ?_, ?_⟩
  · refine p1.imp_of_mem ?_
    intro a b ha hb h
    exact Or.inr ⟨by rw [hb1 a ha, hb1 b hb], Or.inl ⟨hb1 a ha, h⟩⟩
  · refine p2.imp_of_mem ?_
    intro a b ha hb h
    refine Or.inr ⟨by rw [hb2 a ha, hb2 b hb], Or.inr (Or.inl ⟨hb2 a ha, ?_⟩)⟩
    rcases h with h | ⟨h, hi⟩
    · exact Or.inl (neg_lt_neg_iff.mp h)
    · exact Or.inr ⟨neg_inj.mp h, hi⟩
  · intro a ha b hb
    exact Or.inl (by rw [hb1 a ha, hb2 b hb]; decide)
  · refine p3.imp_of_mem ?_
    intro a b ha hb h
    exact Or.inr ⟨by rw [hb3 a ha, hb3 b hb], Or.inr (Or.inr ⟨hb3 a ha, h⟩)⟩
  · intro a ha b hb
    rcases List.mem_append.mp ha with ha | ha
    · exact Or.inl (by rw [hb1 a ha, hb3 b hb]; decide)
    · exact Or.inl (by rw [hb2 a ha, hb3 b hb]; decide)

/-- Witness for C6: threads 5, 1, 3, 6, 2, 4 of `demoThreads`, made ready in this order. -/
theorem round_trip_witness :
    [5, 1, 3, 6, 2, 4].Nodup ∧
    (∀ t ∈ [5, 1, 3, 6, 2, 4],
      0 ≤ (demoThreads t).priority ∧ (demoThreads t).priority ≤ 149) ∧
    ∃ (k1 : Kernel) (out : List Nat) (k2 : Kernel),
      readyAll (Scheduler demoThreads 0 0 IntStatus.IntOff) [5, 1, 3, 6, 2, 4] = some k1 ∧
      drain [5, 1, 3, 6, 2, 4].length k1 = some (out.map some, k2) ∧
      FindNextToRun k2 = some (none, k2) ∧
      out.Perm [5, 1, 3, 6, 2, 4] ∧
      out.Pairwise (dispatchBefore demoThreads [5, 1, 3, 6, 2, 4]) :=
  ⟨by decide, fun t _ => PriorityRange_demoThreads t,
    round_trip demoThreads 0 0 [5, 1, 3, 6, 2, 4] (by decide)
      (fun t _ => PriorityRange_demoThreads t)⟩

/-! ## C7: promotion by Aging -/

theorem agedThreads_single (h : Nat → Thread) (a t : Nat) :
    agedThreads h [a] t =
      if t = a ∧ (h a).W ≥ 1500 then (h a).UpdatePriority else h t := by
  simp only [agedThreads, List.foldl_cons, List.foldl_nil]
  by_cases hw : (h a).W ≥ 1500
  · by_cases hta : t = a
    · subst hta; simp [hw]
    · simp [hw, hta, Function.update_noteq hta]
  · simp [hw]

theorem agedThreads_of_nodup (l : List Nat) (h : Nat → Thread) (hnd : l.Nodup) (t : Nat) :
    agedThreads h l t =
      if t ∈ l ∧ (h t).W ≥ 1500 then (h t).UpdatePriority else h t := by
  induction l generalizing h with
  | nil => simp [agedThreads]
  | cons a l ih =>
    rw [List.nodup_cons] at hnd
    rw [agedThreads_cons, ih _ hnd.2, agedThreads_single]
    by_cases hta : t = a
    · subst hta
      by_cases hw : (h t).W ≥ 1500
      · simp [hnd.1, hw]
      · simp [hnd.1, hw]
    · simp [hta]

theorem Aging_priority (k : Kernel) (t : Nat) :
    ((Aging k).threads t).priority =
      (agedThreads k.threads (k.level3List ++ k.level2List ++ k.level1List) t).priority := by
  rw [Aging_eq, foldl_InsertToReadyList_priority]
  rfl

/-- C7: in a state in which each thread occurs at most once across L1, L2, L3, one call of
`Aging` leaves every queued thread whose `W` was at least 1500 with priority
min(old priority + 10, 149) and every queued thread whose `W` was below 1500 with its old
priority; so a queued thread with `W >= 1500` that ends below 149 was raised by exactly 10. -/
theorem Aging_promotes (k : Kernel)
    (hnd : (k.level1List ++ k.level2List ++ k.level3List).Nodup) (t : Nat)
    (ht : t ∈ k.level1List ++ k.level2List ++ k.level3List) :
    ((k.threads t).W ≥ 1500 →
      ((Aging k).threads t).priority = min ((k.threads t).priority + 10) 149) ∧
    ((k.threads t).W < 1500 → ((Aging k).threads t).priority = (k.threads t).priority) ∧
    ((k.threads t).W ≥ 1500 → ((Aging k).threads t).priority < 149 →
      ((Aging k).threads t).priority = (k.threads t).priority + 10) := by
  have hperm : (k.level3List ++ k.level2List ++ k.level1List).Perm
      (k.level1List ++ k.level2List ++ k.level3List) := by
    refine List.Perm.trans ?_ List.perm_append_comm
    rw [List.append_assoc]
    exact List.Perm.append_left _ List.perm_append_comm
  have hnd' := hperm.nodup_iff.mpr hnd
  have ht' := hperm.mem_iff.mpr ht
  rw [Aging_priority, agedThreads_of_nodup _ _ hnd']
  refine ⟨?_, ?_, ?_⟩
  · intro hw
    rw [if_pos ⟨ht', hw⟩]
    rfl
  · intro hw
    rw [if_neg (fun h => absurd h.2 (not_le.mpr hw))]
  · intro hw
    rw [if_pos ⟨ht', hw⟩]
    simp only [Thread.UpdatePriority]
    intro hlt
    omega

/-- Witness for C7: thread 5 of `demoKernel` (priority 40, `W` = 1600) is promoted. -/
theorem Aging_promotes_witness :
    (demoKernel.level1List ++ demoKernel.level2List ++ demoKernel.level3List).Nodup ∧
    5 ∈ demoKernel.level1List ++ demoKernel.level2List ++ demoKernel.level3List ∧
    ((demoKernel.threads 5).W ≥ 1500 →
      ((Aging demoKernel).threads 5).priority = min ((demoKernel.threads 5).priority + 10) 149) ∧
    ((demoKernel.threads 5).W < 1500 →
      ((Aging demoKernel).threads 5).priority = (demoKernel.threads 5).priority) ∧
    ((demoKernel.threads 5).W ≥ 1500 → ((Aging demoKernel).threads 5).priority < 149 →
      ((Aging demoKernel).threads 5).priority = (demoKernel.threads 5).priority + 10) :=
  ⟨by decide, by decide, Aging_promotes demoKernel (by decide) 5 (by decide)⟩

/-! ## C8, C9, C10: the preemption decision of the timer handler -/

theorem agedThreads_fields (l : List Nat) (h : Nat → Thread) (t : Nat) :
    ∃ p, agedThreads h l t = { h t with priority := p } := by
  induction l generalizing h with
  | nil => exact ⟨(h t).priority, rfl⟩
  | cons a l ih =>
    obtain ⟨p, hp⟩ := ih (agedThreads h [a])
    rw [agedThreads_cons, hp, agedThreads_single]
    split_ifs with hc
    · refine ⟨p, ?_⟩
      rw [hc.1]
      rfl
    · exact ⟨p, rfl⟩

theorem foldl_InsertToReadyList_fields (l : List Nat) (k : Kernel) (t : Nat) :
    (∃ q, (l.foldl InsertToReadyList k).threads t = { k.threads t with queueLevel := q }) ∧
    (l.foldl InsertToReadyList k).yieldOnReturn = k.yieldOnReturn ∧
    (l.foldl InsertToReadyList k).currentThread = k.currentThread ∧
    (l.foldl InsertToReadyList k).totalTicks = k.totalTicks ∧
    (l.foldl InsertToReadyList k).intLevel = k.intLevel ∧
    (l.foldl InsertToReadyList k).WaitingList = k.WaitingList := by
  induction l generalizing k with
  | nil => exact ⟨⟨(k.threads t).queueLevel, rfl⟩, rfl, rfl, rfl, rfl, rfl⟩
  | cons a l ih =>
    obtain ⟨⟨q, hq⟩, h1, h2, h3, h4, h5⟩ := ih (InsertToReadyList k a)
    obtain ⟨f1, -, -, f4, f5, f6, f7⟩ := InsertToReadyList_frame k a
    refine ⟨⟨q, ?_⟩, h1.trans f7, h2.trans f4, h3.trans f5, h4.trans f6, h5.trans f1⟩
    rw [List.foldl_cons, hq, InsertToReadyList_threads]
    by_cases hta : t = a
    · subst hta
      simp [Thread.UpdateQueueLevel]
    · simp [Function.update_noteq hta]

/-- Frame of `Aging`: of a thread object only `priority` and `queueLevel` can change, and the
globals outside the ready lists, `tmp` and the trace are untouched. -/
theorem Aging_fields (k : Kernel) (t : Nat) :
    (∃ p q, (Aging k).threads t = { k.threads t with priority := p, queueLevel := q }) ∧
    (Aging k).yieldOnReturn = k.yieldOnReturn ∧
    (Aging k).currentThread = k.currentThread ∧
    (Aging k).totalTicks = k.totalTicks ∧
    (Aging k).intLevel = k.intLevel ∧
    (Aging k).WaitingList = k.WaitingList := by
  rw [Aging_eq]
  obtain ⟨⟨q, hq⟩, h1, h2, h3, h4, h5⟩ := foldl_InsertToReadyList_fields
    (k.tmp ++ (k.level3List ++ k.level2List ++ k.level1List)) (AgingDrained k) t
  obtain ⟨p, hp⟩ := agedThreads_fields (k.level3List ++ k.level2List ++ k.level1List) k.threads t
  refine ⟨⟨p, q, ?_⟩, h1, h2, h3, h4, h5⟩
  rw [hq]
  simp only [AgingDrained]
  rw [hp]

theorem CallBackAccount_T (k : Kernel) :
    ((k.threads k.currentThread).status ≠ ThreadStatus.BLOCKED →
      ((CallBackAccount k).threads k.currentThread).T =
        (k.threads k.currentThread).T +
          (k.totalTicks - (k.threads k.currentThread).startRunningTick)) ∧
    ((k.threads k.currentThread).status = ThreadStatus.BLOCKED →
      ((CallBackAccount k).threads k.currentThread).T = (k.threads k.currentThread).T) ∧
    (CallBackAccount k).yieldOnReturn = k.yieldOnReturn := by
  unfold CallBackAccount
  refine ⟨?_, ?_, ?_⟩
  · intro h
    simp [h, Kernel.modifyThread, Thread.UpdateRunningTicks, Thread.ResetStartRunningTick]
  · intro h
    simp [h, Kernel.modifyThread, Thread.UpdateWaitingTicks, Thread.ResetStartWaitingTick]
  · split_ifs <;> rfl

theorem CallBackAged_frame (k : Kernel) (t : Nat) :
    ((CallBackAged k).threads t).T = ((CallBackAccount k).threads t).T ∧
    ((CallBackAged k).threads t).burstTime = ((CallBackAccount k).threads t).burstTime ∧
    (CallBackAged k).yieldOnReturn = k.yieldOnReturn := by
  unfold CallBackAged
  obtain ⟨⟨p, q, hpq⟩, h1, -⟩ := Aging_fields (UpdateAllWaitTicks (CallBackAccount k)) t
  obtain ⟨-, -, -, -, -, -, -, -, -, a10, -, a12⟩ :=
    SameButWait_UpdateAllWaitTicks (CallBackAccount k)
  refine ⟨?_, ?_, ?_⟩
  · rw [hpq]
    exact (a12 t).2.2.2.1
  · rw [hpq]
    exact (a12 t).2.2.2.2.1
  · rw [h1, a10]
    exact (CallBackAccount_T k).2.2

theorem foldl_InsertToReadyList_not_mem (l : List Nat) (k : Kernel) (t : Nat) (h : t ∉ l) :
    (l.foldl InsertToReadyList k).threads t = k.threads t := by
  induction l generalizing k with
  | nil => rfl
  | cons a l ih =>
    rw [List.mem_cons, not_or] at h
    rw [List.foldl_cons, ih _ h.2, InsertToReadyList_threads, Function.update_noteq h.1]

theorem agedThreads_not_mem (l : List Nat) (h : Nat → Thread) (t : Nat) (hn : t ∉ l) :
    agedThreads h l t = h t := by
  induction l generalizing h with
  | nil => rfl
  | cons a l ih =>
    rw [List.mem_cons, not_or] at hn
    rw [agedThreads_cons, ih _ hn.2, agedThreads_single, if_neg (fun hc => hn.1 hc.1)]

/-- A thread that is in no ready list and not in `tmp` is not touched by `Aging`. -/
theorem Aging_not_queued (k : Kernel) (t : Nat) (h1 : t ∉ k.level1List) (h2 : t ∉ k.level2List)
    (h3 : t ∉ k.level3List) (h4 : t ∉ k.tmp) : (Aging k).threads t = k.threads t := by
  have hd : t ∉ k.level3List ++ k.level2List ++ k.level1List := by
    simp only [List.mem_append, not_or]
    exact ⟨⟨h3, h2⟩, h1⟩
  rw [Aging_eq, foldl_InsertToReadyList_not_mem _ _ _ (by
    rw [List.mem_append, not_or]
    exact ⟨h4, hd⟩)]
  exact agedThreads_not_mem _ _ _ hd

/-- The queue level that the handler reads at its decision is the one the current thread had on
entry, when the current thread is in no ready list and not in `tmp`. -/
theorem CallBackAged_queueLevel (k : Kernel) (h1 : k.currentThread ∉ k.level1List)
    (h2 : k.currentThread ∉ k.level2List) (h3 : k.currentThread ∉ k.level3List)
    (h4 : k.currentThread ∉ k.tmp) :
    ((CallBackAged k).threads k.currentThread).queueLevel =
      (k.threads k.currentThread).queueLevel := by
  have hacc : (CallBackAccount k).level1List = k.level1List ∧
      (CallBackAccount k).level2List = k.level2List ∧
      (CallBackAccount k).level3List = k.level3List ∧ (CallBackAccount k).tmp = k.tmp ∧
      ((CallBackAccount k).threads k.currentThread).queueLevel =
        (k.threads k.currentThread).queueLevel := by
    unfold CallBackAccount
    split_ifs <;>
      simp [Kernel.modifyThread, Thread.UpdateWaitingTicks, Thread.ResetStartWaitingTick,
        Thread.UpdateRunningTicks, Thread.ResetStartRunningTick]
  obtain ⟨a1, a2, a3, -, a5, -, -, -, -, -, -, a12⟩ :=
    SameButWait_UpdateAllWaitTicks (CallBackAccount k)
  obtain ⟨b1, b2, b3, b4, b5⟩ := hacc
  unfold CallBackAged
  rw [Aging_not_queued _ _ (by rw [a1, b1]; exact h1) (by rw [a2, b2]; exact h2)
    (by rw [a3, b3]; exact h3) (by rw [a5, b4]; exact h4), (a12 _).2.1, b5]

/-- C8, evaluation of the code at the failing input: in the band-dominance scenario (thread 6 of
band 3 running with `T = 20` after accounting, thread 1 of band 1 just made ready, L2 empty) the
handler sees `queueLevel = 3` and L1 = [1] after aging and does not request a yield, although
`FindNextToRun` would dispatch thread 1. -/
theorem CallBack_band3_misses_L1 :
    ReadyToRun (Scheduler dominanceThreads 6 20 IntStatus.IntOff) 1 = some demoDominance ∧
    ((CallBackAged demoDominance).threads demoDominance.currentThread).queueLevel = 3 ∧
    ((CallBackAged demoDominance).threads demoDominance.currentThread).T = 20 ∧
    (CallBackAged demoDominance).level1List = [1] ∧
    (CallBackAged demoDominance).level2List = [] ∧
    demoDominance.yieldOnReturn = false ∧
    (CallBack demoDominance).yieldOnReturn = false ∧
    (FindNextToRun (CallBack demoDominance)).map Prod.fst = some (some 1) := by
  refine ⟨rfl, ?_, ?_, ?_, ?_, ?_, ?_, ?_⟩ <;> decide

/-- C9: preemptive SRTF inside band 1. When the current thread has `queueLevel = 1` at the
decision (after accounting, wait-tick sweep and aging), the handler calls `YieldOnReturn` exactly
when L1 is non-empty and its front has a strictly smaller `burstTime` than the current thread;
with an equal or greater front, or with L1 empty, it does not, whatever L2 and L3 hold. With the
flag clear on entry, the flag is set on exit if and only if that condition holds. -/
theorem CallBack_band1_srtf (k : Kernel)
    (hq : ((CallBackAged k).threads k.currentThread).queueLevel = 1) :
    (∀ front l, (CallBackAged k).level1List = front :: l →
      ((CallBackAged k).threads front).burstTime <
        ((CallBackAged k).threads k.currentThread).burstTime →
      CallBack k = YieldOnReturn (CallBackAged k)) ∧
    (∀ front l, (CallBackAged k).level1List = front :: l →
      ¬ ((CallBackAged k).threads front).burstTime <
        ((CallBackAged k).threads k.currentThread).burstTime →
      CallBack k = CallBackAged k) ∧
    ((CallBackAged k).level1List = [] → CallBack k = CallBackAged k) ∧
    (k.yieldOnReturn = false →
      ((CallBack k).yieldOnReturn = true ↔
        ∃ front l, (CallBackAged k).level1List = front :: l ∧
          ((CallBackAged k).threads front).burstTime <
            ((CallBackAged k).threads k.currentThread).burstTime)) := by
  have hflag := (CallBackAged_frame k 0).2.2
  have hcomp : ∀ x y : Thread, Level1Comp x y = -1 ↔ x.burstTime < y.burstTime := by
    intro x y
    unfold Level1Comp
    split_ifs <;> simp [*]
  have c1 : ∀ front l, (CallBackAged k).level1List = front :: l →
      ((CallBackAged k).threads front).burstTime <
        ((CallBackAged k).threads k.currentThread).burstTime →
      CallBack k = YieldOnReturn (CallBackAged k) := by
    intro front l hl hlt
    simp [CallBack, CallBackDecide, hq, Level1Empty, GetLevel1Front, ListIsEmpty, ListFront, hl,
      hcomp, hlt]
  have c2 : ∀ front l, (CallBackAged k).level1List = front :: l →
      ¬ ((CallBackAged k).threads front).burstTime <
        ((CallBackAged k).threads k.currentThread).burstTime →
      CallBack k = CallBackAged k := by
    intro front l hl hlt
    simp [CallBack, CallBackDecide, hq, Level1Empty, GetLevel1Front, ListIsEmpty, ListFront, hl,
      hcomp, hlt]
  have c3 : (CallBackAged k).level1List = [] → CallBack k = CallBackAged k := by
    intro hl
    simp [CallBack, CallBackDecide, hq, Level1Empty, GetLevel1Front, ListIsEmpty, ListFront, hl]
  refine ⟨c1, c2, c3, ?_⟩
  intro hk
  rw [hk] at hflag
  constructor
  · intro hy
    cases hl : (CallBackAged k).level1List with
    | nil =>
      rw [c3 hl, hflag] at hy
      exact absurd hy (by decide)
    | cons front l =>
      by_cases hlt : ((CallBackAged k).threads front).burstTime <
          ((CallBackAged k).threads k.currentThread).burstTime
      · exact ⟨front, l, rfl, hlt⟩
      · rw [c2 front l hl hlt, hflag] at hy
        exact absurd hy (by decide)
  · rintro ⟨front, l, hl, hlt⟩
    rw [c1 front l hl hlt]
    rfl

/-- Witness for C9: in `demoSrtf` thread 1 (`burstTime` 5) runs, thread 2 (`burstTime` 3) is the
front of L1, and the handler requests a yield. -/
theorem CallBack_band1_srtf_witness :
    ((CallBackAged demoSrtf).threads demoSrtf.currentThread).queueLevel = 1 ∧
    (CallBackAged demoSrtf).level1List = [2] ∧
    demoSrtf.yieldOnReturn = false ∧
    (CallBack demoSrtf).yieldOnReturn = true := by
  refine ⟨by decide, by decide, rfl, ?_⟩
  exact ((CallBack_band1_srtf demoSrtf (by decide)).2.2.2 rfl).mpr ⟨2, [], by decide, by decide⟩

/-- C10: round-robin quantum in band 3. When the current thread has `queueLevel = 3` at the
decision and both L1 and L2 are empty after aging, the handler calls `YieldOnReturn` exactly when
the running ticks `T` of the current thread after this tick's accounting are at least 100,
whatever L3 holds; for a current thread that is not BLOCKED the accounted value is
`T + (now - startRunningTick)`. With the flag clear on entry, the flag is set on exit if and
only if `T >= 100`. -/
theorem CallBack_band3_quantum (k : Kernel)
    (hq : ((CallBackAged k).threads k.currentThread).queueLevel = 3)
    (_h1 : (CallBackAged k).level1List = []) (h2 : (CallBackAged k).level2List = []) :
    (((CallBackAged k).threads k.currentThread).T ≥ 100 →
      CallBack k = YieldOnReturn (CallBackAged k)) ∧
    (((CallBackAged k).threads k.currentThread).T < 100 → CallBack k = CallBackAged k) ∧
    (k.yieldOnReturn = false →
      ((CallBack k).yieldOnReturn = true ↔
        ((CallBackAged k).threads k.currentThread).T ≥ 100)) ∧
    ((k.threads k.currentThread).status ≠ ThreadStatus.BLOCKED →
      ((CallBackAged k).threads k.currentThread).T =
        (k.threads k.currentThread).T +
          (k.totalTicks - (k.threads k.currentThread).startRunningTick)) := by
  have hflag := (CallBackAged_frame k 0).2.2
  have c1 : ((CallBackAged k).threads k.currentThread).T ≥ 100 →
      CallBack k = YieldOnReturn (CallBackAged k) := by
    intro hT
    simp [CallBack, CallBackDecide, hq, hT]
  have c2 : ((CallBackAged k).threads k.currentThread).T < 100 →
      CallBack k = CallBackAged k := by
    intro hT
    simp [CallBack, CallBackDecide, hq, not_le.mpr hT, Level2Empty, ListIsEmpty, h2]
  refine ⟨c1, c2, ?_, ?_⟩
  · intro hk
    rw [hk] at hflag
    constructor
    · intro hy
      by_contra hT
      rw [c2 (not_le.mp hT), hflag] at hy
      exact absurd hy (by decide)
    · intro hT
      rw [c1 hT]
      rfl
  · intro hs
    rw [(CallBackAged_frame k k.currentThread).1]
    exact (CallBackAccount_T k).1 hs

/-- Witness for C10: in `demoQuantum` thread 6 has run from tick 0 to tick 100, L1 and L2 are
empty, thread 8 waits in L3, and the handler requests a yield. -/
theorem CallBack_band3_quantum_witness :
    ((CallBackAged demoQuantum).threads demoQuantum.currentThread).queueLevel = 3 ∧
    (CallBackAged demoQuantum).level1List = [] ∧
    (CallBackAged demoQuantum).level2List = [] ∧
    (CallBackAged demoQuantum).level3List = [8] ∧
    demoQuantum.yieldOnReturn = false ∧
    (demoQuantum.threads demoQuantum.currentThread).status ≠ ThreadStatus.BLOCKED ∧
    ((CallBackAged demoQuantum).threads demoQuantum.currentThread).T = 100 ∧
    (CallBack demoQuantum).yieldOnReturn = true := by
  obtain ⟨-, -, hiff, hT⟩ :=
    CallBack_band3_quantum demoQuantum (by decide) (by decide) (by decide)
  refine ⟨by decide, by decide, by decide, by decide, rfl, by decide, ?_, ?_⟩
  · rw [hT (by decide)]
    decide
  · apply (hiff rfl).mpr
    rw [hT (by decide)]
    decide

/-! ## C11: the level-2 branch of the timer handler -/

/-- C11: when the current thread has `queueLevel = 2` at the decision, the handler calls
`YieldOnReturn` exactly when L1 is non-empty after the aging step; nothing is assumed about L2,
L3 or the running ticks `T` of the current thread, which the branch does not read. With the flag
clear on entry, the flag is set on exit if and only if L1 is non-empty. -/
theorem CallBack_band2 (k : Kernel)
    (hq : ((CallBackAged k).threads k.currentThread).queueLevel = 2) :
    ((CallBackAged k).level1List ≠ [] → CallBack k = YieldOnReturn (CallBackAged k)) ∧
    ((CallBackAged k).level1List = [] → CallBack k = CallBackAged k) ∧
    (k.yieldOnReturn = false →
      ((CallBack k).yieldOnReturn = true ↔ (CallBackAged k).level1List ≠ [])) := by
  have hflag := (CallBackAged_frame k 0).2.2
  have c1 : (CallBackAged k).level1List ≠ [] → CallBack k = YieldOnReturn (CallBackAged k) := by
    intro hl
    simp [CallBack, CallBackDecide, hq, Level1Empty, ListIsEmpty, hl]
  have c2 : (CallBackAged k).level1List = [] → CallBack k = CallBackAged k := by
    intro hl
    simp [CallBack, CallBackDecide, hq, Level1Empty, ListIsEmpty, hl]
  refine ⟨c1, c2, ?_⟩
  intro hk
  rw [hk] at hflag
  constructor
  · intro hy hl
    rw [c2 hl, hflag] at hy
    exact absurd hy (by decide)
  · intro hl
    rw [c1 hl]
    rfl

/-- Witness for C11: in `demoBand2` thread 3 (band 2, `T = 250`) runs, L1 = [2], and the handler
requests a yield. -/
theorem CallBack_band2_witness :
    ((CallBackAged demoBand2).threads demoBand2.currentThread).queueLevel = 2 ∧
    (CallBackAged demoBand2).level1List = [2] ∧
    demoBand2.yieldOnReturn = false ∧
    (CallBack demoBand2).yieldOnReturn = true := by
  refine ⟨by decide, by decide, rfl, ?_⟩
  exact ((CallBack_band2 demoBand2 (by decide)).2.2 rfl).mpr (by decide)

/-! ## C12, C19: Run -/

/-- The state that `Run` produces when its assertions pass. -/
theorem Run_eq (k : Kernel) (nextThread : Nat) (finishing : Bool)
    (hoff : k.intLevel = IntStatus.IntOff)
    (hfin : finishing = true → k.toBeDestroyed = none) :
    ∃ k', Run k nextThread finishing = some k' ∧
      k'.currentThread = nextThread ∧
      (k'.threads nextThread).status = ThreadStatus.RUNNING ∧
      (k'.threads nextThread).startRunningTick = k.totalTicks ∧
      (k'.threads k.currentThread).W = 0 ∧
      (nextThread ≠ k.currentThread →
        (k'.threads nextThread).W = (k.threads nextThread).W) ∧
      ((k.threads k.currentThread).status = ThreadStatus.BLOCKED →
        (k'.threads k.currentThread).T = 0) ∧
      ((k.threads k.currentThread).status ≠ ThreadStatus.BLOCKED →
        nextThread ≠ k.currentThread →
        (k'.threads k.currentThread).T = (k.threads k.currentThread).T +
          (k.totalTicks - (k.threads k.currentThread).startRunningTick)) ∧
      ((k.threads k.currentThread).status ≠ ThreadStatus.BLOCKED →
        nextThread = k.currentThread →
        (k'.threads k.currentThread).T = (k.threads k.currentThread).T) := by
  have hf : ¬ (finishing = true ∧ k.toBeDestroyed ≠ none) := fun h => h.2 (hfin h.1)
  by_cases hne : nextThread = k.currentThread
  · subst hne
    by_cases hb : (k.threads k.currentThread).status = ThreadStatus.BLOCKED
    · refine ⟨_, by simp [Run, hoff, hf, hb, Kernel.modifyThread]; rfl, ?_⟩
      cases finishing <;>
        simp [Kernel.modifyThread, Thread.ResetRunningTicks, Thread.ResetWaitingTicks,
          Thread.ResetStartRunningTick, Thread.setStatus, hb]
    · refine ⟨_, by simp [Run, hoff, hf, hb, Kernel.modifyThread]; rfl, ?_⟩
      cases finishing <;>
        simp [Kernel.modifyThread, Thread.ResetRunningTicks, Thread.ResetWaitingTicks,
          Thread.ResetStartRunningTick, Thread.setStatus, hb]
  · have hne' : k.currentThread ≠ nextThread := fun h => hne h.symm
    by_cases hb : (k.threads k.currentThread).status = ThreadStatus.BLOCKED
    · refine ⟨_, by simp [Run, hoff, hf, hb, hne, Kernel.modifyThread, Kernel.debug,
        Thread.UpdateRunningTicks]; rfl, ?_⟩
      cases finishing <;>
        simp [Kernel.modifyThread, Thread.ResetRunningTicks, Thread.ResetWaitingTicks,
          Thread.ResetStartRunningTick, Thread.setStatus, Thread.UpdateRunningTicks, hb, hne,
          hne', Function.update_noteq hne, Function.update_noteq hne']
    · refine ⟨_, by simp [Run, hoff, hf, hb, hne, Kernel.modifyThread, Kernel.debug,
        Thread.UpdateRunningTicks]; rfl, ?_⟩
      cases finishing <;>
        simp [Kernel.modifyThread, Thread.ResetRunningTicks, Thread.ResetWaitingTicks,
          Thread.ResetStartRunningTick, Thread.setStatus, Thread.UpdateRunningTicks, hb, hne,
          hne', Function.update_noteq hne, Function.update_noteq hne']

/-- C12, evaluation of the code at the failing input: thread 6 yields at tick 50 to thread 5,
which waited in L3 with `W = 1600`. At the context switch the current thread is 5, its status is
RUNNING and its `startRunningTick` is 50, but its `W` is still 1600: `Run` has zeroed the `W` of
the outgoing thread 6 instead. -/
theorem Run_keeps_W_of_next :
    (FindNextToRun dispatchBase).map Prod.fst = some (some 5) ∧
    (FindNextToRun dispatchBase).bind (fun r => ReadyToRun r.2 6) = some demoDispatch ∧
    demoDispatch.currentThread = 6 ∧
    (demoDispatch.threads 5).W = 1600 ∧
    (Run demoDispatch 5 false).map (fun k' =>
      (k'.currentThread, (k'.threads 5).status, (k'.threads 5).startRunningTick,
        (k'.threads 5).W, (k'.threads 6).W)) =
      some (5, ThreadStatus.RUNNING, 50, 1600, 0) := by
  refine ⟨by decide, rfl, by decide, by decide, by decide⟩

/-- C19: running-tick accounting of `Run(next, finishing)`, `old` being the current thread and
the assertions passing. If `old` is BLOCKED its `T` ends at 0. Otherwise `T` is not zeroed: with
`next ≠ old` it ends at the accumulated value `T + (now - startRunningTick)`, and with
`next = old` it is left unchanged. -/
theorem Run_running_ticks (k : Kernel) (nextThread : Nat) (finishing : Bool)
    (hoff : k.intLevel = IntStatus.IntOff)
    (hfin : finishing = true → k.toBeDestroyed = none) :
    ∃ k', Run k nextThread finishing = some k' ∧
      ((k.threads k.currentThread).status = ThreadStatus.BLOCKED →
        (k'.threads k.currentThread).T = 0) ∧
      ((k.threads k.currentThread).status ≠ ThreadStatus.BLOCKED →
        nextThread ≠ k.currentThread →
        (k'.threads k.currentThread).T = (k.threads k.currentThread).T +
          (k.totalTicks - (k.threads k.currentThread).startRunningTick)) ∧
      ((k.threads k.currentThread).status ≠ ThreadStatus.BLOCKED →
        nextThread = k.currentThread →
        (k'.threads k.currentThread).T = (k.threads k.currentThread).T) := by
  obtain ⟨k', h, -, -, -, -, -, a, b, c⟩ := Run_eq k nextThread finishing hoff hfin
  exact ⟨k', h, a, b, c⟩

/-- Witness for C19: the yield of thread 6 (status READY, `T = 0`, running since tick 0) to
thread 5 at tick 50 leaves thread 6 with `T = 50`. -/
theorem Run_running_ticks_witness :
    demoDispatch.intLevel = IntStatus.IntOff ∧
    (demoDispatch.threads demoDispatch.currentThread).status = ThreadStatus.READY ∧
    (Run demoDispatch 5 false).map (fun k' => (k'.threads demoDispatch.currentThread).T) =
      some 50 := by
  refine ⟨rfl, by decide, ?_⟩
  obtain ⟨k', h, -, hT, -⟩ := Run_running_ticks demoDispatch 5 false rfl (by decide)
  rw [h, Option.map_some', hT (by decide) (by decide)]
  decide

/-! ## C13: assertions on the interrupt level -/

theorem InsertToReadyList_with_intLevel (k : Kernel) (x : IntStatus) (cur : Nat) :
    InsertToReadyList { k with intLevel := x } cur =
      { InsertToReadyList k cur with intLevel := x } := by
  unfold InsertToReadyList
  simp only [Kernel.modifyThread, Kernel.debug]
  split_ifs <;> rfl

theorem foldl_InsertToReadyList_with_intLevel (l : List Nat) (k : Kernel) (x : IntStatus) :
    l.foldl InsertToReadyList { k with intLevel := x } =
      { l.foldl InsertToReadyList k with intLevel := x } := by
  induction l generalizing k with
  | nil => rfl
  | cons a l ih => rw [List.foldl_cons, InsertToReadyList_with_intLevel, ih, List.foldl_cons]

/-- `Aging` neither reads nor writes the interrupt level. -/
theorem Aging_with_intLevel (k : Kernel) (x : IntStatus) :
    Aging { k with intLevel := x } = { Aging k with intLevel := x } := by
  rw [Aging_eq, Aging_eq]
  exact foldl_InsertToReadyList_with_intLevel _ (AgingDrained k) x

theorem foldl_waitTick_with_intLevel (l : List Nat) (k : Kernel) (x : IntStatus) :
    l.foldl waitTick { k with intLevel := x } = { l.foldl waitTick k with intLevel := x } := by
  induction l generalizing k with
  | nil => rfl
  | cons a l ih =>
    rw [List.foldl_cons, List.foldl_cons, ← ih]
    rfl

/-- `UpdateAllWaitTicks` neither reads nor writes the interrupt level. -/
theorem UpdateAllWaitTicks_with_intLevel (k : Kernel) (x : IntStatus) :
    UpdateAllWaitTicks { k with intLevel := x } = { UpdateAllWaitTicks k with intLevel := x } := by
  unfold UpdateAllWaitTicks
  simp only [foldl_waitTick_with_intLevel]

/-- C13, counterexample: in `demoEnabled` interrupts are enabled, and yet `WaitAppend` returns
with a longer waiting list, `UpdateAllWaitTicks` returns with the `W` of thread 5 advanced, and
`Aging` returns with thread 5 moved into L2: none of the three fails and each of them mutates
the scheduler. -/
theorem no_assertion_counterexample :
    demoEnabled.intLevel = IntStatus.IntOn ∧
    (WaitAppend demoEnabled 8).WaitingList ≠ demoEnabled.WaitingList ∧
    ((UpdateAllWaitTicks demoEnabled).threads 5).W ≠ (demoEnabled.threads 5).W ∧
    (Aging demoEnabled).level2List ≠ demoEnabled.level2List := by
  refine ⟨rfl, by decide, by decide, by decide⟩

/-- Dropping the state of the abort from `ReadyToRunExcept` gives `ReadyToRun`. -/
theorem ReadyToRunExcept_toOption (k : Kernel) (t : Nat) :
    (ReadyToRunExcept k t).toOption = ReadyToRun k t := by
  unfold ReadyToRunExcept ReadyToRun
  split_ifs <;> rfl

/-- Dropping the state of the abort from `FindNextToRunExcept` gives `FindNextToRun`. -/
theorem FindNextToRunExcept_toOption (k : Kernel) :
    (FindNextToRunExcept k).toOption = FindNextToRun k := by
  unfold FindNextToRunExcept FindNextToRun
  split_ifs <;> first | rfl | (simp only []; split <;> rfl)

/-- Dropping the state of the abort from `RunExcept` gives `Run`. -/
theorem RunExcept_toOption (k : Kernel) (nextThread : Nat) (finishing : Bool) :
    (RunExcept k nextThread finishing).toOption = Run k nextThread finishing := by
  unfold RunExcept Run
  simp only []
  split_ifs <;> rfl

/-- C13 as amended: entered with interrupts enabled, `ReadyToRun` and `FindNextToRun` fail with
their assertion and the state at the abort is the state on entry: nothing has been changed.
`Run` fails with its assertion as well, after its running-tick accounting: at the abort the
lists, the scratch buffer and every thread other than the outgoing one are as on entry.
`WaitAppend`, `UpdateAllWaitTicks` and `Aging` carry no assertion: they return and do exactly
what they do with interrupts disabled. -/
theorem entry_with_interrupts_enabled (k : Kernel) (hon : k.intLevel = IntStatus.IntOn) :
    (∀ t, ReadyToRunExcept k t = Except.error k ∧ ReadyToRun k t = none) ∧
    (FindNextToRunExcept k = Except.error k ∧ FindNextToRun k = none) ∧
    (∀ nextThread finishing, Run k nextThread finishing = none ∧
      ∃ k', RunExcept k nextThread finishing = Except.error k' ∧
        k'.level1List = k.level1List ∧ k'.level2List = k.level2List ∧
        k'.level3List = k.level3List ∧ k'.WaitingList = k.WaitingList ∧ k'.tmp = k.tmp ∧
        ∀ u, u ≠ k.currentThread → k'.threads u = k.threads u) ∧
    (∀ x, (WaitAppend k x).WaitingList = k.WaitingList ++ [x]) ∧
    UpdateAllWaitTicks k =
      { UpdateAllWaitTicks { k with intLevel := IntStatus.IntOff } with
        intLevel := IntStatus.IntOn } ∧
    Aging k =
      { Aging { k with intLevel := IntStatus.IntOff } with intLevel := IntStatus.IntOn } := by
  refine ⟨?_, ⟨?_, ?_⟩, ?_, ?_, ?_, ?_⟩
  · intro t
    constructor
    · simp [ReadyToRunExcept, hon]
    · simp [ReadyToRun, hon]
  · simp [FindNextToRunExcept, hon]
  · simp [FindNextToRun, hon]
  · intro nextThread finishing
    constructor
    · unfold Run
      simp only [Kernel.modifyThread, Kernel.debug]
      split_ifs <;> simp_all
    · unfold RunExcept
      simp only [Kernel.modifyThread, Kernel.debug]
      split_ifs <;> first
        | (refine ⟨_, rfl, rfl, rfl, rfl, rfl, rfl, ?_⟩
           intro u hu
           simp [Function.update, hu])
        | simp_all
  · intro x
    rfl
  · have h : (UpdateAllWaitTicks k).intLevel = IntStatus.IntOn :=
      (SameButWait_UpdateAllWaitTicks k).2.2.2.2.2.2.2.2.1.trans hon
    rw [UpdateAllWaitTicks_with_intLevel k IntStatus.IntOff]
    generalize UpdateAllWaitTicks k = u at h ⊢
    cases u
    simp only at h
    subst h
    rfl
  · have h : (Aging k).intLevel = IntStatus.IntOn := (Aging_fields k 0).2.2.2.2.1.trans hon
    rw [Aging_with_intLevel k IntStatus.IntOff]
    generalize Aging k = u at h ⊢
    cases u
    simp only at h
    subst h
    rfl

/-- Witness for C13 as amended: in `demoEnabled` (tick 30, thread 0 current with `T = 0`)
`ReadyToRun` and `FindNextToRun` abort in the state `demoEnabled` itself, `Run` aborts with the
`T` of thread 0 already advanced to 30, and `WaitAppend` returns. -/
theorem entry_with_interrupts_enabled_witness :
    demoEnabled.intLevel = IntStatus.IntOn ∧
    ReadyToRunExcept demoEnabled 7 = Except.error demoEnabled ∧
    ReadyToRun demoEnabled 7 = none ∧
    FindNextToRunExcept demoEnabled = Except.error demoEnabled ∧
    FindNextToRun demoEnabled = none ∧
    Run demoEnabled 5 false = none ∧
    (∃ k', RunExcept demoEnabled 5 false = Except.error k' ∧
      (demoEnabled.threads 0).T = 0 ∧ (k'.threads 0).T = 30 ∧
      k'.level3List = demoEnabled.level3List) ∧
    (WaitAppend demoEnabled 8).WaitingList = [7, 8] := by
  obtain ⟨h1, h2, h3, h4, -, -⟩ := entry_with_interrupts_enabled demoEnabled rfl
  obtain ⟨hr, k', hk', -, -, h3l, -⟩ := h3 5 false
  refine ⟨rfl, (h1 7).1, (h1 7).2, h2.1, h2.2, hr, ⟨k', hk', by decide, ?_, h3l⟩, h4 8⟩
  have e : RunExcept demoEnabled 5 false =
      Except.error (demoEnabled.modifyThread 0 (fun th => th.UpdateRunningTicks 30)
        |>.debug (DebugEvent.selected 30 5 0 30)) := rfl
  rw [e] at hk'
  injection hk' with hk'
  rw [← hk']
  decide

/-! ## C14: sortedness of L1 and L2 along call sequences -/

theorem SortedListInsert_sorted {κ : Type} [LinearOrder κ] (key : Nat → κ)
    (c : Nat → Nat → Int) (hc : ∀ a b, c a b < 0 ↔ key a < key b) (x : Nat) (l : List Nat)
    (hl : l.Pairwise (fun a b => key a ≤ key b)) :
    (SortedListInsert c x l).Pairwise (fun a b => key a ≤ key b) := by
  induction l with
  | nil => simp [SortedListInsert]
  | cons y ys ih =>
    rw [List.pairwise_cons] at hl
    obtain ⟨hy, hys⟩ := hl
    unfold SortedListInsert
    split
    · rename_i hlt
      rw [hc] at hlt
      refine List.Pairwise.cons ?_ (List.Pairwise.cons hy hys)
      intro z hz
      rcases List.mem_cons.mp hz with rfl | hz
      · exact le_of_lt hlt
      · exact le_trans (le_of_lt hlt) (hy z hz)
    · rename_i hlt
      rw [hc, not_lt] at hlt
      refine List.Pairwise.cons ?_ (ih hys)
      intro z hz
      rw [mem_SortedListInsert] at hz
      rcases hz with rfl | hz
      · exact hlt
      · exact hy z hz

theorem SortedInv_congr (k k' : Kernel) (h1 : k'.level1List = k.level1List)
    (h2 : k'.level2List = k.level2List)
    (hp : ∀ t, (k'.threads t).priority = (k.threads t).priority)
    (hb : ∀ t, (k'.threads t).burstTime = (k.threads t).burstTime) (h : SortedInv k) :
    SortedInv k' := by
  unfold SortedInv at *
  simp only [h1, h2, hp, hb]
  exact h

theorem InsertToReadyList_burstTime (k : Kernel) (u t : Nat) :
    ((InsertToReadyList k u).threads t).burstTime = (k.threads t).burstTime := by
  rw [InsertToReadyList_threads]
  by_cases h : t = u
  · subst h; simp [Thread.UpdateQueueLevel]
  · simp [Function.update_noteq h]

theorem SortedInv_InsertToReadyList (k : Kernel) (u : Nat) (h : SortedInv k) :
    SortedInv (InsertToReadyList k u) := by
  obtain ⟨s1, s2⟩ := h
  unfold SortedInv
  simp only [InsertToReadyList_burstTime, InsertToReadyList_priority]
  rcases InsertToReadyList_lists k u with ⟨-, -, e2, e1⟩ | ⟨-, -, e1, c, hc, e2⟩ |
    ⟨-, -, e2, c, hc, e1⟩
  · rw [e1, e2]
    exact ⟨s1, s2⟩
  · rw [e1, e2]
    refine ⟨s1, ?_⟩
    have hs : k.level2List.Pairwise
        (fun a b => -(k.threads a).priority ≤ -(k.threads b).priority) :=
      s2.imp (fun h => neg_le_neg h)
    have := SortedListInsert_sorted (fun t => -(k.threads t).priority) c
      (fun a b => by rw [hc]; exact neg_lt_neg_iff.symm) u _ hs
    exact this.imp (fun h => neg_le_neg_iff.mp h)
  · rw [e1, e2]
    exact ⟨SortedListInsert_sorted (fun t => (k.threads t).burstTime) c hc u _ s1, s2⟩

theorem SortedInv_foldl_InsertToReadyList (l : List Nat) (k : Kernel) (h : SortedInv k) :
    SortedInv (l.foldl InsertToReadyList k) := by
  induction l generalizing k with
  | nil => exact h
  | cons a l ih => exact ih _ (SortedInv_InsertToReadyList k a h)

theorem SortedInv_Aging (k : Kernel) : SortedInv (Aging k) := by
  rw [Aging_eq]
  apply SortedInv_foldl_InsertToReadyList
  simp [SortedInv, AgingDrained]

theorem SortedInv_apply (k k' : Kernel) (op : SchedOp) (h : SortedInv k)
    (hr : op.apply k = some k') : SortedInv k' := by
  cases op with
  | readyToRun t =>
    obtain ⟨hoff, -, -⟩ := ReadyToRun_threads k k' t hr
    simp only [SchedOp.apply] at hr
    rw [ReadyToRun_eq k t hoff] at hr
    cases hr
    apply SortedInv_InsertToReadyList
    refine SortedInv_congr k _ rfl rfl ?_ ?_ h
    · intro u
      by_cases hu : u = t
      · subst hu; simp [Thread.setStatus]
      · simp [Function.update_noteq hu]
    · intro u
      by_cases hu : u = t
      · subst hu; simp [Thread.setStatus]
      · simp [Function.update_noteq hu]
  | findNextToRun =>
    simp only [SchedOp.apply, Option.map_eq_some'] at hr
    obtain ⟨⟨r, k2⟩, hf, rfl⟩ := hr
    obtain ⟨-, ht, -, -, hc⟩ := FindNextToRun_cases k r k2 hf
    obtain ⟨s1, s2⟩ := h
    unfold SortedInv
    rw [ht]
    rcases hc with ⟨t, l, e1, -, f1, f2, -⟩ | ⟨t, l, -, e2, -, f1, f2, -⟩ |
      ⟨t, l, -, -, -, -, f1, f2, -⟩ | ⟨-, -, -, -, rfl⟩
    · rw [f1, f2]
      rw [e1] at s1
      exact ⟨(List.pairwise_cons.mp s1).2, s2⟩
    · rw [f1, f2]
      rw [e2] at s2
      exact ⟨List.Pairwise.nil, (List.pairwise_cons.mp s2).2⟩
    · rw [f1, f2]
      exact ⟨List.Pairwise.nil, List.Pairwise.nil⟩
    · exact ⟨s1, s2⟩
  | waitAppend t =>
    simp only [SchedOp.apply, Option.some.injEq] at hr
    subst hr
    exact h
  | updateAllWaitTicks =>
    simp only [SchedOp.apply, Option.some.injEq] at hr
    subst hr
    obtain ⟨a1, a2, -, -, -, -, -, -, -, -, -, a12⟩ := SameButWait_UpdateAllWaitTicks k
    exact SortedInv_congr k _ a1 a2 (fun t => (a12 t).1) (fun t => (a12 t).2.2.2.2.1) h
  | aging =>
    simp only [SchedOp.apply, Option.some.injEq] at hr
    subst hr
    exact SortedInv_Aging k

theorem runOps_sorted (ops : List SchedOp) (k k' : Kernel) (hs : SortedInv k)
    (hrun : runOps k ops = some k') : SortedInv k' := by
  induction ops generalizing k with
  | nil =>
    simp only [runOps, Option.some.injEq] at hrun
    subst hrun
    exact hs
  | cons op ops ih =>
    simp only [runOps, Option.bind_eq_some] at hrun
    obtain ⟨k1, h1, h2⟩ := hrun
    exact ih k1 (SortedInv_apply k k1 op hs h1) h2

/-- C14: sortedness invariant. In every state reached from the empty scheduler by a sequence of
scheduler calls (ReadyToRun, FindNextToRun, Aging, and also WaitAppend and UpdateAllWaitTicks;
none of them changes a `burstTime`), L1 is in non-decreasing order of `burstTime` and L2 is in
non-increasing order of `priority`, both read from the thread objects in that state; an `Aging`
call as last operation is one case of it. -/
theorem sorted_invariant_reachable (threads : Nat → Thread) (cur : Nat) (now : Int)
    (lvl : IntStatus) (ops : List SchedOp) (k : Kernel)
    (hrun : runOps (Scheduler threads cur now lvl) ops = some k) :
    k.level1List.Pairwise (fun a b => (k.threads a).burstTime ≤ (k.threads b).burstTime) ∧
    k.level2List.Pairwise (fun a b => (k.threads b).priority ≤ (k.threads a).priority) :=
  runOps_sorted ops _ k (by simp [SortedInv, Scheduler]) hrun

/-- Witness for C14: the state `demoAged`, reached by a call sequence that ends with an `Aging`
call raising priorities of members of L2; there L2 = [4, 3, 5] with priorities 80, 60, 50. -/
theorem sorted_invariant_reachable_witness :
    runOps (Scheduler demoThreads 0 0 IntStatus.IntOff) demoAgingOps = some demoAged ∧
    demoAged.level2List = [4, 3, 5] ∧
    demoAged.level2List.map (fun t => (demoAged.threads t).priority) = [80, 60, 50] ∧
    demoAged.level1List.Pairwise
      (fun a b => (demoAged.threads a).burstTime ≤ (demoAged.threads b).burstTime) ∧
    demoAged.level2List.Pairwise
      (fun a b => (demoAged.threads b).priority ≤ (demoAged.threads a).priority) :=
  ⟨rfl, by decide, by decide,
    sorted_invariant_reachable demoThreads 0 0 IntStatus.IntOff demoAgingOps demoAged rfl⟩

/-! ## C15: stable ordered insertion -/

theorem SortedListInsert_split {κ : Type} [LinearOrder κ] (key : Nat → κ)
    (c : Nat → Nat → Int) (hc : ∀ a b, c a b < 0 ↔ key a < key b) (x : Nat) (l : List Nat)
    (hl : l.Pairwise (fun a b => key a ≤ key b)) :
    ∃ l1 l2, l = l1 ++ l2 ∧ SortedListInsert c x l = l1 ++ x :: l2 ∧
      (∀ a ∈ l1, key a ≤ key x) ∧ (∀ b ∈ l2, key x < key b) := by
  induction l with
  | nil => exact ⟨[], [], rfl, rfl, by simp, by simp⟩
  | cons y ys ih =>
    rw [List.pairwise_cons] at hl
    obtain ⟨hy, hys⟩ := hl
    unfold SortedListInsert
    split
    · rename_i hlt
      rw [hc] at hlt
      refine ⟨[], y :: ys, rfl, rfl, by simp, ?_⟩
      intro b hb
      rcases List.mem_cons.mp hb with rfl | hb
      · exact hlt
      · exact lt_of_lt_of_le hlt (hy b hb)
    · rename_i hlt
      rw [hc, not_lt] at hlt
      obtain ⟨l1, l2, e1, e2, ha, hb⟩ := ih hys
      refine ⟨y :: l1, l2, by rw [e1]; rfl, by rw [e2]; rfl, ?_, hb⟩
      intro a ha'
      rcases List.mem_cons.mp ha' with rfl | ha'
      · exact hlt
      · exact ha a ha'

/-- C15: stable ordered insertion. With interrupts disabled and L1, L2 sorted, `ReadyToRun t`
leaves the elements already queued in their order and puts `t`, when it goes to L1 (priority
100 and above), after every element whose `burstTime` is at most that of `t` and before every
element with a strictly larger `burstTime`; when it goes to L2 (priority 50..99), after every
element whose priority is at least that of `t` and before every element with a strictly smaller
priority; when it goes to L3 (priority 49 and below), at the end. -/
theorem ReadyToRun_placement (k : Kernel) (t : Nat) (hoff : k.intLevel = IntStatus.IntOff)
    (hs : SortedInv k) :
    ∃ k', ReadyToRun k t = some k' ∧
      (100 ≤ (k.threads t).priority →
        ∃ l1 l2, k.level1List = l1 ++ l2 ∧ k'.level1List = l1 ++ t :: l2 ∧
          (∀ a ∈ l1, (k.threads a).burstTime ≤ (k.threads t).burstTime) ∧
          (∀ b ∈ l2, (k.threads t).burstTime < (k.threads b).burstTime)) ∧
      (50 ≤ (k.threads t).priority ∧ (k.threads t).priority ≤ 99 →
        ∃ l1 l2, k.level2List = l1 ++ l2 ∧ k'.level2List = l1 ++ t :: l2 ∧
          (∀ a ∈ l1, (k.threads t).priority ≤ (k.threads a).priority) ∧
          (∀ b ∈ l2, (k.threads b).priority < (k.threads t).priority)) ∧
      ((k.threads t).priority ≤ 49 → k'.level3List = k.level3List ++ [t]) := by
  refine ⟨_, ReadyToRun_eq k t hoff, ?_⟩
  obtain ⟨s1, s2⟩ := hs
  have hf2 : ∀ a, (Function.update k.threads t
      ((k.threads t).setStatus ThreadStatus.READY) a).priority = (k.threads a).priority ∧
      (Function.update k.threads t
      ((k.threads t).setStatus ThreadStatus.READY) a).burstTime = (k.threads a).burstTime := by
    intro a
    by_cases h : a = t
    · subst h; simp [Thread.setStatus]
    · simp [Function.update_noteq h]
  rcases InsertToReadyList_lists
      { k with
        threads := Function.update k.threads t ((k.threads t).setStatus ThreadStatus.READY),
        WaitingList := if t ∈ k.WaitingList then k.WaitingList.erase t else k.WaitingList } t
      with ⟨hl, e3, -, -⟩ | ⟨hl, -, -, c, hc, e2⟩ | ⟨hl, -, -, c, hc, e1⟩
  · simp only [(hf2 t).1, levelOfPriority] at hl
    refine ⟨fun h => ?_, fun h => ?_, fun _ => e3⟩
    · split_ifs at hl <;> omega
    · split_ifs at hl <;> omega
  · simp only [(hf2 t).1, levelOfPriority] at hl
    refine ⟨fun h => ?_, fun _ => ?_, fun h => ?_⟩
    · split_ifs at hl <;> omega
    · have hs : k.level2List.Pairwise
          (fun a b => -(k.threads a).priority ≤ -(k.threads b).priority) :=
        s2.imp (fun h => neg_le_neg h)
      obtain ⟨l1, l2, d1, d2, ha, hb⟩ :=
        SortedListInsert_split (fun u => -(k.threads u).priority) c
          (fun a b => by rw [hc, (hf2 a).1, (hf2 b).1]; exact neg_lt_neg_iff.symm) t _ hs
      exact ⟨l1, l2, d1, e2.trans d2, fun a h => neg_le_neg_iff.mp (ha a h),
        fun b h => neg_lt_neg_iff.mp (hb b h)⟩
    · split_ifs at hl
      omega
  · simp only [(hf2 t).1, levelOfPriority] at hl
    refine ⟨fun _ => ?_, fun h => ?_, fun h => ?_⟩
    · obtain ⟨l1, l2, d1, d2, ha, hb⟩ :=
        SortedListInsert_split (fun u => (k.threads u).burstTime) c
          (fun a b => by rw [hc, (hf2 a).2, (hf2 b).2]) t _ s1
      exact ⟨l1, l2, d1, e1.trans d2, ha, hb⟩
    · split_ifs at hl <;> omega
    · split_ifs at hl
      omega

/-- Witness for C15: in `demoSrtf` (L1 = [2], `burstTime` 3) thread 1 (priority 120,
`burstTime` 5) is made ready. -/
theorem ReadyToRun_placement_witness :
    demoSrtf.intLevel = IntStatus.IntOff ∧ SortedInv demoSrtf ∧
    100 ≤ (demoSrtf.threads 1).priority ∧
    ∃ k', ReadyToRun demoSrtf 1 = some k' ∧
      ∃ l1 l2, demoSrtf.level1List = l1 ++ l2 ∧ k'.level1List = l1 ++ 1 :: l2 ∧
        (∀ a ∈ l1, (demoSrtf.threads a).burstTime ≤ (demoSrtf.threads 1).burstTime) ∧
        (∀ b ∈ l2, (demoSrtf.threads 1).burstTime < (demoSrtf.threads b).burstTime) := by
  have hs : SortedInv demoSrtf := by
    unfold SortedInv
    decide
  obtain ⟨k', h, h1, -, -⟩ := ReadyToRun_placement demoSrtf 1 rfl hs
  exact ⟨rfl, hs, by decide, k', h, h1 (by decide)⟩

/-! ## C16: the wait-tick sweep is idempotent -/

theorem waitTick_fixed (k : Kernel) (t : Nat)
    (h : (k.threads t).startWaitingTick = k.totalTicks) : waitTick k t = k := by
  have hth : ((k.threads t).UpdateWaitingTicks k.totalTicks).ResetStartWaitingTick k.totalTicks =
      k.threads t := by
    cases hk : k.threads t
    rw [hk] at h
    simp only [Thread.UpdateWaitingTicks, Thread.ResetStartWaitingTick] at h ⊢
    simp [h]
  unfold waitTick Kernel.modifyThread
  simp only [hth, Function.update_eq_self]

theorem foldl_waitTick_fixed (l : List Nat) (k : Kernel)
    (h : ∀ t ∈ l, (k.threads t).startWaitingTick = k.totalTicks) : l.foldl waitTick k = k := by
  induction l with
  | nil => rfl
  | cons a l ih =>
    rw [List.foldl_cons, waitTick_fixed k a (h a (List.mem_cons_self _ _))]
    exact ih (fun t ht => h t (List.mem_cons_of_mem _ ht))

theorem foldl_waitTick_start (l : List Nat) (k : Kernel) (t : Nat)
    (h : t ∈ l ∨ (k.threads t).startWaitingTick = k.totalTicks) :
    ((l.foldl waitTick k).threads t).startWaitingTick = k.totalTicks := by
  induction l generalizing k with
  | nil =>
    rcases h with h | h
    · simp at h
    · exact h
  | cons a l ih =>
    rw [List.foldl_cons]
    have ht : (waitTick k a).totalTicks = k.totalTicks := rfl
    rw [← ht]
    apply ih
    by_cases hta : t = a
    · right
      subst hta
      simp [waitTick, Kernel.modifyThread, Thread.ResetStartWaitingTick]
    · rcases h with h | h
      · rcases List.mem_cons.mp h with h | h
        · exact absurd h hta
        · exact Or.inl h
      · right
        simpa [waitTick, Kernel.modifyThread, Function.update_noteq hta] using h

/-- After the sweep every swept thread has its `startWaitingTick` at the current tick. -/
theorem UpdateAllWaitTicks_start (k : Kernel) (t : Nat)
    (h : t ∈ k.level1List ∨ t ∈ k.level2List ∨ t ∈ k.level3List ∨ t ∈ k.WaitingList) :
    ((UpdateAllWaitTicks k).threads t).startWaitingTick = k.totalTicks := by
  unfold UpdateAllWaitTicks
  have s1 := SameButWait_foldl k.level1List k
  have s2 := SameButWait_foldl (k.level1List.foldl waitTick k).level2List
    (k.level1List.foldl waitTick k)
  have s3 := SameButWait_foldl
    ((k.level1List.foldl waitTick k).level2List.foldl waitTick
      (k.level1List.foldl waitTick k)).level3List
    ((k.level1List.foldl waitTick k).level2List.foldl waitTick (k.level1List.foldl waitTick k))
  have t1 : (k.level1List.foldl waitTick k).totalTicks = k.totalTicks := s1.2.2.2.2.2.2.2.1
  have t2 := s2.2.2.2.2.2.2.2.1.trans t1
  have t3 := s3.2.2.2.2.2.2.2.1.trans t2
  simp only []
  rw [← t3]
  apply foldl_waitTick_start
  by_cases h4 : t ∈ k.WaitingList
  · left
    rw [s3.2.2.2.1, s2.2.2.2.1, s1.2.2.2.1]
    exact h4
  right
  rw [t3, ← t2]
  apply foldl_waitTick_start
  by_cases h3 : t ∈ k.level3List
  · left
    rw [s2.2.2.1, s1.2.2.1]
    exact h3
  right
  rw [t2, ← t1]
  apply foldl_waitTick_start
  by_cases h2 : t ∈ k.level2List
  · left
    rw [s1.2.1]
    exact h2
  right
  rw [t1]
  apply foldl_waitTick_start
  left
  tauto

theorem UpdateAllWaitTicks_fixed (k : Kernel)
    (h : ∀ t, t ∈ k.level1List ∨ t ∈ k.level2List ∨ t ∈ k.level3List ∨ t ∈ k.WaitingList →
      (k.threads t).startWaitingTick = k.totalTicks) : UpdateAllWaitTicks k = k := by
  have e1 := foldl_waitTick_fixed k.level1List k (fun t ht => h t (Or.inl ht))
  have e2 := foldl_waitTick_fixed k.level2List k (fun t ht => h t (Or.inr (Or.inl ht)))
  have e3 := foldl_waitTick_fixed k.level3List k (fun t ht => h t (Or.inr (Or.inr (Or.inl ht))))
  have e4 := foldl_waitTick_fixed k.WaitingList k
    (fun t ht => h t (Or.inr (Or.inr (Or.inr ht))))
  simp only [UpdateAllWaitTicks, e1, e2, e3, e4]

/-- C16: `UpdateAllWaitTicks` is idempotent per tick: on every scheduler state, with the tick
counter unchanged in between, a second sweep right after the first gives exactly the state
left by the first, also when a thread occurs several times in the swept lists. -/
theorem UpdateAllWaitTicks_idempotent (k : Kernel) :
    UpdateAllWaitTicks (UpdateAllWaitTicks k) = UpdateAllWaitTicks k := by
  obtain ⟨a1, a2, a3, a4, -, -, -, a8, -⟩ := SameButWait_UpdateAllWaitTicks k
  apply UpdateAllWaitTicks_fixed
  intro t ht
  rw [a1, a2, a3, a4] at ht
  rw [a8]
  exact UpdateAllWaitTicks_start k t ht

/-! ## C17: the burst estimator -/

/-- C17: burst estimator. For a thread whose `burstTime` is 0, a run of `T1` ticks ended by
blocking leaves `burstTime = 0.5·T1`, and a following run of `T2` ticks ended by blocking
leaves `burstTime = 0.5·T2 + 0.25·T1`, exactly, over the rationals. -/
theorem burst_estimator (th : Thread) (T1 T2 : Int) (h0 : th.burstTime = 0) :
    (runThenBlock th T1).burstTime = (1 / 2 : ℚ) * T1 ∧
    (runThenBlock (runThenBlock th T1) T2).burstTime =
      (1 / 2 : ℚ) * T2 + (1 / 4 : ℚ) * T1 := by
  simp only [runThenBlock, Thread.UpdateRemainBurst, h0]
  constructor <;> ring

/-- Witness for C17: runs of 40 and then 10 ticks give the estimates 20 and then 15. -/
theorem burst_estimator_witness :
    (demoThread 1 120 0 0).burstTime = 0 ∧
    (runThenBlock (demoThread 1 120 0 0) 40).burstTime = 20 ∧
    (runThenBlock (runThenBlock (demoThread 1 120 0 0) 40) 10).burstTime = 15 := by
  obtain ⟨h1, h2⟩ := burst_estimator (demoThread 1 120 0 0) 40 10 rfl
  refine ⟨rfl, ?_, ?_⟩
  · rw [h1]; norm_num
  · rw [h2]; norm_num

/-! ## C18: repeated promotion -/

theorem InsertToReadyList_perm (k : Kernel) (u : Nat) :
    ((InsertToReadyList k u).level1List ++ (InsertToReadyList k u).level2List ++
      (InsertToReadyList k u).level3List).Perm
      ((k.level1List ++ k.level2List ++ k.level3List) ++ [u]) := by
  rcases InsertToReadyList_lists k u with ⟨-, e3, e2, e1⟩ | ⟨-, e3, e1, c, -, e2⟩ |
    ⟨-, e3, e2, c, -, e1⟩
  · rw [e1, e2, e3, ← List.append_assoc]
  · rw [e1, e2, e3]
    refine List.Perm.trans ?_ (List.perm_append_singleton u _).symm
    refine List.Perm.trans (List.Perm.append_right _
      (List.Perm.append_left _ (SortedListInsert_perm c u _))) ?_
    simp only [List.append_assoc, List.cons_append]
    exact List.perm_middle
  · rw [e1, e2, e3]
    refine List.Perm.trans ?_ (List.perm_append_singleton u _).symm
    refine List.Perm.trans (List.Perm.append_right _
      (List.Perm.append_right _ (SortedListInsert_perm c u _))) ?_
    simp only [List.append_assoc, List.cons_append]
    exact List.Perm.refl _

theorem foldl_InsertToReadyList_perm (l : List Nat) (k : Kernel) :
    ((l.foldl InsertToReadyList k).level1List ++ (l.foldl InsertToReadyList k).level2List ++
      (l.foldl InsertToReadyList k).level3List).Perm
      ((k.level1List ++ k.level2List ++ k.level3List) ++ l) ∧
    (l.foldl InsertToReadyList k).tmp = k.tmp := by
  induction l generalizing k with
  | nil => exact ⟨by simp, rfl⟩
  | cons a l ih =>
    obtain ⟨h1, h2⟩ := ih (InsertToReadyList k a)
    refine ⟨?_, h2.trans (InsertToReadyList_frame k a).2.1⟩
    rw [List.foldl_cons]
    refine h1.trans ?_
    refine ((InsertToReadyList_perm k a).append_right l).trans ?_
    simp

/-- `Aging` conserves the queued threads: the ready lists afterwards hold, up to order, the old
contents of `tmp` and of the three ready lists, and `tmp` is left empty. -/
theorem Aging_perm (k : Kernel) :
    ((Aging k).level1List ++ (Aging k).level2List ++ (Aging k).level3List).Perm
      (k.tmp ++ (k.level1List ++ k.level2List ++ k.level3List)) ∧
    (Aging k).tmp = [] := by
  rw [Aging_eq]
  obtain ⟨h1, h2⟩ := foldl_InsertToReadyList_perm
    (k.tmp ++ (k.level3List ++ k.level2List ++ k.level1List)) (AgingDrained k)
  refine ⟨h1.trans ?_, h2⟩
  simp only [AgingDrained, List.append_nil, List.nil_append]
  refine List.Perm.append_left _ ?_
  refine List.Perm.trans ?_ List.perm_append_comm
  rw [List.append_assoc]
  exact List.Perm.append_left _ List.perm_append_comm

theorem agedThreads_iterate (l : List Nat) (h : Nat → Thread) (t : Nat)
    (hW : (h t).W ≥ 1500) :
    agedThreads h l t = Thread.UpdatePriority^[l.count t] (h t) := by
  induction l generalizing h with
  | nil => rfl
  | cons a l ih =>
    have hW1 : (agedThreads h [a] t).W ≥ 1500 := by
      obtain ⟨p, hp⟩ := agedThreads_fields [a] h t
      rw [hp]
      exact hW
    rw [agedThreads_cons, ih _ hW1, agedThreads_single]
    by_cases hta : t = a
    · subst hta
      rw [if_pos ⟨rfl, hW⟩, List.count_cons_self, Function.iterate_succ_apply]
    · rw [if_neg (fun hc => hta hc.1), List.count_cons_of_ne hta]

/-- One `Aging` call on a thread queued exactly once with `W >= 1500`. -/
theorem Aging_once (k : Kernel) (t : Nat)
    (hc : (k.level1List ++ k.level2List ++ k.level3List).count t = 1) (htmp : t ∉ k.tmp)
    (hW : (k.threads t).W ≥ 1500) :
    ((Aging k).threads t).priority = min ((k.threads t).priority + 10) 149 ∧
    ((Aging k).threads t).W = (k.threads t).W ∧
    ((Aging k).level1List ++ (Aging k).level2List ++ (Aging k).level3List).count t = 1 ∧
    t ∉ (Aging k).tmp := by
  have hc' : (k.level3List ++ k.level2List ++ k.level1List).count t = 1 := by
    simp only [List.count_append] at hc ⊢
    omega
  obtain ⟨⟨p, q, hpq⟩, -⟩ := Aging_fields k t
  obtain ⟨hperm, htmp'⟩ := Aging_perm k
  refine ⟨?_, by rw [hpq], ?_, by rw [htmp']; simp⟩
  · rw [Aging_priority, agedThreads_iterate _ _ _ hW, hc']
    rfl
  · rw [hperm.count_eq, List.count_append, List.count_eq_zero_of_not_mem htmp, hc]

/-- C18: `Aging` does not reset `W`, so promotion repeats. For a thread `t` queued exactly once
(and not parked in `tmp`) with `W >= 1500` and priority `p` at most 149, after `n` consecutive
`Aging` calls the priority of `t` is min(p + 10·n, 149), its `W` is unchanged, and `t` is still
queued exactly once. -/
theorem Aging_repeats (n : Nat) (k : Kernel) (t : Nat)
    (hc : (k.level1List ++ k.level2List ++ k.level3List).count t = 1) (htmp : t ∉ k.tmp)
    (hW : (k.threads t).W ≥ 1500) (hp : (k.threads t).priority ≤ 149) :
    ((AgingTimes n k).threads t).priority = min ((k.threads t).priority + 10 * n) 149 ∧
    ((AgingTimes n k).threads t).W = (k.threads t).W ∧
    ((AgingTimes n k).level1List ++ (AgingTimes n k).level2List ++
      (AgingTimes n k).level3List).count t = 1 := by
  induction n generalizing k with
  | zero =>
    refine ⟨?_, rfl, hc⟩
    simp only [AgingTimes]
    omega
  | succ n ih =>
    obtain ⟨a1, a2, a3, a4⟩ := Aging_once k t hc htmp hW
    obtain ⟨b1, b2, b3⟩ := ih (Aging k) a3 a4 (by rw [a2]; exact hW) (by rw [a1]; omega)
    refine ⟨?_, b2.trans a2, b3⟩
    simp only [AgingTimes]
    rw [b1, a1]
    push_cast
    omega

/-- Witness for C18: thread 5 of `demoKernel` (priority 40, `W = 1600`) after three `Aging`
calls. -/
theorem Aging_repeats_witness :
    (demoKernel.level1List ++ demoKernel.level2List ++ demoKernel.level3List).count 5 = 1 ∧
    5 ∉ demoKernel.tmp ∧ (demoKernel.threads 5).W ≥ 1500 ∧
    (demoKernel.threads 5).priority ≤ 149 ∧
    ((AgingTimes 3 demoKernel).threads 5).priority = 70 ∧
    ((AgingTimes 3 demoKernel).threads 5).W = 1600 := by
  obtain ⟨h1, h2, -⟩ :=
    Aging_repeats 3 demoKernel 5 (by decide) (by decide) (by decide) (by decide)
  refine ⟨by decide, by decide, by decide, by decide, ?_, ?_⟩
  · rw [h1]
    decide
  · rw [h2]
    decide

/-! ## C20: the debug trace of Aging -/

theorem agingTrace_eq_map (now : Int) (l : List Nat) (h : Nat → Thread) :
    agingTrace now h l =
      l.map (fun t => DebugEvent.removed now (h t).ID (h t).queueLevel) := by
  induction l generalizing h with
  | nil => rfl
  | cons a l ih =>
    rw [agingTrace, ih, List.map_cons]
    congr 1
    apply List.map_congr_left
    intro t _
    obtain ⟨p, hp⟩ := agedThreads_fields [a] h t
    rw [hp]

theorem InsertToReadyList_trace (k : Kernel) (a : Nat) :
    (InsertToReadyList k a).trace = k.trace ++
      [DebugEvent.inserted k.totalTicks (k.threads a).ID
        (levelOfPriority (k.threads a).priority)] := by
  unfold InsertToReadyList levelOfPriority
  simp only [Kernel.modifyThread, Kernel.debug]
  split_ifs <;> simp [Thread.UpdateQueueLevel]

theorem foldl_InsertToReadyList_trace (l : List Nat) (k : Kernel) :
    (l.foldl InsertToReadyList k).trace = k.trace ++
      l.map (fun t => DebugEvent.inserted k.totalTicks (k.threads t).ID
        (levelOfPriority (k.threads t).priority)) := by
  induction l generalizing k with
  | nil => simp
  | cons a l ih =>
    rw [List.foldl_cons, ih, InsertToReadyList_trace, List.map_cons, List.append_assoc,
      List.singleton_append, (InsertToReadyList_frame k a).2.2.2.2.1]
    congr 2
    apply List.map_congr_left
    intro t _
    rw [InsertToReadyList_priority]
    obtain ⟨⟨q, hq⟩, -⟩ := foldl_InsertToReadyList_fields [a] k t
    rw [List.foldl_cons, List.foldl_nil] at hq
    rw [hq]

/-- C20: debug trace of `Aging`. With the scratch buffer empty on entry, one `Aging` call on a
scheduler holding `n` queued threads appends to the trace exactly `n` `[B]` lines (threads of
L3 first, then L2, then L1, each with the queue level it had before) followed by exactly `n`
`[A]` lines (each with the queue level the thread has afterwards). In particular a thread of
L3 queued once with `queueLevel = 3`, priority 40 and `W >= 1500` gets a `[B]` line with level
3 and, later, an `[A]` line with level 2, and ends in L2 with priority 50. -/
theorem Aging_trace (k : Kernel) (htmp : k.tmp = []) :
    (Aging k).trace = k.trace ++ agingRemoved k ++ agingInserted k ∧
    (agingRemoved k).length = (k.level1List ++ k.level2List ++ k.level3List).length ∧
    (agingInserted k).length = (k.level1List ++ k.level2List ++ k.level3List).length ∧
    ∀ t, t ∈ k.level3List →
      (k.level1List ++ k.level2List ++ k.level3List).count t = 1 →
      (k.threads t).queueLevel = 3 → (k.threads t).priority = 40 → (k.threads t).W ≥ 1500 →
      DebugEvent.removed k.totalTicks (k.threads t).ID 3 ∈ agingRemoved k ∧
      DebugEvent.inserted k.totalTicks (k.threads t).ID 2 ∈ agingInserted k ∧
      t ∈ (Aging k).level2List ∧ ((Aging k).threads t).priority = 50 := by
  obtain ⟨hperm, -⟩ := Aging_perm k
  rw [htmp, List.nil_append] at hperm
  have hband := BandInv_Aging k
  have hlevel : ∀ t, t ∈ k.level3List ++ k.level2List ++ k.level1List →
      ((Aging k).threads t).queueLevel = levelOfPriority ((Aging k).threads t).priority := by
    intro t ht
    have hm : t ∈ (Aging k).level1List ++ (Aging k).level2List ++ (Aging k).level3List := by
      rw [hperm.mem_iff]
      simp only [List.mem_append] at ht ⊢
      tauto
    simp only [List.mem_append] at hm
    obtain ⟨i1, i2, i3⟩ := hband
    rcases hm with (hm | hm) | hm
    · rw [(i1 t hm).1, (i1 t hm).2]
    · rw [(i2 t hm).1, (i2 t hm).2]
    · rw [(i3 t hm).1, (i3 t hm).2]
  have hlen : (k.level3List ++ k.level2List ++ k.level1List).length =
      (k.level1List ++ k.level2List ++ k.level3List).length := by
    simp only [List.length_append]
    omega
  refine ⟨?_, by simp only [agingRemoved, List.length_map, hlen],
    by simp only [agingInserted, List.length_map, hlen], ?_⟩
  · have hA : agingInserted k =
        (k.level3List ++ k.level2List ++ k.level1List).map (fun t =>
          DebugEvent.inserted k.totalTicks (k.threads t).ID
            (levelOfPriority ((Aging k).threads t).priority)) := by
      unfold agingInserted
      apply List.map_congr_left
      intro t ht
      rw [hlevel t ht]
    rw [hA]
    conv_lhs => rw [Aging_eq, foldl_InsertToReadyList_trace, htmp, List.nil_append]
    simp only [AgingDrained, agingTrace_eq_map, agingRemoved]
    congr 1
    apply List.map_congr_left
    intro t _
    obtain ⟨p, hp⟩ := agedThreads_fields (k.level3List ++ k.level2List ++ k.level1List)
      k.threads t
    rw [Aging_priority, hp]
  · intro t ht3 hc hq hp hW
    obtain ⟨a1, -, -, -⟩ := Aging_once k t hc (by rw [htmp]; simp) hW
    have hd : t ∈ k.level3List ++ k.level2List ++ k.level1List := by
      simp only [List.mem_append]
      tauto
    have hp50 : ((Aging k).threads t).priority = 50 := by
      rw [a1, hp]
      decide
    have hl2 : ((Aging k).threads t).queueLevel = 2 := by
      rw [hlevel t hd, hp50]
      decide
    refine ⟨?_, ?_, ?_, hp50⟩
    · unfold agingRemoved
      rw [List.mem_map]
      exact ⟨t, hd, by rw [hq]⟩
    · unfold agingInserted
      rw [List.mem_map]
      exact ⟨t, hd, by rw [hl2]⟩
    · have hm : t ∈ (Aging k).level1List ++ (Aging k).level2List ++ (Aging k).level3List := by
        rw [hperm.mem_iff]
        simp only [List.mem_append]
        tauto
      simp only [List.mem_append] at hm
      obtain ⟨i1, i2, i3⟩ := hband
      rcases hm with (hm | hm) | hm
      · have := (i1 t hm).1
        omega
      · exact hm
      · have := (i3 t hm).1
        omega

/-- Witness for C20: `demoKernel` (six queued threads, thread 5 in L3 with priority 40 and
`W = 1600`). -/
theorem Aging_trace_witness :
    demoKernel.tmp = [] ∧
    (Aging demoKernel).trace = demoKernel.trace ++ agingRemoved demoKernel ++
      agingInserted demoKernel ∧
    (agingRemoved demoKernel).length = 6 ∧ (agingInserted demoKernel).length = 6 ∧
    DebugEvent.removed 0 5 3 ∈ agingRemoved demoKernel ∧
    DebugEvent.inserted 0 5 2 ∈ agingInserted demoKernel ∧
    5 ∈ (Aging demoKernel).level2List ∧ ((Aging demoKernel).threads 5).priority = 50 := by
  obtain ⟨h1, h2, h3, h4⟩ := Aging_trace demoKernel rfl
  obtain ⟨b1, b2, b3, b4⟩ := h4 5 (by decide) (by decide) (by decide) (by decide) (by decide)
  exact ⟨rfl, h1, h2, h3, b1, b2, b3, b4⟩

/-! ## C21: Aging conserves the queued threads -/

/-- C21: with the scratch buffer empty on entry, `Aging` leaves in L1, L2 and L3 together the
same threads with the same multiplicities as before (a permutation), leaves the scratch buffer
empty again, and changes neither the waiting list nor the `status`, `T`, `W` or `burstTime` of
any thread. -/
theorem Aging_conserves (k : Kernel) (htmp : k.tmp = []) :
    ((Aging k).level1List ++ (Aging k).level2List ++ (Aging k).level3List).Perm
      (k.level1List ++ k.level2List ++ k.level3List) ∧
    (Aging k).tmp = [] ∧
    (Aging k).WaitingList = k.WaitingList ∧
    ∀ t, ((Aging k).threads t).status = (k.threads t).status ∧
      ((Aging k).threads t).T = (k.threads t).T ∧
      ((Aging k).threads t).W = (k.threads t).W ∧
      ((Aging k).threads t).burstTime = (k.threads t).burstTime := by
  obtain ⟨hperm, ht⟩ := Aging_perm k
  rw [htmp, List.nil_append] at hperm
  refine ⟨hperm, ht, (Aging_fields k 0).2.2.2.2.2, ?_⟩
  intro t
  obtain ⟨⟨p, q, hpq⟩, -⟩ := Aging_fields k t
  rw [hpq]
  exact ⟨rfl, rfl, rfl, rfl⟩

/-- Witness for C21: `demoKernel`, whose six queued threads are redistributed by `Aging`. -/
theorem Aging_conserves_witness :
    demoKernel.tmp = [] ∧
    ((Aging demoKernel).level1List ++ (Aging demoKernel).level2List ++
      (Aging demoKernel).level3List).Perm [2, 1, 4, 3, 5, 6] ∧
    (Aging demoKernel).level2List = [4, 3, 5] ∧
    (Aging demoKernel).tmp = [] ∧ (Aging demoKernel).WaitingList = [7] := by
  obtain ⟨h1, h2, h3, -⟩ := Aging_conserves demoKernel rfl
  exact ⟨rfl, h1, by decide, h2, h3⟩

/-! ## C23: Aging never demotes -/

theorem agedThreads_low (l : List Nat) (h : Nat → Thread) (t : Nat) (hW : (h t).W < 1500) :
    agedThreads h l t = h t := by
  induction l generalizing h with
  | nil => rfl
  | cons a l ih =>
    have h1 : agedThreads h [a] t = h t := by
      rw [agedThreads_single]
      by_cases hta : t = a
      · subst hta
        rw [if_neg (fun hc => absurd hc.2 (not_le.mpr hW))]
      · rw [if_neg (fun hc => hta hc.1)]
    rw [agedThreads_cons, ih _ (by rw [h1]; exact hW), h1]

theorem iterate_UpdatePriority_bounds (n : Nat) (th : Thread) (h0 : 0 ≤ th.priority)
    (h1 : th.priority ≤ 149) :
    th.priority ≤ (Thread.UpdatePriority^[n] th).priority ∧
    (Thread.UpdatePriority^[n] th).priority ≤ 149 ∧
    (n ≤ 1 → (Thread.UpdatePriority^[n] th).priority ≤ th.priority + 10) := by
  induction n with
  | zero => exact ⟨le_refl _, h1, fun _ => by simp⟩
  | succ n ih =>
    obtain ⟨a, b, c⟩ := ih
    rw [Function.iterate_succ_apply']
    simp only [Thread.UpdatePriority]
    refine ⟨by omega, by omega, fun hn => ?_⟩
    have hn0 : n = 0 := by omega
    subst hn0
    simp only [Function.iterate_zero, id_eq]
    omega

theorem levelOfPriority_mono (p p' : Int) (h : p ≤ p') :
    levelOfPriority p' ≤ levelOfPriority p ∧
    (p' ≤ p + 10 → levelOfPriority p - 1 ≤ levelOfPriority p') := by
  unfold levelOfPriority
  constructor
  · split_ifs <;> omega
  · intro h10
    split_ifs <;> omega

/-- C23: `Aging` never demotes. In a state that satisfies the band invariant and whose queued
threads have priorities in 0..149, after `Aging` every queued thread has a priority at least
its previous one and still in 0..149, and a `queueLevel` at most its previous one; a thread
occurring once in the lists rises by at most one band. -/
theorem Aging_never_demotes (k : Kernel) (hband : BandInv k)
    (hrange : ∀ u ∈ k.level1List ++ k.level2List ++ k.level3List,
      0 ≤ (k.threads u).priority ∧ (k.threads u).priority ≤ 149)
    (t : Nat) (ht : t ∈ k.level1List ++ k.level2List ++ k.level3List) :
    (k.threads t).priority ≤ ((Aging k).threads t).priority ∧
    0 ≤ ((Aging k).threads t).priority ∧ ((Aging k).threads t).priority ≤ 149 ∧
    ((Aging k).threads t).queueLevel ≤ (k.threads t).queueLevel ∧
    ((k.level1List ++ k.level2List ++ k.level3List).count t = 1 →
      (k.threads t).queueLevel - 1 ≤ ((Aging k).threads t).queueLevel) := by
  obtain ⟨h0, h1⟩ := hrange t ht
  have hcount : (k.level3List ++ k.level2List ++ k.level1List).count t =
      (k.level1List ++ k.level2List ++ k.level3List).count t := by
    simp only [List.count_append]
    omega
  have hp : (k.threads t).priority ≤ ((Aging k).threads t).priority ∧
      ((Aging k).threads t).priority ≤ 149 ∧
      ((k.level1List ++ k.level2List ++ k.level3List).count t = 1 →
        ((Aging k).threads t).priority ≤ (k.threads t).priority + 10) := by
    rw [Aging_priority]
    by_cases hW : (k.threads t).W ≥ 1500
    · rw [agedThreads_iterate _ _ _ hW, hcount]
      obtain ⟨a, b, c⟩ := iterate_UpdatePriority_bounds
        ((k.level1List ++ k.level2List ++ k.level3List).count t) (k.threads t) h0 h1
      exact ⟨a, b, fun hc => c (by omega)⟩
    · rw [agedThreads_low _ _ _ (not_le.mp hW)]
      exact ⟨le_refl _, h1, fun _ => by omega⟩
  have hq : (k.threads t).queueLevel = levelOfPriority (k.threads t).priority := by
    obtain ⟨i1, i2, i3⟩ := hband
    simp only [List.mem_append] at ht
    rcases ht with (hm | hm) | hm
    · rw [(i1 t hm).1, (i1 t hm).2]
    · rw [(i2 t hm).1, (i2 t hm).2]
    · rw [(i3 t hm).1, (i3 t hm).2]
  have hq' : ((Aging k).threads t).queueLevel =
      levelOfPriority ((Aging k).threads t).priority := by
    have hm : t ∈ (Aging k).level1List ++ (Aging k).level2List ++ (Aging k).level3List := by
      rw [(Aging_perm k).1.mem_iff]
      exact List.mem_append_right _ ht
    obtain ⟨i1, i2, i3⟩ := BandInv_Aging k
    simp only [List.mem_append] at hm
    rcases hm with (hm | hm) | hm
    · rw [(i1 t hm).1, (i1 t hm).2]
    · rw [(i2 t hm).1, (i2 t hm).2]
    · rw [(i3 t hm).1, (i3 t hm).2]
  obtain ⟨a, b, c⟩ := hp
  obtain ⟨m1, m2⟩ := levelOfPriority_mono _ _ a
  refine ⟨a, by omega, b, ?_, ?_⟩
  · rw [hq, hq']
    exact m1
  · intro hc
    rw [hq, hq']
    exact m2 (c hc)

/-- Band invariant of `demoKernel`. -/
theorem BandInv_demoKernel : BandInv demoKernel := by
  unfold BandInv
  decide

/-- Witness for C23: thread 5 of `demoKernel` (L3, priority 40) rises to priority 50 and to
queue level 2. -/
theorem Aging_never_demotes_witness :
    BandInv demoKernel ∧
    (∀ u ∈ demoKernel.level1List ++ demoKernel.level2List ++ demoKernel.level3List,
      0 ≤ (demoKernel.threads u).priority ∧ (demoKernel.threads u).priority ≤ 149) ∧
    5 ∈ demoKernel.level1List ++ demoKernel.level2List ++ demoKernel.level3List ∧
    (demoKernel.threads 5).priority ≤ ((Aging demoKernel).threads 5).priority ∧
    ((Aging demoKernel).threads 5).priority = 50 ∧
    ((Aging demoKernel).threads 5).queueLevel ≤ (demoKernel.threads 5).queueLevel ∧
    ((Aging demoKernel).threads 5).queueLevel = 2 := by
  obtain ⟨h1, -, -, h4, -⟩ :=
    Aging_never_demotes demoKernel BandInv_demoKernel (by decide) 5 (by decide)
  exact ⟨BandInv_demoKernel, by decide, by decide, h1, by decide, h4, by decide⟩

/-! ## C25: frame of ReadyToRun and carry-over of waiting ticks -/

/-- C25: with interrupts disabled `ReadyToRun t` changes of the thread object of `t` only
`status` and `queueLevel` (priority, `T`, `W`, `burstTime`, `startRunningTick` and
`startWaitingTick` are unchanged) and changes no other thread object. Hence the waiting ticks
of `t` carry over into the ready queue: for `t` in no ready list with `W >= 1500` and priority
`p <= 139`, `ReadyToRun t` followed by `Aging` leaves `t` with priority `p + 10`. -/
theorem ReadyToRun_frame_carry (k : Kernel) (t : Nat) (hoff : k.intLevel = IntStatus.IntOff) :
    ∃ k', ReadyToRun k t = some k' ∧
      k'.threads t = { k.threads t with
        status := ThreadStatus.READY,
        queueLevel := levelOfPriority (k.threads t).priority } ∧
      (k'.threads t).priority = (k.threads t).priority ∧
      (k'.threads t).T = (k.threads t).T ∧
      (k'.threads t).W = (k.threads t).W ∧
      (k'.threads t).burstTime = (k.threads t).burstTime ∧
      (k'.threads t).startRunningTick = (k.threads t).startRunningTick ∧
      (k'.threads t).startWaitingTick = (k.threads t).startWaitingTick ∧
      (∀ u, u ≠ t → k'.threads u = k.threads u) ∧
      (t ∉ k.level1List → t ∉ k.level2List → t ∉ k.level3List →
        (k.threads t).W ≥ 1500 → (k.threads t).priority ≤ 139 →
        ((Aging k').threads t).priority = (k.threads t).priority + 10) := by
  have hr := ReadyToRun_eq k t hoff
  obtain ⟨-, -, hth⟩ := ReadyToRun_threads k _ t hr
  have ht : (InsertToReadyList
      { k with
        threads := Function.update k.threads t ((k.threads t).setStatus ThreadStatus.READY),
        WaitingList := if t ∈ k.WaitingList then k.WaitingList.erase t else k.WaitingList }
      t).threads t = { k.threads t with
        status := ThreadStatus.READY,
        queueLevel := levelOfPriority (k.threads t).priority } := by
    rw [hth, Function.update_same]
  refine ⟨_, hr, ht, by rw [ht], by rw [ht], by rw [ht], by rw [ht], by rw [ht], by rw [ht],
    ?_, ?_⟩
  · intro u hu
    rw [hth, Function.update_noteq hu]
  · intro h1 h2 h3 hW hp
    have hperm := InsertToReadyList_perm
      { k with
        threads := Function.update k.threads t ((k.threads t).setStatus ThreadStatus.READY),
        WaitingList := if t ∈ k.WaitingList then k.WaitingList.erase t else k.WaitingList } t
    have hc := hperm.count_eq t
    simp only [List.count_append, List.count_singleton_self,
      List.count_eq_zero_of_not_mem h1, List.count_eq_zero_of_not_mem h2,
      List.count_eq_zero_of_not_mem h3] at hc
    rw [Aging_priority, agedThreads_iterate _ _ _ (by rw [ht]; exact hW)]
    have hc' : List.count t ((InsertToReadyList
        { k with
          threads := Function.update k.threads t ((k.threads t).setStatus ThreadStatus.READY),
          WaitingList := if t ∈ k.WaitingList then k.WaitingList.erase t else k.WaitingList }
        t).level3List ++ (InsertToReadyList
        { k with
          threads := Function.update k.threads t ((k.threads t).setStatus ThreadStatus.READY),
          WaitingList := if t ∈ k.WaitingList then k.WaitingList.erase t else k.WaitingList }
        t).level2List ++ (InsertToReadyList
        { k with
          threads := Function.update k.threads t ((k.threads t).setStatus ThreadStatus.READY),
          WaitingList := if t ∈ k.WaitingList then k.WaitingList.erase t else k.WaitingList }
        t).level1List) = 1 := by
      simp only [List.count_append]
      omega
    rw [hc', ht]
    simp only [Function.iterate_one, Thread.UpdatePriority]
    omega

/-- Witness for C25: thread 7 of `demoCarry` (waiting list, priority 30, `W = 1700`) is made
ready and then promoted to priority 40 by `Aging`. -/
theorem ReadyToRun_frame_carry_witness :
    demoCarry.intLevel = IntStatus.IntOff ∧ 7 ∈ demoCarry.WaitingList ∧
    7 ∉ demoCarry.level1List ∧ 7 ∉ demoCarry.level2List ∧ 7 ∉ demoCarry.level3List ∧
    (demoCarry.threads 7).W ≥ 1500 ∧ (demoCarry.threads 7).priority ≤ 139 ∧
    (ReadyToRun demoCarry 7).map (fun k' =>
      ((k'.threads 7).W, ((Aging k').threads 7).priority)) = some (1700, 40) := by
  obtain ⟨k', h, -, -, -, hW, -, -, -, -, hA⟩ := ReadyToRun_frame_carry demoCarry 7 rfl
  refine ⟨rfl, by decide, by decide, by decide, by decide, by decide, by decide, ?_⟩
  rw [h, Option.map_some', hW,
    hA (by decide) (by decide) (by decide) (by decide) (by decide)]
  decide

/-! ## C22: Aging is the identity when nothing has aged -/

theorem agedThreads_eq_self (l : List Nat) (h : Nat → Thread)
    (hW : ∀ t ∈ l, (h t).W < 1500) : agedThreads h l = h := by
  funext t
  by_cases ht : t ∈ l
  · exact agedThreads_low l h t (hW t ht)
  · exact agedThreads_not_mem l h t ht

theorem SortedListInsert_end (c : Nat → Nat → Int) (x : Nat) (l : List Nat)
    (h : ∀ y ∈ l, ¬ c x y < 0) : SortedListInsert c x l = l ++ [x] := by
  induction l with
  | nil => rfl
  | cons y ys ih =>
    unfold SortedListInsert
    rw [if_neg (h y (List.mem_cons_self _ _)), ih (fun z hz => h z (List.mem_cons_of_mem _ hz))]
    rfl

/-- Reinsertion of a sequence whose members arrive in the order of their keys: every thread goes
to the end of the list of its level. -/
theorem foldl_InsertToReadyList_ends (h0 : Nat → Thread) (s : List Nat) (k : Kernel)
    (hk : ∀ t, (k.threads t).priority = (h0 t).priority ∧
      (k.threads t).burstTime = (h0 t).burstTime)
    (h1 : (k.level1List ++ s.filter (levelIs h0 1)).Pairwise
      (fun a b => (h0 a).burstTime ≤ (h0 b).burstTime))
    (h2 : (k.level2List ++ s.filter (levelIs h0 2)).Pairwise
      (fun a b => (h0 b).priority ≤ (h0 a).priority)) :
    (s.foldl InsertToReadyList k).level1List = k.level1List ++ s.filter (levelIs h0 1) ∧
    (s.foldl InsertToReadyList k).level2List = k.level2List ++ s.filter (levelIs h0 2) ∧
    (s.foldl InsertToReadyList k).level3List = k.level3List ++ s.filter (levelIs h0 3) := by
  induction s generalizing k with
  | nil => simp
  | cons a s ih =>
    have hk' : ∀ t, ((InsertToReadyList k a).threads t).priority = (h0 t).priority ∧
        ((InsertToReadyList k a).threads t).burstTime = (h0 t).burstTime := by
      intro t
      rw [InsertToReadyList_priority, InsertToReadyList_burstTime]
      exact hk t
    rw [List.foldl_cons]
    rcases InsertToReadyList_lists k a with ⟨hl, e3, e2, e1⟩ | ⟨hl, e3, e1, c, hc, e2⟩ |
      ⟨hl, e3, e2, c, hc, e1⟩
    · rw [(hk a).1] at hl
      have f1 : levelIs h0 1 a = false := by simp [levelIs, hl]
      have f2 : levelIs h0 2 a = false := by simp [levelIs, hl]
      have f3 : levelIs h0 3 a = true := by simp [levelIs, hl]
      simp only [List.filter_cons, f1, f2, f3] at h1 h2 ⊢
      obtain ⟨r1, r2, r3⟩ := ih (InsertToReadyList k a) hk' (by rw [e1]; exact h1)
        (by rw [e2]; exact h2)
      rw [r1, r2, r3, e1, e2, e3]
      simp
    · rw [(hk a).1] at hl
      have f1 : levelIs h0 1 a = false := by simp [levelIs, hl]
      have f2 : levelIs h0 2 a = true := by simp [levelIs, hl]
      have f3 : levelIs h0 3 a = false := by simp [levelIs, hl]
      simp only [List.filter_cons, f1, f2, f3] at h1 h2 ⊢
      have hend : (InsertToReadyList k a).level2List = k.level2List ++ [a] := by
        rw [e2]
        apply SortedListInsert_end
        intro y hy
        rw [hc, (hk a).1, (hk y).1, not_lt]
        exact (List.pairwise_append.mp h2).2.2 y hy a (List.mem_cons_self _ _)
      obtain ⟨r1, r2, r3⟩ := ih (InsertToReadyList k a) hk' (by rw [e1]; exact h1)
        (by rw [hend, List.append_assoc]; exact h2)
      rw [r1, r2, r3, e1, hend, e3]
      simp
    · rw [(hk a).1] at hl
      have f1 : levelIs h0 1 a = true := by simp [levelIs, hl]
      have f2 : levelIs h0 2 a = false := by simp [levelIs, hl]
      have f3 : levelIs h0 3 a = false := by simp [levelIs, hl]
      simp only [List.filter_cons, f1, f2, f3] at h1 h2 ⊢
      have hend : (InsertToReadyList k a).level1List = k.level1List ++ [a] := by
        rw [e1]
        apply SortedListInsert_end
        intro y hy
        rw [hc, (hk a).2, (hk y).2, not_lt]
        exact (List.pairwise_append.mp h1).2.2 y hy a (List.mem_cons_self _ _)
      obtain ⟨r1, r2, r3⟩ := ih (InsertToReadyList k a) hk'
        (by rw [hend, List.append_assoc]; exact h1) (by rw [e2]; exact h2)
      rw [r1, r2, r3, hend, e2, e3]
      simp

/-- C22: `Aging` is the identity when nothing has aged. In a state with the scratch buffer
empty that satisfies the band invariant, has L1 sorted ascending by `burstTime` and L2 sorted
descending by priority, and in which every queued thread has `W < 1500`, the three ready lists
after `Aging` are the lists before the call, element by element and in the same order. -/
theorem Aging_identity (k : Kernel) (htmp : k.tmp = []) (hband : BandInv k)
    (hs : SortedInv k)
    (hW : ∀ t ∈ k.level1List ++ k.level2List ++ k.level3List, (k.threads t).W < 1500) :
    (Aging k).level1List = k.level1List ∧ (Aging k).level2List = k.level2List ∧
    (Aging k).level3List = k.level3List := by
  obtain ⟨i1, i2, i3⟩ := hband
  obtain ⟨s1, s2⟩ := hs
  have haged : agedThreads k.threads (k.level3List ++ k.level2List ++ k.level1List) =
      k.threads := by
    apply agedThreads_eq_self
    intro t ht
    apply hW
    simp only [List.mem_append] at ht ⊢
    tauto
  have g1 : (k.level3List ++ k.level2List ++ k.level1List).filter (levelIs k.threads 1) =
      k.level1List := by
    rw [List.filter_append, List.filter_append,
      List.filter_eq_nil_iff.mpr (fun a ha => by simp [levelIs, (i3 a ha).2]),
      List.filter_eq_nil_iff.mpr (fun a ha => by simp [levelIs, (i2 a ha).2]),
      List.filter_eq_self.mpr (fun a ha => by simp [levelIs, (i1 a ha).2])]
    rfl
  have g2 : (k.level3List ++ k.level2List ++ k.level1List).filter (levelIs k.threads 2) =
      k.level2List := by
    rw [List.filter_append, List.filter_append,
      List.filter_eq_nil_iff.mpr (fun a ha => by simp [levelIs, (i3 a ha).2]),
      List.filter_eq_self.mpr (fun a ha => by simp [levelIs, (i2 a ha).2]),
      List.filter_eq_nil_iff.mpr (fun a ha => by simp [levelIs, (i1 a ha).2])]
    simp
  have g3 : (k.level3List ++ k.level2List ++ k.level1List).filter (levelIs k.threads 3) =
      k.level3List := by
    rw [List.filter_append, List.filter_append,
      List.filter_eq_self.mpr (fun a ha => by simp [levelIs, (i3 a ha).2]),
      List.filter_eq_nil_iff.mpr (fun a ha => by simp [levelIs, (i2 a ha).2]),
      List.filter_eq_nil_iff.mpr (fun a ha => by simp [levelIs, (i1 a ha).2])]
    simp
  obtain ⟨r1, r2, r3⟩ := foldl_InsertToReadyList_ends k.threads
    (k.level3List ++ k.level2List ++ k.level1List) (AgingDrained k)
    (by
      intro t
      have e : (AgingDrained k).threads = k.threads := haged
      rw [e]
      exact ⟨rfl, rfl⟩)
    (by rw [g1]; simpa [AgingDrained] using s1)
    (by rw [g2]; simpa [AgingDrained] using s2)
  rw [Aging_eq, htmp, List.nil_append, r1, r2, r3, g1, g2, g3]
  simp [AgingDrained]

/-- Witness for C22: `demoCalm` (L1 = [2, 1], L2 = [4, 3], L3 = [5, 6], every `W` zero). -/
theorem Aging_identity_witness :
    demoCalm.tmp = [] ∧ BandInv demoCalm ∧ SortedInv demoCalm ∧
    (∀ t ∈ demoCalm.level1List ++ demoCalm.level2List ++ demoCalm.level3List,
      (demoCalm.threads t).W < 1500) ∧
    (Aging demoCalm).level1List = [2, 1] ∧ (Aging demoCalm).level2List = [4, 3] ∧
    (Aging demoCalm).level3List = [5, 6] := by
  have hb : BandInv demoCalm := by
    unfold BandInv
    decide
  have hs : SortedInv demoCalm := by
    unfold SortedInv
    decide
  obtain ⟨h1, h2, h3⟩ := Aging_identity demoCalm rfl hb hs (by decide)
  exact ⟨rfl, hb, hs, by decide, h1, h2, h3⟩

/-! ## C24: tie order after a promotion across bands -/

theorem SortedListInsert_filter {κ : Type} [LinearOrder κ] (key : Nat → κ)
    (c : Nat → Nat → Int) (hc : ∀ a b, c a b < 0 ↔ key a < key b) (x : Nat) (l : List Nat)
    (hl : l.Pairwise (fun a b => key a ≤ key b)) (v : κ) :
    (SortedListInsert c x l).filter (fun t => decide (key t = v)) =
      l.filter (fun t => decide (key t = v)) ++ (if key x = v then [x] else []) := by
  obtain ⟨l1, l2, e, e', -, hb⟩ := SortedListInsert_split key c hc x l hl
  rw [e', e, List.filter_append, List.filter_append, List.filter_cons]
  by_cases hx : key x = v
  · have h2 : l2.filter (fun t => decide (key t = v)) = [] := by
      rw [List.filter_eq_nil_iff]
      intro b hbm
      have := hb b hbm
      rw [hx] at this
      simp [ne_of_gt this]
    simp [hx, h2]
  · simp [hx]

/-- Stability of the reinsertion: among the threads of one level with one value of the sort key
the list keeps the order of insertion. -/
theorem foldl_InsertToReadyList_ties (h0 : Nat → Thread) (s : List Nat) (k : Kernel)
    (hk : ∀ t, (k.threads t).priority = (h0 t).priority ∧
      (k.threads t).burstTime = (h0 t).burstTime)
    (h1 : k.level1List.Pairwise (fun a b => (h0 a).burstTime ≤ (h0 b).burstTime))
    (h2 : k.level2List.Pairwise (fun a b => -(h0 a).priority ≤ -(h0 b).priority))
    (v : Int) (b : ℚ) :
    (s.foldl InsertToReadyList k).level1List.filter (fun t => decide ((h0 t).burstTime = b)) =
      k.level1List.filter (fun t => decide ((h0 t).burstTime = b)) ++
        s.filter (fun t => levelIs h0 1 t && decide ((h0 t).burstTime = b)) ∧
    (s.foldl InsertToReadyList k).level2List.filter
        (fun t => decide (-(h0 t).priority = -v)) =
      k.level2List.filter (fun t => decide (-(h0 t).priority = -v)) ++
        s.filter (fun t => levelIs h0 2 t && decide (-(h0 t).priority = -v)) := by
  induction s generalizing k with
  | nil => simp
  | cons a s ih =>
    have hk' : ∀ t, ((InsertToReadyList k a).threads t).priority = (h0 t).priority ∧
        ((InsertToReadyList k a).threads t).burstTime = (h0 t).burstTime := by
      intro t
      rw [InsertToReadyList_priority, InsertToReadyList_burstTime]
      exact hk t
    rw [List.foldl_cons]
    rcases InsertToReadyList_lists k a with ⟨hl, -, e2, e1⟩ | ⟨hl, -, e1, c, hc, e2⟩ |
      ⟨hl, -, e2, c, hc, e1⟩
    · rw [(hk a).1] at hl
      have f1 : levelIs h0 1 a = false := by simp [levelIs, hl]
      have f2 : levelIs h0 2 a = false := by simp [levelIs, hl]
      obtain ⟨r1, r2⟩ := ih (InsertToReadyList k a) hk' (by rw [e1]; exact h1)
        (by rw [e2]; exact h2)
      rw [r1, r2, e1, e2]
      simp [List.filter_cons, f1, f2]
    · rw [(hk a).1] at hl
      have f1 : levelIs h0 1 a = false := by simp [levelIs, hl]
      have f2 : levelIs h0 2 a = true := by simp [levelIs, hl]
      have hc' : ∀ x y, c x y < 0 ↔ -(h0 x).priority < -(h0 y).priority := by
        intro x y
        rw [hc, (hk x).1, (hk y).1, neg_lt_neg_iff]
      obtain ⟨r1, r2⟩ := ih (InsertToReadyList k a) hk' (by rw [e1]; exact h1)
        (by rw [e2]; exact SortedListInsert_sorted _ c hc' a _ h2)
      rw [r1, r2, e1, e2, SortedListInsert_filter _ c hc' a _ h2]
      by_cases hv : (h0 a).priority = v
      · simp [List.filter_cons, f1, f2, hv]
      · simp [List.filter_cons, f1, f2, hv]
    · rw [(hk a).1] at hl
      have f1 : levelIs h0 1 a = true := by simp [levelIs, hl]
      have f2 : levelIs h0 2 a = false := by simp [levelIs, hl]
      have hc' : ∀ x y, c x y < 0 ↔ (h0 x).burstTime < (h0 y).burstTime := by
        intro x y
        rw [hc, (hk x).2, (hk y).2]
      obtain ⟨r1, r2⟩ := ih (InsertToReadyList k a) hk'
        (by rw [e1]; exact SortedListInsert_sorted _ c hc' a _ h1) (by rw [e2]; exact h2)
      rw [r1, r2, e1, e2, SortedListInsert_filter _ c hc' a _ h1]
      by_cases hv : (h0 a).burstTime = b
      · simp [List.filter_cons, f1, f2, hv]
      · simp [List.filter_cons, f1, f2, hv]

theorem pair_sublist_append_of_mem (a b : Nat) (X Y : List Nat) (ha : a ∈ X) (hb : b ∈ Y) :
    [a, b].Sublist (X ++ Y) :=
  List.Sublist.append (List.singleton_sublist.mpr ha) (List.singleton_sublist.mpr hb)

theorem pair_sublist_append_cases (a b : Nat) (X Y : List Nat)
    (h : [b, a].Sublist (X ++ Y)) : b ∈ X ∨ a ∈ Y := by
  obtain ⟨l1, l2, e, s1, s2⟩ := List.sublist_append_iff.mp h
  cases l1 with
  | nil =>
    rw [List.nil_append] at e
    subst e
    exact Or.inr (s2.subset (by simp))
  | cons x l1 =>
    simp only [List.cons_append, List.cons.injEq] at e
    obtain ⟨rfl, -⟩ := e
    exact Or.inl (s1.subset (List.mem_cons_self _ _))

theorem agedThreads_level1 (l : List Nat) (h : Nat → Thread) (t : Nat)
    (hp : 99 < (h t).priority) : 99 < (agedThreads h l t).priority := by
  induction l generalizing h with
  | nil => exact hp
  | cons a l ih =>
    rw [agedThreads_cons]
    apply ih
    rw [agedThreads_single]
    split_ifs with hc
    · rw [← hc.1]
      simp only [Thread.UpdatePriority]
      omega
    · exact hp

theorem Aging_burstTime (k : Kernel) (t : Nat) :
    ((Aging k).threads t).burstTime =
      (agedThreads k.threads (k.level3List ++ k.level2List ++ k.level1List) t).burstTime := by
  obtain ⟨⟨p, q, e⟩, -⟩ := Aging_fields k t
  obtain ⟨p', e'⟩ := agedThreads_fields (k.level3List ++ k.level2List ++ k.level1List)
    k.threads t
  rw [e, e']

/-- C24: in a state with the scratch buffer empty that satisfies the band invariant, a thread
`A` of L3 that `Aging` routes to L2 stands in L2 ahead of every thread `B` that was in L2 and has
the same priority after the call (some occurrence of `A` precedes one of `B`, none follows one);
likewise a thread `A` of L2 that `Aging` routes to L1 stands in L1 ahead of every thread `B` that
was in L1 and has the same `burstTime`. -/
theorem Aging_tie_order (k : Kernel) (htmp : k.tmp = []) (hband : BandInv k) (A B : Nat) :
    (A ∈ k.level3List → B ∈ k.level2List →
      levelOfPriority ((Aging k).threads A).priority = 2 →
      ((Aging k).threads B).priority = ((Aging k).threads A).priority →
      [A, B].Sublist (Aging k).level2List ∧ ¬ [B, A].Sublist (Aging k).level2List) ∧
    (A ∈ k.level2List → B ∈ k.level1List →
      levelOfPriority ((Aging k).threads A).priority = 1 →
      ((Aging k).threads B).burstTime = ((Aging k).threads A).burstTime →
      [A, B].Sublist (Aging k).level1List ∧ ¬ [B, A].Sublist (Aging k).level1List) := by
  obtain ⟨i1, i2, i3⟩ := hband
  obtain ⟨r1, r2⟩ := foldl_InsertToReadyList_ties
    (agedThreads k.threads (k.level3List ++ k.level2List ++ k.level1List))
    (k.level3List ++ k.level2List ++ k.level1List) (AgingDrained k)
    (fun t => ⟨rfl, rfl⟩) List.Pairwise.nil List.Pairwise.nil
    (agedThreads k.threads (k.level3List ++ k.level2List ++ k.level1List) A).priority
    (agedThreads k.threads (k.level3List ++ k.level2List ++ k.level1List) A).burstTime
  have d1 : (AgingDrained k).level1List = [] := rfl
  have d2 : (AgingDrained k).level2List = [] := rfl
  rw [d1, List.filter_nil, List.nil_append] at r1
  rw [d2, List.filter_nil, List.nil_append] at r2
  have hA : Aging k = (k.level3List ++ k.level2List ++ k.level1List).foldl InsertToReadyList
      (AgingDrained k) := by
    rw [Aging_eq, htmp, List.nil_append]
  rw [← hA] at r1 r2
  generalize hh : agedThreads k.threads (k.level3List ++ k.level2List ++ k.level1List) = h0
    at r1 r2
  constructor
  · intro hA3 hB2 hlA hpe
    rw [Aging_priority, hh] at hlA
    rw [Aging_priority, Aging_priority, hh] at hpe
    rw [List.filter_append, List.filter_append] at r2
    have qA : A ∈ k.level3List.filter (fun t =>
        levelIs h0 2 t && decide (-(h0 t).priority = -(h0 A).priority)) := by
      rw [List.mem_filter]
      exact ⟨hA3, by simp [levelIs, hlA]⟩
    have qB : B ∈ k.level2List.filter (fun t =>
        levelIs h0 2 t && decide (-(h0 t).priority = -(h0 A).priority)) := by
      rw [List.mem_filter]
      exact ⟨hB2, by simp [levelIs, hpe, hlA]⟩
    constructor
    · have h := (pair_sublist_append_of_mem A B _ _ qA qB).trans
        (List.sublist_append_left _ (k.level1List.filter (fun t =>
          levelIs h0 2 t && decide (-(h0 t).priority = -(h0 A).priority))))
      rw [← r2] at h
      exact h.trans (List.filter_sublist _)
    · intro hsub
      have h := hsub.filter (fun t => decide (-(h0 t).priority = -(h0 A).priority))
      rw [r2, List.append_assoc] at h
      have e : [B, A].filter (fun t => decide (-(h0 t).priority = -(h0 A).priority)) = [B, A] := by
        simp [List.filter_cons, hpe]
      rw [e] at h
      rcases pair_sublist_append_cases A B _ _ h with hb | ha
      · have q3 := (i3 B (List.mem_of_mem_filter hb)).1
        have q2 := (i2 B hB2).1
        omega
      · have q3 := (i3 A hA3).1
        rcases List.mem_append.mp ha with ha | ha
        · have q2 := (i2 A (List.mem_of_mem_filter ha)).1
          omega
        · have q1 := (i1 A (List.mem_of_mem_filter ha)).1
          omega
  · intro hA2 hB1 hlA hbe
    rw [Aging_priority, hh] at hlA
    rw [Aging_burstTime, Aging_burstTime, hh] at hbe
    rw [List.filter_append] at r1
    have hlB : levelOfPriority (h0 B).priority = 1 := by
      have h0 := (i1 B hB1).2
      have h1 : 99 < (k.threads B).priority := by
        unfold levelOfPriority at h0
        split_ifs at h0 <;> omega
      have h2 := agedThreads_level1 (k.level3List ++ k.level2List ++ k.level1List)
        k.threads B h1
      rw [hh] at h2
      unfold levelOfPriority
      split_ifs <;> omega
    have qA : A ∈ (k.level3List ++ k.level2List).filter (fun t =>
        levelIs h0 1 t && decide ((h0 t).burstTime = (h0 A).burstTime)) := by
      rw [List.mem_filter]
      exact ⟨List.mem_append_right _ hA2, by simp [levelIs, hlA]⟩
    have qB : B ∈ k.level1List.filter (fun t =>
        levelIs h0 1 t && decide ((h0 t).burstTime = (h0 A).burstTime)) := by
      rw [List.mem_filter]
      exact ⟨hB1, by simp [levelIs, hbe, hlB]⟩
    constructor
    · have h := pair_sublist_append_of_mem A B _ _ qA qB
      rw [← r1] at h
      exact h.trans (List.filter_sublist _)
    · intro hsub
      have h := hsub.filter (fun t => decide ((h0 t).burstTime = (h0 A).burstTime))
      rw [r1] at h
      have e : [B, A].filter (fun t => decide ((h0 t).burstTime = (h0 A).burstTime)) = [B, A] := by
        simp [List.filter_cons, hbe]
      rw [e] at h
      rcases pair_sublist_append_cases A B _ _ h with hb | ha
      · have q1 := (i1 B hB1).1
        rcases List.mem_append.mp (List.mem_of_mem_filter hb) with hb | hb
        · have q3 := (i3 B hb).1
          omega
        · have q2 := (i2 B hb).1
          omega
      · have q1 := (i1 A (List.mem_of_mem_filter ha)).1
        have q2 := (i2 A hA2).1
        omega

/-- Witness for C24: in `demoTie` aging lifts thread 5 of L3 to priority 50, the priority of
thread 3 of L2, and thread 4 of L2 into band 1 with the burst estimate of thread 2 of L1; the
lists after the call are L2 = [5, 3] and L1 = [4, 2, 1]. -/
theorem Aging_tie_order_witness :
    demoTie.tmp = [] ∧ BandInv demoTie ∧
    (5 ∈ demoTie.level3List ∧ 3 ∈ demoTie.level2List ∧
      levelOfPriority ((Aging demoTie).threads 5).priority = 2 ∧
      ((Aging demoTie).threads 3).priority = ((Aging demoTie).threads 5).priority ∧
      [5, 3].Sublist (Aging demoTie).level2List ∧
      ¬ [3, 5].Sublist (Aging demoTie).level2List) ∧
    (4 ∈ demoTie.level2List ∧ 2 ∈ demoTie.level1List ∧
      levelOfPriority ((Aging demoTie).threads 4).priority = 1 ∧
      ((Aging demoTie).threads 2).burstTime = ((Aging demoTie).threads 4).burstTime ∧
      [4, 2].Sublist (Aging demoTie).level1List ∧
      ¬ [2, 4].Sublist (Aging demoTie).level1List) ∧
    (Aging demoTie).level2List = [5, 3] ∧ (Aging demoTie).level1List = [4, 2, 1] := by
  have hb : BandInv demoTie := by
    unfold BandInv
    decide
  have h53 := (Aging_tie_order demoTie rfl hb 5 3).1 (by decide) (by decide) (by decide)
    (by decide)
  have h42 := (Aging_tie_order demoTie rfl hb 4 2).2 (by decide) (by decide) (by decide)
    (by decide)
  exact ⟨rfl, hb, ⟨by decide, by decide, by decide, by decide, h53.1, h53.2⟩,
    ⟨by decide, by decide, by decide, by decide, h42.1, h42.2⟩, by decide, by decide⟩

end Nachos
